import Mathlib

/-!
# React-Movie-App: discovery feed and favorites store

A shallow embedding of the state logic of `src/screens/HomeScreen.js`,
`src/App.js` and `src/screens/FavoritesScreen.js`, and of the two formatting
helpers of `src/screens/DetailsScreen.js`.  React state cells become
fields of a record, an `async` function becomes a pair of transitions (the part
before `await`, and the continuation run when the response is delivered), array
callbacks are translated together with their index arguments, timers are kept
in an explicit list with a clock, and in-place array operations act on an
explicit store.
-/

namespace MovieApp

/-! ## Data model -/

/-- A movie summary as delivered by the catalog.  Identity is `id`; two records
with the same `id` may still differ in their other fields. -/
structure Movie where
  id : Int
  title : Option String := none
  release_date : Option String := none
  deriving DecidableEq, Repr

/-! ## Array primitives used by the source -/

/-- Loop of `Array.prototype.findIndex`: index of the first element satisfying
`p`, counted from `i`, or `-1`. -/
def findIndexAux {α : Type} (p : α → Bool) : List α → Nat → Int
  | [], _ => -1
  | x :: xs, i => if p x then (i : Int) else findIndexAux p xs (i + 1)

/-- The call `a.findIndex(p)`. -/
def findIndex {α : Type} (p : α → Bool) (a : List α) : Int :=
  findIndexAux p a 0

/-- Loop of `Array.prototype.filter` with the three-argument callback
`(v, i, a)`: `a` is the whole array, `i` the index of `v` in it. -/
def filterAux {α : Type} (f : α → Nat → List α → Bool) (a : List α) : List α → Nat → List α
  | [], _ => []
  | v :: vs, i => if f v i a then v :: filterAux f a vs (i + 1) else filterAux f a vs (i + 1)

/-- The call `a.filter((v, i, a) => f v i a)`. -/
def arrayFilter {α : Type} (f : α → Nat → List α → Bool) (a : List α) : List α :=
  filterAux f a a 0

/-- The expression `combined.filter((v, i, a) => a.findIndex((t) => t.id === v.id) === i)`
(HomeScreen.js line 67). -/
def uniqueById (combined : List Movie) : List Movie :=
  arrayFilter (fun v i a => findIndex (fun t => t.id == v.id) a == (i : Int)) combined

/-- Sequential pass that keeps an element exactly when its id has not been met
before; `seen` holds the ids met so far. -/
def keepFresh (seen : List Int) : List Movie → List Movie
  | [] => []
  | x :: xs =>
    if x.id ∈ seen then keepFresh seen xs else x :: keepFresh (x.id :: seen) xs

/-! ## HomeScreen state (HomeScreen.js lines 19-31) -/

/-- The `useState` cells of `HomeScreen` that the feed logic reads or writes. -/
structure HomeState where
  movies : List Movie := []
  selectedGenre : Option Int := none
  searchQuery : String := ""
  debouncedQuery : String := ""
  page : Nat := 1
  totalPages : Int := 1
  loading : Bool := false
  refreshing : Bool := false
  error : Option String := none
  deriving DecidableEq, Repr

/-- Line 31: `const hasMore = page < totalPages;` -/
def hasMore (s : HomeState) : Bool := decide ((s.page : Int) < s.totalPages)

/-- The constant `API_KEY` of HomeScreen.js line 16. -/
def API_KEY : String := "82f823b60a578d4233a3902227a3f1e2"

/-- Characters that `encodeURIComponent` leaves unescaped: ASCII letters, digits and
`- _ . ! ~ * ' ( )`. -/
def isUnescaped (c : Char) : Bool :=
  c.isAlphanum || c == '-' || c == '_' || c == '.' || c == '!' || c == '~' || c == '*' ||
    c == Char.ofNat 39 || c == '(' || c == ')'

/-- Upper-case hexadecimal digit of a nibble. -/
def hexUpper (n : Nat) : Char :=
  if n < 10 then Char.ofNat (48 + n) else Char.ofNat (55 + n)

/-- UTF-8 code units of a character, as numbers below 256. -/
def utf8Units (c : Char) : List Nat :=
  let v := c.toNat
  if v ≤ 0x7f then [v]
  else if v ≤ 0x7ff then [0xc0 + v / 64, 0x80 + v % 64]
  else if v ≤ 0xffff then [0xe0 + v / 4096, 0x80 + v / 64 % 64, 0x80 + v % 64]
  else [0xf0 + v / 262144, 0x80 + v / 4096 % 64, 0x80 + v / 64 % 64, 0x80 + v % 64]

/-- Percent-escape of one code unit: `%XY`. -/
def percentUnit (b : Nat) : List Char :=
  ['%', hexUpper (b / 16 % 16), hexUpper (b % 16)]

/-- The ECMAScript builtin `encodeURIComponent` on a well-formed string: every
character outside the unescaped set is replaced by the percent-escapes of its
UTF-8 code units. -/
def encodeURIComponent (s : String) : String :=
  String.mk (s.data.flatMap (fun c =>
    if isUnescaped c then [c] else (utf8Units c).flatMap percentUnit))

/-- The template literals of HomeScreen.js lines 53-58, as a function of the
three values they interpolate.  A string is truthy exactly when it is non-empty;
`selectedGenre` is truthy exactly when it is neither `null` nor `0`. -/
def buildUrl (debouncedQuery : String) (selectedGenre : Option Int) (pageToLoad : Nat) : String :=
  let q := encodeURIComponent debouncedQuery
  if debouncedQuery != "" then
    "https://api.themoviedb.org/3/search/movie?api_key=" ++ API_KEY ++ "&query=" ++ q ++
      "&page=" ++ toString pageToLoad
  else
    "https://api.themoviedb.org/3/discover/movie?api_key=" ++ API_KEY ++ "&page=" ++
      toString pageToLoad ++
      (match selectedGenre with
       | some g => if g != 0 then "&with_genres=" ++ toString g else ""
       | none => "")

/-- The value `res.data` restricted to the two fields `fetchMovies` destructures; a field
that is absent is `none`. -/
structure ResponseData where
  results : Option (List Movie) := none
  total_pages : Option Int := none
  deriving DecidableEq, Repr

/-- How `await axios.get(url)` ends: it resolves with `res.data` (possibly
null), or it rejects. -/
inductive Outcome where
  | resolved (data : Option ResponseData)
  | rejected
  deriving DecidableEq, Repr

/-- First component of `const { results = [], total_pages = 1 } = res.data || {};`. -/
def resultsOf (data : Option ResponseData) : List Movie :=
  match data with
  | some d => d.results.getD []
  | none => []

/-- Second component of `const { results = [], total_pages = 1 } = res.data || {};`. -/
def totalPagesOf (data : Option ResponseData) : Int :=
  match data with
  | some d => d.total_pages.getD 1
  | none => 1

/-- A request that has been sent and whose response has not been delivered.
`reset` is the argument of the `fetchMovies` call that sent it, `refresh` tells
whether the call was awaited by `onRefresh`.  `issuedAt` is bookkeeping of the
model only (no transition reads it): the value of the change counter when the
request was sent. -/
structure Request where
  url : String
  reset : Bool
  refresh : Bool := false
  issuedAt : Nat := 0
  deriving DecidableEq, Repr

/-- The generic message of the `catch` branch (line 72). -/
def errorMessage : String := "Something went wrong. Please try again."

/-- Lines 49-58 of `fetchMovies(reset)`: the part that runs before `await`.
`c` is the render whose closure the call reads (`page`, `debouncedQuery`,
`selectedGenre`); `s` is the state the setters act on. -/
def fetchMoviesBegin (c : HomeState) (reset : Bool) (s : HomeState) : HomeState × Request :=
  let s1 := { s with error := none }
  let s2 := { s1 with loading := true }
  let pageToLoad := if reset then 1 else c.page
  (s2, { url := buildUrl c.debouncedQuery c.selectedGenre pageToLoad, reset := reset })

/-- Lines 61-75 of `fetchMovies(reset)`: the continuation that runs when the
awaited request settles, acting on the state `s` current at that time. -/
def fetchMoviesDone (reset : Bool) (o : Outcome) (s : HomeState) : HomeState :=
  match o with
  | Outcome.resolved data =>
    let results := resultsOf data
    let total_pages := totalPagesOf data
    let s1 := { s with totalPages := total_pages }
    let combined := if reset then results else s1.movies ++ results
    let s2 := { s1 with movies := uniqueById combined }
    { s2 with loading := false }
  | Outcome.rejected =>
    let s1 := { s with error := some errorMessage }
    { s1 with loading := false }

/-- The effect `useEffect(() => { setPage(1); fetchMovies(true); }, [debouncedQuery, selectedGenre])`
run for the render `s`. -/
def resetEffect (s : HomeState) : HomeState × Request :=
  fetchMoviesBegin s true { s with page := 1 }

/-- The effect `useEffect(() => { if (page > 1) fetchMovies(); }, [page])` run for the
render `s`. -/
def pageEffect (s : HomeState) : HomeState × List Request :=
  if s.page > 1 then
    let r := fetchMoviesBegin s false s
    (r.1, [r.2])
  else (s, [])

/-- The handler `loadMore` (lines 101-103) followed by the effect that the page change
triggers.  Returns the new state and the requests sent. -/
def loadMore (s : HomeState) : HomeState × List Request :=
  if !s.loading && hasMore s then pageEffect { s with page := s.page + 1 }
  else (s, [])

/-- One complete `fetchMovies(reset)` call with nothing happening in between. -/
def fetchMovies (reset : Bool) (o : Outcome) (s : HomeState) : HomeState :=
  fetchMoviesDone reset o (fetchMoviesBegin s reset s).1

/-- The state before the first render. -/
def initState : HomeState := {}

/-- White space and line terminators of ECMAScript, the characters that
`String.prototype.trim` strips. -/
def isJsSpace (c : Char) : Bool :=
  let v := c.toNat
  v == 9 || v == 10 || v == 11 || v == 12 || v == 13 || v == 32 || v == 160 || v == 0x1680 ||
    (0x2000 ≤ v && v ≤ 0x200A) || v == 0x2028 || v == 0x2029 || v == 0x202F || v == 0x205F ||
    v == 0x3000 || v == 0xFEFF

/-- The call `s.trim()`. -/
def jsTrim (s : String) : String :=
  String.mk ((s.data.dropWhile isJsSpace).reverse.dropWhile isJsSpace).reverse

/-! ## The feed as a transition system

`Feed` pairs the component state with the requests in flight.  An event is one
of the things that can happen to a mounted `HomeScreen`; `step` runs the handler
and the effects it triggers up to the next `await`. -/

/-- Component state, requests in flight (oldest first), and a counter of the
changes of `debouncedQuery`, `selectedGenre` and `page` so far.  The counter is
bookkeeping of the model: the source keeps no such value. -/
structure Feed where
  st : HomeState
  inflight : List Request := []
  changes : Nat := 0
  deriving DecidableEq, Repr

inductive Event where
  /-- Typing: `onChangeText={setSearchQuery}`. -/
  | typeText (text : String)
  /-- The timer of lines 33-36 fires: `setDebouncedQuery(searchQuery.trim())` -/
  | debounceFire
  /-- A genre chip is pressed: `setSelectedGenre(item.id)` -/
  | selectGenre (g : Option Int)
  /-- End of list reached: `onEndReached={loadMore}`. -/
  | loadMore
  /-- Pull to refresh: `onRefresh`. -/
  | refresh
  /-- Keyboard submit, `onSubmitEditing`: `setPage(1); fetchMovies(true)`. -/
  | submit
  /-- The Retry button of the error banner: `fetchMovies(true)` -/
  | retry
  /-- The response of the request at position `i` of `inflight` arrives -/
  | deliver (i : Nat) (o : Outcome)
  deriving DecidableEq, Repr

/-- Sends the request `r` produced in state `s`, stamping it with the counter. -/
def Feed.send (f : Feed) (changes : Nat) (s : HomeState) (rs : List Request) : Feed :=
  { st := s, inflight := f.inflight ++ rs.map (fun r => { r with issuedAt := changes }),
    changes := changes }

/-- Runs the reset effect for a render `s` in which `debouncedQuery` or
`selectedGenre` differs from the previous render. -/
def Feed.reset (f : Feed) (s : HomeState) : Feed :=
  let r := resetEffect s
  f.send (f.changes + 1) r.1 [r.2]

/-- One event.  `setState` with an unchanged value causes no render and hence
no effect.  After `setPage(1)` the page effect finds `page > 1` false and does
nothing, so it is not listed. -/
def step (f : Feed) : Event → Feed
  | Event.typeText text => { f with st := { f.st with searchQuery := text } }
  | Event.debounceFire =>
    let d := jsTrim f.st.searchQuery
    if d = f.st.debouncedQuery then f else f.reset { f.st with debouncedQuery := d }
  | Event.selectGenre g =>
    if g = f.st.selectedGenre then f else f.reset { f.st with selectedGenre := g }
  | Event.loadMore =>
    let r := loadMore f.st
    f.send (if r.1.page = f.st.page then f.changes else f.changes + 1) r.1 r.2
  | Event.refresh =>
    let s1 := { f.st with refreshing := true }
    let r := fetchMoviesBegin f.st true { s1 with page := 1 }
    f.send (if f.st.page = 1 then f.changes else f.changes + 1) r.1 [{ r.2 with refresh := true }]
  | Event.submit =>
    let r := fetchMoviesBegin f.st true { f.st with page := 1 }
    f.send (if f.st.page = 1 then f.changes else f.changes + 1) r.1 [r.2]
  | Event.retry =>
    let r := fetchMoviesBegin f.st true f.st
    f.send f.changes r.1 [r.2]
  | Event.deliver i o =>
    match f.inflight.get? i with
    | none => f
    | some r =>
      let s1 := fetchMoviesDone r.reset o f.st
      let s2 := if r.refresh then { s1 with refreshing := false } else s1
      { f with st := s2, inflight := f.inflight.eraseIdx i }

/-- The feed right after mounting: the reset effect has run once on the
initial state (the page effect finds `page = 1`). -/
def Feed.start : Feed :=
  let r := resetEffect initState
  { st := r.1, inflight := [r.2] }

/-- State after a list of events. -/
def run (f : Feed) (es : List Event) : Feed := es.foldl step f

/-- States that a mounted `HomeScreen` can be in. -/
def Reachable (f : Feed) : Prop := ∃ es : List Event, run Feed.start es = f

/-- A request in flight is stale when a change of query, genre or page happened
after it was sent. -/
def Feed.staleAt (f : Feed) (i : Nat) : Bool :=
  match f.inflight.get? i with
  | some r => decide (r.issuedAt < f.changes)
  | none => false

/-- The handler `loadMore` and then the settling, with outcome `o`, of every
request it sent: one load-more cycle with nothing else happening in between. -/
def loadMoreCycle (o : Outcome) (s : HomeState) : HomeState :=
  let r := loadMore s
  r.2.foldl (fun st req => fetchMoviesDone req.reset o st) r.1

/-- Tells whether an event keeps `totalPages` at or above the current page: a
successful response does when its `total_pages` is at least `page`; every other
event does. -/
def keepsPageBound (f : Feed) : Event → Bool
  | Event.deliver i (Outcome.resolved data) =>
    match f.inflight.get? i with
    | some _ => decide ((f.st.page : Int) ≤ totalPagesOf data)
    | none => true
  | _ => true

/-- Tells whether every event of the list keeps the page bound in the state in
which it happens. -/
def allKeepPageBound (f : Feed) : List Event → Bool
  | [] => true
  | e :: es => keepsPageBound f e && allKeepPageBound (step f e) es

/-! ## Reading a URL -/

/-- Part of a URL before the first `?`. -/
def urlPath (url : String) : String :=
  String.mk (url.data.takeWhile (fun c => c != '?'))

/-- Query parameters of a URL that has exactly one `?`: the text after it is cut
at every `&`, and each piece at its first `=`. -/
def urlParams (url : String) : List (String × String) :=
  match url.data.splitOn '?' with
  | [_, q] =>
    (q.splitOn '&').map (fun kv =>
      (String.mk (kv.takeWhile (fun c => c != '=')),
       String.mk ((kv.dropWhile (fun c => c != '=')).drop 1)))
  | _ => []

/-- Value of the query parameter `key`, if the URL has one. -/
def urlParam (url : String) (key : String) : Option String :=
  (urlParams url).lookup key

/-- A URL written out from its path and its query parameters. -/
def renderUrl (path : String) (params : List (String × String)) : String :=
  String.mk (path.data ++ '?' ::
    List.intercalate ['&'] (params.map (fun kv => kv.1.data ++ '=' :: kv.2.data)))

/-- Path of the search endpoint. -/
def searchPath : String := "https://api.themoviedb.org/3/search/movie"

/-- Path of the discover endpoint. -/
def discoverPath : String := "https://api.themoviedb.org/3/discover/movie"

/-- Characters that do not delimit anything in a query string. -/
def isPlain (c : Char) : Bool := c != '?' && c != '&' && c != '='

/-! ## Reference definition of the merge (spec section 4.1, `loadMore`) -/

/-- Append with deduplication as the specification words it: the incoming items
are taken in arrival order; one whose `id` already exists in `items` is dropped,
any other is added at the end. -/
def appendFirstSeen (items : List Movie) : List Movie → List Movie
  | [] => items
  | r :: rs =>
    if items.any (fun t => t.id == r.id) then appendFirstSeen items rs
    else appendFirstSeen (items ++ [r]) rs

/-! ## Favorites store (App.js lines 27-38) -/

/-- The updater of `handleToggleFavorite(movie)` applied to the favorites list
`prev`; `movie = none` is the `null` that makes the handler return at once.  The
result of `prev.find` is an object or `undefined`, so it is truthy exactly when
an entry was found. -/
def handleToggleFavorite (movie : Option Movie) (prev : List Movie) : List Movie :=
  match movie with
  | none => prev
  | some m =>
    match prev.find? (fun f => f.id == m.id) with
    | some _ => prev.filter (fun f => f.id != m.id)
    | none => prev ++ [m]

/-- App.js line 29: `!!favorites.find((f) => f?.id === movie?.id)`.  For a `null`
movie `movie?.id` is `undefined`, which no entry's id equals. -/
def isFavorite (movie : Option Movie) (favorites : List Movie) : Bool :=
  (favorites.find? (fun f => some f.id == movie.map Movie.id)).isSome

/-- HomeScreen.js line 202: `favorites.some((f) => f.id === item.id)`. -/
def isFavoriteHome (favorites : List Movie) (item : Movie) : Bool :=
  favorites.any (fun f => f.id == item.id)

/-- DetailsScreen.js line 34: `favorites.some((f) => f.id === movie.id)`, reached
only with a non-null `movie`. -/
def isFavoriteDetails (favorites : List Movie) (movie : Movie) : Bool :=
  favorites.any (fun f => f.id == movie.id)

/-- The favorites after a series of `handleToggleFavorite` calls, oldest first. -/
def toggleAll (movies : List (Option Movie)) (favorites : List Movie) : List Movie :=
  movies.foldl (fun favs m => handleToggleFavorite m favs) favorites

/-! ## Favorites screen: the derived list (FavoritesScreen.js lines 32-56) -/

/-- A comparator of the source as a function: its result is a number, `none`
standing for NaN (`db - da` is NaN as soon as one of the two times is). -/
abbrev Comparator := Movie → Movie → Option Int

/-- The abstract operation `SortCompare` of ECMA-262, through which
`Array.prototype.sort` calls the comparator: a NaN result counts as `+0`. -/
def sortCompare (cmp : Comparator) (a b : Movie) : Int := (cmp a b).getD 0

/-- A consistent comparison function for the elements of `l`, as ECMA-262 defines
it: no call on two elements gives NaN, the sign flips when the arguments are
swapped, and being at most zero is transitive. -/
def ConsistentOn (cmp : Comparator) (l : List Movie) : Prop :=
  (∀ a ∈ l, ∀ b ∈ l, (cmp a b).isSome = true) ∧
  (∀ a ∈ l, ∀ b ∈ l, (0 < sortCompare cmp a b ↔ sortCompare cmp b a < 0)) ∧
  (∀ a ∈ l, ∀ b ∈ l, ∀ c ∈ l,
    sortCompare cmp a b ≤ 0 → sortCompare cmp b c ≤ 0 → sortCompare cmp a c ≤ 0)

/-- The list `out` is `src` sorted stably by `cmp`: it has the same elements, no
element compares greater than a later one, and elements of `src` that stand in an
order the comparator agrees with (a sublist of `src` that is itself ordered) keep
that order, so that elements comparing equal are not swapped. -/
def StableSorted {α : Type} (cmp : α → α → Int) (src out : List α) : Prop :=
  out.Perm src ∧ out.Pairwise (fun a b => cmp a b ≤ 0) ∧
    ∀ c : List α, c.Pairwise (fun a b => cmp a b ≤ 0) → c.Sublist src → c.Sublist out

/-- The ECMAScript builtins that `filtered` calls and that are not code of the
repository, with the properties the language standard gives them:
`String.prototype.toLowerCase`; `String.prototype.localeCompare` (a consistent
comparison function: the sign flips when the arguments are swapped, and being
at most zero is transitive); `new Date(s).getTime()` on a string, which is the
time value in milliseconds or NaN (`none`) when the string is not a date; and
the content of an array after `Array.prototype.sort(cmp)`.  The sort reorders
the elements; with a consistent comparator the result is sorted and stable,
with any other the order is implementation-defined, so nothing more than a
reordering is known of it. -/
structure Builtins where
  toLowerCase : String → String
  localeCompare : String → String → Int
  dateTime : String → Option Int
  sort : Comparator → List Movie → List Movie
  toLowerCase_empty : toLowerCase "" = ""
  localeCompare_swap : ∀ a b, 0 < localeCompare a b ↔ localeCompare b a < 0
  localeCompare_trans :
    ∀ a b c, localeCompare a b ≤ 0 → localeCompare b c ≤ 0 → localeCompare a c ≤ 0
  sort_perm : ∀ cmp l, (sort cmp l).Perm l
  sort_consistent :
    ∀ cmp l, ConsistentOn cmp l → StableSorted (sortCompare cmp) l (sort cmp l)

/-- The expression `m.title || ''`: a missing title counts as the empty string. -/
def titleOf (m : Movie) : String :=
  match m.title with
  | some t => t
  | none => ""

/-- The call `s.includes(q)`: `q` occurs in `s` as a contiguous piece. -/
def includes (s q : String) : Bool := decide (q.data <:+: s.data)

/-- The expression `a.release_date ? new Date(a.release_date).getTime() : 0`; the
empty string is falsy.  The result is NaN (`none`) for a non-empty release date
that is not a date. -/
def dateOf (js : Builtins) (a : Movie) : Option Int :=
  match a.release_date with
  | some d => if d != "" then js.dateTime d else some 0
  | none => some 0

/-- The comparator `byDate` of lines 38-42: `db - da`, which is NaN when `da` or
`db` is.  The difference of two time values is taken exactly; the double that
JavaScript computes for it has the same sign, and only the sign is used. -/
def byDate (js : Builtins) : Comparator := fun a b =>
  match dateOf js a, dateOf js b with
  | some da, some db => some (db - da)
  | _, _ => none

/-- The comparator `(a, b) => -byDate(a, b)` of line 52; the negative of NaN is
NaN. -/
def byDateReversed (js : Builtins) : Comparator := fun a b =>
  (byDate js a b).map (fun v => -v)

/-- The comparator `(a, b) => (a.title || '').localeCompare(b.title || '')` of
line 46. -/
def byTitle (js : Builtins) : Comparator := fun a b =>
  some (js.localeCompare (titleOf a) (titleOf b))

/-- The comparator `(a, b) => (b.title || '').localeCompare(a.title || '')` of
line 48. -/
def byTitleReversed (js : Builtins) : Comparator := fun a b =>
  some (js.localeCompare (titleOf b) (titleOf a))

/-- Content of an array after `Array.prototype.sort(cmp)`. -/
def arraySort (js : Builtins) (cmp : Comparator) (l : List Movie) : List Movie :=
  js.sort cmp l

/-- The array `base` of lines 33-36; `favorites.slice()` has the content of
`favorites`. -/
def baseOf (js : Builtins) (favorites : List Movie) (query : String) : List Movie :=
  let q := js.toLowerCase (jsTrim query)
  if q != "" then favorites.filter (fun m => includes (js.toLowerCase (titleOf m)) q)
  else favorites

/-- The `switch (sort)` of lines 44-55 applied to the content of `base`. -/
def sortBase (js : Builtins) (sort : String) (base : List Movie) : List Movie :=
  if sort = "az" then arraySort js (byTitle js) base
  else if sort = "za" then arraySort js (byTitleReversed js) base
  else if sort = "new" then arraySort js (byDate js) base
  else if sort = "old" then arraySort js (byDateReversed js) base
  else base

/-- Content of the derived list `filtered`. -/
def filtered (js : Builtins) (favorites : List Movie) (query sort : String) : List Movie :=
  sortBase js sort (baseOf js favorites query)

/-- Arrays as objects: a store maps an address to the content of the array
living there.  Addresses are positions of the list. -/
abbrev Store := List (List Movie)

/-- Content of the array at address `p`. -/
def Store.read (h : Store) (p : Nat) : List Movie := h.getD p []

/-- A new array with the given content; returns the store and the address. -/
def Store.alloc (h : Store) (content : List Movie) : Store × Nat :=
  (h ++ [content], h.length)

/-- Overwrites the content of the array at address `p`. -/
def Store.write (h : Store) (p : Nat) (content : List Movie) : Store := h.set p content

/-- The call `arr.sort(cmp)`: sorts the array at `p` in place and returns `p`. -/
def Store.sort (h : Store) (js : Builtins) (p : Nat) (cmp : Comparator) : Store × Nat :=
  (h.write p (arraySort js cmp (h.read p)), p)

/-- The `useMemo` body of lines 32-56 run on a store in which `favorites` is the
array at address `fav`: `filter` and `slice` make a new array, `sort` works in
place on the array it is called on.  Returns the store afterwards and the
address of the array returned. -/
def filteredM (js : Builtins) (h : Store) (fav : Nat) (query sort : String) : Store × Nat :=
  let q := js.toLowerCase (jsTrim query)
  let r :=
    if q != "" then
      h.alloc ((h.read fav).filter (fun m => includes (js.toLowerCase (titleOf m)) q))
    else h.alloc (h.read fav)
  if sort = "az" then r.1.sort js r.2 (byTitle js)
  else if sort = "za" then r.1.sort js r.2 (byTitleReversed js)
  else if sort = "new" then r.1.sort js r.2 (byDate js)
  else if sort = "old" then r.1.sort js r.2 (byDateReversed js)
  else r

/-- ASCII lower-casing, which is what `toLowerCase` does on ASCII text. -/
def asciiLower (s : String) : String := String.mk (s.data.map Char.toLower)

/-- Comparison of two strings by their characters, first difference decides. -/
def compareChars (a b : String) : Int :=
  if a.data < b.data then -1 else if b.data < a.data then 1 else 0

/-- Number written by a non-empty string of decimal digits. -/
def digitsToNat (l : List Char) : Option Nat :=
  if l ≠ [] ∧ l.all Char.isDigit = true then
    some (l.foldl (fun n c => 10 * n + (c.toNat - 48)) 0)
  else none

/-- Number of days of month `m` in year `y` of the Gregorian calendar. -/
def daysInMonth (y m : Nat) : Nat :=
  if m = 2 then (if (y % 4 = 0 ∧ y % 100 ≠ 0) ∨ y % 400 = 0 then 29 else 28)
  else if m = 4 ∨ m = 6 ∨ m = 9 ∨ m = 11 then 30
  else 31

/-- Days from 1970-01-01 to the given day of the Gregorian calendar; the year is
counted from March and shifted by 400 years to keep the arithmetic in the
natural numbers. -/
def daysFromCivil (y m d : Nat) : Int :=
  let yy := if m ≤ 2 then y + 399 else y + 400
  let yoe := yy % 400
  let doy := (153 * ((m + 9) % 12) + 2) / 5 + d - 1
  let doe := yoe * 365 + yoe / 4 - yoe / 100 + doy
  ((yy / 400 * 146097 + doe : Nat) : Int) - 719468 - 146097

/-- Time value of a date written `YYYY-MM-DD`, the form in which the catalog
gives release dates, which `new Date` reads as midnight UTC of that day.  Every
other string counts as not a date here, also a day number past the end of its
month, on which engines differ. -/
def isoDateTime (s : String) : Option Int :=
  match s.data.splitOn '-' with
  | [ys, ms, ds] =>
    if ys.length = 4 ∧ ms.length = 2 ∧ ds.length = 2 then
      match digitsToNat ys, digitsToNat ms, digitsToNat ds with
      | some y, some m, some d =>
        if 1 ≤ m ∧ m ≤ 12 ∧ 1 ≤ d ∧ d ≤ daysInMonth y m then
          some (daysFromCivil y m d * 86400000)
        else none
      | _, _, _ => none
    else none
  | _ => none

/-- The binary search of the insertion step: the position in the sorted part
`pre` at which `pivot` goes, found between `left` and `right` by comparing
`pivot` with the middle element and continuing to its left when the order is
negative, to its right otherwise.  `fuel` bounds the number of halvings. -/
def insertionPoint {α : Type} (cmp : α → α → Int) (pivot : α) (pre : List α) :
    Nat → Nat → Nat → Nat
  | 0, left, _ => left
  | fuel + 1, left, right =>
    if left < right then
      let mid := left + (right - left) / 2
      match pre[mid]? with
      | some e =>
        if cmp pivot e < 0 then insertionPoint cmp pivot pre fuel left mid
        else insertionPoint cmp pivot pre fuel (mid + 1) right
      | none => left
    else left

/-- One step of binary insertion: `pivot` is put into the sorted part `pre` at
the position the binary search gives. -/
def binaryInsert {α : Type} (cmp : α → α → Int) (pre : List α) (pivot : α) : List α :=
  let p := insertionPoint cmp pivot pre pre.length 0 pre.length
  pre.take p ++ pivot :: pre.drop p

/-- Whether the initial run goes on across an element, given the order of the
element against its predecessor: a descending run while the order is negative,
another run while it is not. -/
def runGoesOn (desc : Bool) (order : Int) : Bool :=
  if desc then decide (order < 0) else decide (0 ≤ order)

/-- The rest of the initial run after the element `prev`, and what follows the
run. -/
def runTail {α : Type} (cmp : α → α → Int) (desc : Bool) (prev : α) :
    List α → List α × List α
  | [] => ([], [])
  | x :: tl =>
    if runGoesOn desc (cmp x prev) then
      (x :: (runTail cmp desc x tl).1, (runTail cmp desc x tl).2)
    else ([], x :: tl)

/-- The initial run of an array and the elements after it: the run is
descending when the second element compares negative against the first, and a
descending run is reversed. -/
def countAndMakeRun {α : Type} (cmp : α → α → Int) : List α → List α × List α
  | a :: b :: tl =>
    let desc := decide (cmp b a < 0)
    let r := runTail cmp desc b tl
    (if desc then (a :: b :: r.1).reverse else a :: b :: r.1, r.2)
  | l => (l, [])

/-- The sorting procedure of the V8 engine for an array of fewer than 64
elements: the initial run is found, and made ascending, and the remaining
elements are put into it one by one by binary insertion.  An array of fewer than
two elements is left as it is.  Longer arrays, which V8 sorts by merging runs,
are sorted in the same way here. -/
def timSort {α : Type} (cmp : α → α → Int) (l : List α) : List α :=
  if l.length < 2 then l
  else (countAndMakeRun cmp l).2.foldl (binaryInsert cmp) (countAndMakeRun cmp l).1

/-- A sample of the builtins for examples on ASCII titles and year-month-day
dates, with the sorting procedure of V8 for short arrays. -/
def sampleBuiltins : Builtins where
  toLowerCase := asciiLower
  localeCompare := compareChars
  dateTime := isoDateTime
  sort := fun cmp l => timSort (sortCompare cmp) l
  toLowerCase_empty := by decide
  localeCompare_swap := by
    intro a b
    unfold compareChars
    rcases lt_trichotomy a.data b.data with h | h | h
    · have h2 : ¬ b.data < a.data := lt_asymm h
      simp [h, h2]
    · simp [h]
    · have h2 : ¬ a.data < b.data := lt_asymm h
      simp [h, h2]
  localeCompare_trans := by
    intro a b c h1 h2
    unfold compareChars at *
    have e1 : a.data ≤ b.data := by
      by_contra hc
      have hlt : b.data < a.data := lt_of_not_le hc
      have h3 : ¬ a.data < b.data := lt_asymm hlt
      simp [hlt, h3] at h1
    have e2 : b.data ≤ c.data := by
      by_contra hc
      have hlt : c.data < b.data := lt_of_not_le hc
      have h3 : ¬ b.data < c.data := lt_asymm hlt
      simp [hlt, h3] at h2
    have e3 : ¬ c.data < a.data := not_lt_of_le (le_trans e1 e2)
    split
    · decide
    · simp [e3]
  sort_perm := by
    have binaryInsert_perm : ∀ (cmp : Movie → Movie → Int) (pre : List Movie) (pivot : Movie),
        (binaryInsert cmp pre pivot).Perm (pre ++ [pivot]) := by
      intro cmp pre pivot
      unfold binaryInsert
      simp only []
      refine List.perm_middle.trans ?_
      refine (List.perm_append_singleton _ _).symm.trans ?_
      rw [List.take_append_drop]
    have runTail_append : ∀ (cmp : Movie → Movie → Int) (desc : Bool) (l : List Movie),
        ∀ prev, (runTail cmp desc prev l).1 ++ (runTail cmp desc prev l).2 = l := by
      intro cmp desc l
      induction l with
      | nil => intro prev; rfl
      | cons x tl ih =>
        intro prev
        simp only [runTail]
        split
        · simp [ih x]
        · simp
    have timSort_perm : ∀ (cmp : Movie → Movie → Int) (l : List Movie),
        (timSort cmp l).Perm l := by
      intro cmp l
      unfold timSort
      split
      · exact List.Perm.refl _
      · have hfold : ∀ (rest pre : List Movie),
            (rest.foldl (binaryInsert cmp) pre).Perm (pre ++ rest) := by
          intro rest
          induction rest with
          | nil => intro pre; simp
          | cons x tl ih =>
            intro pre
            simp only [List.foldl_cons]
            refine (ih _).trans ?_
            refine ((binaryInsert_perm cmp pre x).append_right tl).trans ?_
            simp
        refine (hfold _ _).trans ?_
        match l with
        | [] => exact List.Perm.refl _
        | [a] => exact List.Perm.refl _
        | a :: b :: tl =>
          simp only [countAndMakeRun]
          have happ := runTail_append cmp (decide (cmp b a < 0)) tl b
          have : ((if decide (cmp b a < 0) = true then
              (a :: b :: (runTail cmp (decide (cmp b a < 0)) b tl).1).reverse
              else a :: b :: (runTail cmp (decide (cmp b a < 0)) b tl).1)).Perm
              (a :: b :: (runTail cmp (decide (cmp b a < 0)) b tl).1) := by
            split
            · exact List.reverse_perm _
            · exact List.Perm.refl _
          refine (this.append_right _).trans ?_
          simp only [List.cons_append, happ]
          exact List.Perm.refl _
    intro cmp l
    exact timSort_perm (sortCompare cmp) l
  sort_consistent := by
    have insertionPoint_spec :
        ∀ (cmp : Movie → Movie → Int) (ok : Movie → Prop)
          (hswap : ∀ a b, ok a → ok b → (0 < cmp a b ↔ cmp b a < 0))
          (htrans : ∀ a b c, ok a → ok b → ok c → cmp a b ≤ 0 → cmp b c ≤ 0 → cmp a c ≤ 0)
          (pivot : Movie) (pre : List Movie) (hp : ok pivot) (hpre : ∀ x ∈ pre, ok x)
          (hs : pre.Pairwise (fun a b => cmp a b ≤ 0)),
        ∀ fuel left right, left ≤ right → right ≤ pre.length → right - left ≤ fuel →
          (∀ (i : Nat) (e : Movie), i < left → pre[i]? = some e → 0 ≤ cmp pivot e) →
          (∀ (i : Nat) (e : Movie), right ≤ i → pre[i]? = some e → cmp pivot e < 0) →
          insertionPoint cmp pivot pre fuel left right ≤ pre.length ∧
          (∀ (i : Nat) (e : Movie), i < insertionPoint cmp pivot pre fuel left right →
            pre[i]? = some e → 0 ≤ cmp pivot e) ∧
          (∀ (i : Nat) (e : Movie), insertionPoint cmp pivot pre fuel left right ≤ i →
            pre[i]? = some e → cmp pivot e < 0) := by
      intro cmp ok hswap htrans pivot pre hp hpre hs
      have hidx :
          ∀ (i j : Nat) (x y : Movie), i < j → pre[i]? = some x → pre[j]? = some y → cmp x y ≤ 0 := by
        intro i j x y hij hx hy
        rw [List.pairwise_iff_getElem] at hs
        obtain ⟨hi, rfl⟩ := List.getElem?_eq_some_iff.mp hx
        obtain ⟨hj, rfl⟩ := List.getElem?_eq_some_iff.mp hy
        exact hs i j hi hj hij
      have hmem : ∀ (i : Nat) (x : Movie), pre[i]? = some x → ok x := by
        intro i x hx
        exact hpre x (List.mem_iff_getElem?.mpr ⟨i, hx⟩)
      intro fuel
      induction fuel with
      | zero =>
        intro left right hlr hrl hf hL hR
        have : left = right := by omega
        subst this
        simp only [insertionPoint]
        exact ⟨hrl, hL, hR⟩
      | succ fuel ih =>
        intro left right hlr hrl hf hL hR
        simp only [insertionPoint]
        by_cases hlt : left < right
        · rw [if_pos hlt]
          have hmid1 : left ≤ left + (right - left) / 2 := by omega
          have hmid2 : left + (right - left) / 2 < right := by omega
          have hmidlen : left + (right - left) / 2 < pre.length := by omega
          rw [List.getElem?_eq_getElem hmidlen]
          have hget : pre[left + (right - left) / 2]? = some (pre[left + (right - left) / 2]) :=
            List.getElem?_eq_getElem hmidlen
          have hoke := hmem _ _ hget
          simp only []
          by_cases hc : cmp pivot (pre[left + (right - left) / 2]) < 0
          · rw [if_pos hc]
            apply ih left _ hmid1 (by omega) (by omega) hL
            intro i e hi he
            rcases Nat.eq_or_lt_of_le hi with h | h
            · rw [← h] at he
              rw [hget] at he
              cases he
              exact hc
            · have h1 := hidx _ _ _ _ h hget he
              have hoe := hmem _ _ he
              by_contra hn
              have h2 : cmp e pivot ≤ 0 := by
                by_contra h3
                exact hn ((hswap e pivot hoe hp).mp (by omega))
              have h3 := htrans _ _ _ hoke hoe hp h1 h2
              have h4 := (hswap _ _ hoke hp).mpr hc
              omega
          · rw [if_neg hc]
            apply ih _ right (by omega) hrl (by omega) _ hR
            intro i e hi he
            have hoe := hmem _ _ he
            have hpe : cmp (pre[left + (right - left) / 2]) pivot ≤ 0 := by
              by_contra h3
              exact hc ((hswap _ _ hoke hp).mp (by omega))
            rcases Nat.eq_or_lt_of_le (Nat.lt_succ_iff.mp hi) with h | h
            · rw [h] at he
              rw [hget] at he
              cases he
              omega
            · have h1 := hidx _ _ _ _ h he hget
              have h3 := htrans _ _ _ hoe hoke hp h1 hpe
              by_contra hn
              have h4 := (hswap _ _ hoe hp).mpr (by omega)
              omega
        · rw [if_neg hlt]
          have : left = right := by omega
          subst this
          exact ⟨hrl, hL, hR⟩
    have binaryInsert_perm : ∀ (cmp : Movie → Movie → Int) (pre : List Movie) (pivot : Movie),
        (binaryInsert cmp pre pivot).Perm (pre ++ [pivot]) := by
      intro cmp pre pivot
      unfold binaryInsert
      simp only []
      refine List.perm_middle.trans ?_
      refine (List.perm_append_singleton _ _).symm.trans ?_
      rw [List.take_append_drop]
    have sublist_left_of_append :
        ∀ {c l1 l2 : List Movie} (p : Movie → Prop) (h : c.Sublist (l1 ++ l2)) (hc : ∀ x ∈ c, p x)
          (h2 : ∀ y ∈ l2, ¬ p y),
        c.Sublist l1 := by
      intro c l1 l2 p h hc h2
      obtain ⟨c1, c2, rfl, h1s, h2s⟩ := List.sublist_append_iff.mp h
      have : c2 = [] := by
        cases c2 with
        | nil => rfl
        | cons y t =>
          exfalso
          exact h2 y (h2s.subset (List.mem_cons_self _ _)) (hc y (by simp))
      subst this
      simpa using h1s
    have binaryInsert_sortedFrom :
        ∀ (cmp : Movie → Movie → Int) (ok : Movie → Prop)
          (hswap : ∀ a b, ok a → ok b → (0 < cmp a b ↔ cmp b a < 0))
          (htrans : ∀ a b c, ok a → ok b → ok c → cmp a b ≤ 0 → cmp b c ≤ 0 → cmp a c ≤ 0)
          (src pre : List Movie) (pivot : Movie) (hp : ok pivot) (hsrc : ∀ x ∈ src, ok x)
          (h : StableSorted cmp src pre),
        StableSorted cmp (src ++ [pivot]) (binaryInsert cmp pre pivot) := by
      intro cmp ok hswap htrans src pre pivot hp hsrc h
      obtain ⟨hperm, hsorted, hstable⟩ := h
      have hpre : ∀ x ∈ pre, ok x := fun x hx => hsrc x (hperm.subset hx)
      obtain ⟨hlen, hL, hR⟩ := insertionPoint_spec cmp ok hswap htrans pivot pre hp hpre hsorted
        pre.length 0 pre.length (Nat.zero_le _) (le_refl _) (by omega)
        (by intro i e hi; omega)
        (by
          intro i e hi he
          have := (List.getElem?_eq_some_iff.mp he).1
          omega)
      have htake : ∀ e ∈ pre.take (insertionPoint cmp pivot pre pre.length 0 pre.length),
          0 ≤ cmp pivot e := by
        intro e he
        obtain ⟨i, hi⟩ := List.mem_iff_getElem?.mp he
        have hlt : i < insertionPoint cmp pivot pre pre.length 0 pre.length := by
          have := (List.getElem?_eq_some_iff.mp hi).1
          simp only [List.length_take] at this
          omega
        rw [List.getElem?_take_of_lt hlt] at hi
        exact hL i e hlt hi
      have hdrop : ∀ e ∈ pre.drop (insertionPoint cmp pivot pre pre.length 0 pre.length),
          cmp pivot e < 0 := by
        intro e he
        obtain ⟨i, hi⟩ := List.mem_iff_getElem?.mp he
        rw [List.getElem?_drop] at hi
        exact hR _ e (Nat.le_add_right _ _) hi
      have hsplit := List.take_append_drop (insertionPoint cmp pivot pre pre.length 0 pre.length) pre
      refine ⟨(binaryInsert_perm cmp pre pivot).trans (hperm.append_right _), ?_, ?_⟩
      · unfold binaryInsert
        simp only []
        rw [← hsplit] at hsorted
        rw [List.pairwise_append] at hsorted ⊢
        obtain ⟨h1, h2, h3⟩ := hsorted
        refine ⟨h1, ?_, ?_⟩
        · rw [List.pairwise_cons]
          exact ⟨fun y hy => le_of_lt (hdrop y hy), h2⟩
        · intro x hx y hy
          rcases List.mem_cons.mp hy with rfl | hy
          · have hox : ok x := hpre x (List.mem_of_mem_take hx)
            by_contra hn
            have := (hswap x y hox hp).mp (by omega)
            have := htake x hx
            omega
          · exact h3 x hx y hy
      · intro c hc hsub
        obtain ⟨c1, c2, rfl, h1s, h2s⟩ := List.sublist_append_iff.mp hsub
        have hc1 : c1.Pairwise (fun a b => cmp a b ≤ 0) := (List.pairwise_append.mp hc).1
        have hc1pre := hstable c1 hc1 h1s
        rcases List.sublist_singleton.mp h2s with rfl | rfl
        · rw [List.append_nil]
          refine hc1pre.trans ?_
          unfold binaryInsert
          simp only []
          conv_lhs => rw [← hsplit]
          exact List.Sublist.append (List.Sublist.refl _) (List.sublist_cons_self _ _)
        · have hall : ∀ x ∈ c1, cmp x pivot ≤ 0 := by
            intro x hx
            exact (List.pairwise_append.mp hc).2.2 x hx pivot (List.mem_singleton_self _)
          rw [← hsplit] at hc1pre
          have hleft := sublist_left_of_append (fun x => cmp x pivot ≤ 0) hc1pre hall (by
            intro y hy
            have hoy : ok y := hpre y (List.mem_of_mem_drop hy)
            have := (hswap y pivot hoy hp).mpr (hdrop y hy)
            omega)
          unfold binaryInsert
          simp only []
          exact List.Sublist.append hleft ((List.Sublist.refl _).cons₂ _ |>.trans
            (List.Sublist.cons₂ _ (List.nil_sublist _)))
    have foldl_binaryInsert_sortedFrom :
        ∀ (cmp : Movie → Movie → Int) (ok : Movie → Prop)
          (hswap : ∀ a b, ok a → ok b → (0 < cmp a b ↔ cmp b a < 0))
          (htrans : ∀ a b c, ok a → ok b → ok c → cmp a b ≤ 0 → cmp b c ≤ 0 → cmp a c ≤ 0)
          (rest : List Movie),
        ∀ src pre : List Movie, (∀ x ∈ src, ok x) → (∀ x ∈ rest, ok x) →
          StableSorted cmp src pre →
          StableSorted cmp (src ++ rest) (rest.foldl (binaryInsert cmp) pre) := by
      intro cmp ok hswap htrans rest
      induction rest with
      | nil =>
        intro src pre _ _ h
        simpa using h
      | cons x tl ih =>
        intro src pre hsrc hrest h
        have hx : ok x := hrest x (List.mem_cons_self _ _)
        have h1 := binaryInsert_sortedFrom cmp ok hswap htrans src pre x hx hsrc h
        have h2 := ih (src ++ [x]) (binaryInsert cmp pre x)
          (by
            intro y hy
            rcases List.mem_append.mp hy with hy | hy
            · exact hsrc y hy
            · rw [List.mem_singleton.mp hy]; exact hx)
          (fun y hy => hrest y (List.mem_cons_of_mem _ hy)) h1
        simpa using h2
    have runTail_append : ∀ (cmp : Movie → Movie → Int) (desc : Bool) (l : List Movie),
        ∀ prev, (runTail cmp desc prev l).1 ++ (runTail cmp desc prev l).2 = l := by
      intro cmp desc l
      induction l with
      | nil => intro prev; rfl
      | cons x tl ih =>
        intro prev
        simp only [runTail]
        split
        · simp [ih x]
        · simp
    have runTail_chain : ∀ (cmp : Movie → Movie → Int) (desc : Bool) (l : List Movie),
        ∀ prev, List.Chain (fun p x => runGoesOn desc (cmp x p) = true) prev
          (runTail cmp desc prev l).1 := by
      intro cmp desc l
      induction l with
      | nil => intro prev; exact List.Chain.nil
      | cons x tl ih =>
        intro prev
        simp only [runTail]
        split
        · rename_i h
          exact List.Chain.cons h (ih x)
        · exact List.Chain.nil
    have ascending_pairwise :
        ∀ (cmp : Movie → Movie → Int) (ok : Movie → Prop)
          (hswap : ∀ a b, ok a → ok b → (0 < cmp a b ↔ cmp b a < 0))
          (htrans : ∀ a b c, ok a → ok b → ok c → cmp a b ≤ 0 → cmp b c ≤ 0 → cmp a c ≤ 0)
          (a : Movie) (l : List Movie) (hok : ∀ x ∈ a :: l, ok x)
          (h : List.Chain (fun p x => 0 ≤ cmp x p) a l),
        (a :: l).Pairwise (fun x y => cmp x y ≤ 0) := by
      intro cmp ok hswap htrans a l hok h
      induction l generalizing a with
      | nil => simp
      | cons b tl ih =>
        rw [List.chain_cons] at h
        have hb := ih b (fun x hx => hok x (List.mem_cons_of_mem _ hx)) h.2
        have ha : ok a := hok a (List.mem_cons_self _ _)
        have hbo : ok b := hok b (by simp)
        have hab : cmp a b ≤ 0 := by
          by_contra hn
          have := (hswap a b ha hbo).mp (by omega)
          omega
        rw [List.pairwise_cons]
        refine ⟨?_, hb⟩
        intro y hy
        rcases List.mem_cons.mp hy with rfl | hy
        · exact hab
        · exact htrans a b y ha hbo (hok y (by simp [hy])) hab ((List.pairwise_cons.mp hb).1 y hy)
    have descending_pairwise :
        ∀ (cmp : Movie → Movie → Int) (ok : Movie → Prop)
          (hswap : ∀ a b, ok a → ok b → (0 < cmp a b ↔ cmp b a < 0))
          (htrans : ∀ a b c, ok a → ok b → ok c → cmp a b ≤ 0 → cmp b c ≤ 0 → cmp a c ≤ 0)
          (a : Movie) (l : List Movie) (hok : ∀ x ∈ a :: l, ok x)
          (h : List.Chain (fun p x => cmp x p < 0) a l),
        (a :: l).Pairwise (fun x y => cmp y x < 0) := by
      intro cmp ok hswap htrans a l hok h
      induction l generalizing a with
      | nil => simp
      | cons b tl ih =>
        rw [List.chain_cons] at h
        have hb := ih b (fun x hx => hok x (List.mem_cons_of_mem _ hx)) h.2
        have ha : ok a := hok a (List.mem_cons_self _ _)
        have hbo : ok b := hok b (by simp)
        rw [List.pairwise_cons]
        refine ⟨?_, hb⟩
        intro y hy
        rcases List.mem_cons.mp hy with rfl | hy
        · exact h.1
        · have hy2 : cmp y b < 0 := (List.pairwise_cons.mp hb).1 y hy
          have hyo : ok y := hok y (by simp [hy])
          by_contra hn
          have h1 : cmp a y ≤ 0 := by
            by_contra h3
            exact hn ((hswap a y ha hyo).mp (by omega))
          have h2 := htrans a y b ha hyo hbo h1 (le_of_lt hy2)
          have h3 := (hswap a b ha hbo).mpr h.1
          omega
    have countAndMakeRun_sortedFrom :
        ∀ (cmp : Movie → Movie → Int) (ok : Movie → Prop)
          (hswap : ∀ a b, ok a → ok b → (0 < cmp a b ↔ cmp b a < 0))
          (htrans : ∀ a b c, ok a → ok b → ok c → cmp a b ≤ 0 → cmp b c ≤ 0 → cmp a c ≤ 0)
          (l : List Movie) (hok : ∀ x ∈ l, ok x),
        ∃ run : List Movie, run ++ (countAndMakeRun cmp l).2 = l ∧
          StableSorted cmp run (countAndMakeRun cmp l).1 := by
      intro cmp ok hswap htrans l hok
      match l, hok with
      | [], _ => exact ⟨[], rfl, List.Perm.refl _, List.Pairwise.nil, fun c _ hc => hc⟩
      | [a], _ =>
        exact ⟨[a], rfl, List.Perm.refl _, List.pairwise_singleton _ _, fun c _ hc => hc⟩
      | a :: b :: tl, hok =>
        have happ := runTail_append cmp (decide (cmp b a < 0)) tl b
        have hch := runTail_chain cmp (decide (cmp b a < 0)) tl b
        have hrun : ∀ x ∈ a :: b :: (runTail cmp (decide (cmp b a < 0)) b tl).1, ok x := by
          intro x hx
          apply hok
          rw [← happ]
          simp only [List.mem_cons, List.mem_append] at hx ⊢
          tauto
        refine ⟨a :: b :: (runTail cmp (decide (cmp b a < 0)) b tl).1, ?_, ?_⟩
        · simp only [countAndMakeRun, List.cons_append, happ]
        · simp only [countAndMakeRun]
          by_cases hd : cmp b a < 0
          · simp only [hd, decide_True, if_true] at hch hrun ⊢
            have hch2 : List.Chain (fun p x => cmp x p < 0) b
                (runTail cmp true b tl).1 := by
              simpa [runGoesOn] using hch
            have hp := descending_pairwise cmp ok hswap htrans a _ hrun (List.Chain.cons hd hch2)
            refine ⟨List.reverse_perm _, ?_, ?_⟩
            · rw [List.pairwise_reverse]
              exact hp.imp (fun h => le_of_lt h)
            · intro c hc hsub
              have hcs := hp.sublist hsub
              match c, hc, hsub, hcs with
              | [], _, _, _ => exact List.nil_sublist _
              | [x], _, hsub, _ =>
                rw [List.singleton_sublist, List.mem_reverse]
                exact hsub.subset (List.mem_singleton_self _)
              | x :: y :: t, hc, hsub, hcs =>
                exfalso
                have h1 : cmp x y ≤ 0 := (List.pairwise_cons.mp hc).1 y (by simp)
                have h2 : cmp y x < 0 := (List.pairwise_cons.mp hcs).1 y (by simp)
                have hx : ok x := hrun x (hsub.subset (by simp))
                have hy : ok y := hrun y (hsub.subset (by simp))
                have := (hswap x y hx hy).mpr h2
                omega
          · simp only [hd, decide_False, if_false] at hch hrun ⊢
            have hch2 : List.Chain (fun p x => 0 ≤ cmp x p) b
                (runTail cmp false b tl).1 := by
              simpa [runGoesOn] using hch
            exact ⟨List.Perm.refl _,
              ascending_pairwise cmp ok hswap htrans a _ hrun
                (List.Chain.cons (by omega) hch2),
              fun c _ hc => hc⟩
    have timSort_sortedFrom :
        ∀ (cmp : Movie → Movie → Int) (ok : Movie → Prop)
          (hswap : ∀ a b, ok a → ok b → (0 < cmp a b ↔ cmp b a < 0))
          (htrans : ∀ a b c, ok a → ok b → ok c → cmp a b ≤ 0 → cmp b c ≤ 0 → cmp a c ≤ 0)
          (l : List Movie) (hok : ∀ x ∈ l, ok x),
        StableSorted cmp l (timSort cmp l) := by
      intro cmp ok hswap htrans l hok
      unfold timSort
      split
      · rename_i hlen
        refine ⟨List.Perm.refl _, ?_, fun c _ hc => hc⟩
        match l, hlen with
        | [], _ => exact List.Pairwise.nil
        | [a], _ => exact List.pairwise_singleton _ _
        | a :: b :: tl, hlen => exact absurd hlen (by simp)
      · obtain ⟨run, happ, hrun⟩ := countAndMakeRun_sortedFrom cmp ok hswap htrans l hok
        have h := foldl_binaryInsert_sortedFrom cmp ok hswap htrans (countAndMakeRun cmp l).2 run
          (countAndMakeRun cmp l).1
          (fun x hx => hok x (by rw [← happ]; exact List.mem_append_left _ hx))
          (fun x hx => hok x (by rw [← happ]; exact List.mem_append_right _ hx)) hrun
        rw [happ] at h
        exact h
    intro cmp l hc
    exact timSort_sortedFrom (sortCompare cmp) (fun x => x ∈ l)
      (fun a b ha hb => hc.2.1 a ha b hb)
      (fun a b c ha hb hc2 => hc.2.2 a ha b hb c hc2) l (fun x hx => hx)

/-! ## The debounce timer (HomeScreen.js lines 33-36) -/

/-- A pending `setTimeout`: its id, the time at which it is due, and the
`searchQuery` of the render whose effect created it, which its callback reads. -/
structure Timer where
  id : Nat
  due : Nat
  text : String
  deriving DecidableEq, Repr

/-- The feed together with a clock in milliseconds, the pending timers, the next
timer id, and the id that the cleanup of the latest run of the debounce effect
will clear.  `lastChange` is bookkeeping of the model: the time of the latest
change of `searchQuery`. -/
structure Timed where
  feed : Feed
  now : Nat := 0
  timers : List Timer := []
  nextId : Nat := 0
  cleanupId : Option Nat := none
  lastChange : Nat := 0
  deriving DecidableEq, Repr

/-- The delay passed to `setTimeout`. -/
def debounceDelay : Nat := 350

/-- The call `clearTimeout(id)`; an id that is not pending clears nothing. -/
def clearTimeout (T : Timed) (id : Option Nat) : Timed :=
  { T with timers := T.timers.filter (fun t => some t.id != id) }

/-- The call `setTimeout(() => setDebouncedQuery(searchQuery.trim()), 350)` in a
render whose `searchQuery` is `text`; the effect keeps the id for its cleanup. -/
def setTimeout (T : Timed) (text : String) : Timed :=
  { T with
    timers := T.timers ++ [{ id := T.nextId, due := T.now + debounceDelay, text := text }],
    nextId := T.nextId + 1,
    cleanupId := some T.nextId }

/-- The effect of lines 33-36 run for a render whose `searchQuery` is `text`:
first the cleanup of its previous run, then its body. -/
def debounceEffect (T : Timed) (text : String) : Timed :=
  setTimeout (clearTimeout T T.cleanupId) text

/-- The timer callback `setDebouncedQuery(text.trim())` and, when the value
changes, the reset effect it triggers. -/
def debounceCallback (text : String) (f : Feed) : Feed :=
  let d := jsTrim text
  if d = f.st.debouncedQuery then f else f.reset { f.st with debouncedQuery := d }

inductive TimedEvent where
  /-- The text box changes: `setSearchQuery(text)`. -/
  | setSearchQuery (text : String)
  /-- Time passes: `dt` milliseconds. -/
  | advance (dt : Nat)
  /-- Any other event of the feed. -/
  | feed (e : Event)
  deriving DecidableEq, Repr

/-- One timed event.  `setSearchQuery` with the text already shown causes no
render.  When time passes, every timer that has become due is removed and its
callback run, oldest first.  The untimed events `typeText` and `debounceFire`
are replaced here by `setSearchQuery` and `advance`. -/
def stepTimed (T : Timed) : TimedEvent → Timed
  | TimedEvent.setSearchQuery text =>
    if text = T.feed.st.searchQuery then T
    else
      debounceEffect
        { T with
          feed := { T.feed with st := { T.feed.st with searchQuery := text } },
          lastChange := T.now } text
  | TimedEvent.advance dt =>
    let due := T.timers.filter (fun t => decide (t.due ≤ T.now + dt))
    { T with
      now := T.now + dt,
      timers := T.timers.filter (fun t => !decide (t.due ≤ T.now + dt)),
      feed := due.foldl (fun f t => debounceCallback t.text f) T.feed }
  | TimedEvent.feed e =>
    match e with
    | Event.typeText _ => T
    | Event.debounceFire => T
    | _ => { T with feed := step T.feed e }

/-- The timed feed right after mounting: the debounce effect has run for the
empty search text. -/
def Timed.start : Timed := debounceEffect { feed := Feed.start } ""

/-- State after a list of timed events. -/
def runTimed (T : Timed) (es : List TimedEvent) : Timed := es.foldl stepTimed T

/-- What holds of the pending timers in every state of the timed feed: there is
at most one; it is the one the next cleanup clears, it is due 350 ms after the
latest change of the search text, and its callback reads that text. -/
def TimedInv (T : Timed) : Prop :=
  T.timers.length ≤ 1 ∧
  ∀ t ∈ T.timers, some t.id = T.cleanupId ∧ t.due = T.lastChange + debounceDelay ∧
    t.text = T.feed.st.searchQuery

/-- A genre chip: `id` is `null` for the chip "All". -/
structure Genre where
  id : Option Int
  name : String
  deriving DecidableEq, Repr

/-- Lines 105-108: `[{ id: null, name: 'All' }, ...genres]`. -/
def genresWithAll (genres : List Genre) : List Genre :=
  { id := none, name := "All" } :: genres

/-! ## Pull to refresh and runs of load-more (HomeScreen.js lines 91-103) -/

/-- Lines 92-95 of `onRefresh`, up to the `await`: `setRefreshing(true)`,
`setPage(1)`, and the part of `fetchMovies(true)` before its own `await`. -/
def onRefreshBegin (s : HomeState) : HomeState × Request :=
  let s1 := { s with refreshing := true }
  let r := fetchMoviesBegin s true { s1 with page := 1 }
  (r.1, { r.2 with refresh := true })

/-- The rest of `onRefresh`: the continuation of `fetchMovies(true)`, which
never throws because it catches its own errors, and then the `finally` branch
`setRefreshing(false)`. -/
def onRefreshDone (o : Outcome) (s : HomeState) : HomeState :=
  let s1 := fetchMoviesDone true o s
  { s1 with refreshing := false }

/-- One complete `onRefresh()` with nothing happening in between. -/
def onRefresh (o : Outcome) (s : HomeState) : HomeState :=
  onRefreshDone o (onRefreshBegin s).1

/-- One complete reset-fetch, the reset effect and the settling of its request,
with nothing happening in between. -/
def resetFetch (o : Outcome) (s : HomeState) : HomeState :=
  fetchMoviesDone true o (resetEffect s).1

/-- A run of `loadMore()` calls, each settled successfully before the next, the
k-th with the response `ds[k]`.  Returns the final state and the result pages of
the requests that were really sent (a call that the guard of `loadMore` blocks
sends nothing and fetches no page). -/
def loadMoreRun (s : HomeState) : List (Option ResponseData) → HomeState × List (List Movie)
  | [] => (s, [])
  | d :: ds =>
    let r := loadMoreRun (loadMoreCycle (Outcome.resolved d) s) ds
    (r.1, (loadMore s).2.map (fun _ => resultsOf d) ++ r.2)

/-- Value of a decimal numeral: each character counts as its distance from `0`. -/
def decimalValue (cs : List Char) : Nat :=
  cs.foldl (fun n c => 10 * n + (c.toNat - 48)) 0

/-! ## Favorites screen: selection and bulk removal (FavoritesScreen.js lines 58-114) -/

/-- The cells `selectMode` and `selectedIds`; the `Set` of ids is kept as the
list of its members in insertion order. -/
structure SelectState where
  selectMode : Bool := false
  selectedIds : List Int := []
  deriving DecidableEq, Repr

/-- The handler `toggleSelect(id)`: `delete` when the set has the id, `add`
otherwise. -/
def toggleSelect (id : Int) (sel : SelectState) : SelectState :=
  if id ∈ sel.selectedIds then { sel with selectedIds := sel.selectedIds.erase id }
  else { sel with selectedIds := sel.selectedIds ++ [id] }

/-- The handler `exitSelectMode`: `setSelectMode(false); setSelectedIds(new Set())`. -/
def exitSelectMode (_sel : SelectState) : SelectState :=
  { selectMode := false, selectedIds := [] }

/-- The `onPress` of the Remove button (lines 85-91).  `favorites` is the prop
of the render, in which `find` looks the movie up; every call of
`onToggleFavorite` queues the updater of `handleToggleFavorite`, and the
updaters run in order on the stored list `store`. -/
def removeSelectedConfirm (favorites : List Movie) (sel : SelectState) (store : List Movie) :
    List Movie × SelectState :=
  (sel.selectedIds.foldl
      (fun st id =>
        match favorites.find? (fun f => f.id == id) with
        | some movie => handleToggleFavorite (some movie) st
        | none => st)
      store,
    exitSelectMode sel)

/-- The handler `removeSelected` (lines 72-95): it returns at once without the
toggle handler or with nothing selected; otherwise the alert is shown, and
`confirm` tells whether Remove or Cancel is pressed. -/
def removeSelected (hasToggle confirm : Bool) (favorites : List Movie) (sel : SelectState)
    (store : List Movie) : List Movie × SelectState :=
  if !hasToggle then (store, sel)
  else if sel.selectedIds.length == 0 then (store, sel)
  else if confirm then removeSelectedConfirm favorites sel store
  else (store, sel)

/-- The `onPress` of the "Remove all" button (lines 107-110). -/
def clearAllConfirm (favorites : List Movie) (sel : SelectState) (store : List Movie) :
    List Movie × SelectState :=
  (favorites.foldl (fun st m => handleToggleFavorite (some m) st) store, exitSelectMode sel)

/-- The handler `clearAll` (lines 97-114). -/
def clearAll (hasToggle confirm : Bool) (favorites : List Movie) (sel : SelectState)
    (store : List Movie) : List Movie × SelectState :=
  if !hasToggle || favorites.length == 0 then (store, sel)
  else if confirm then clearAllConfirm favorites sel store
  else (store, sel)

/-- Whether App.js hands `onToggleFavorite` to `FavoritesScreen`: the props of
lines 74-79 are `favorites`, `onSelectMovie`, `navigateBack` and
`navigateDrawer` only. -/
def appPassesToggleToFavorites : Bool := false

/-! ## App navigation (App.js lines 8-46) -/

/-- The constant `SCREENS.HOME`. -/
def SCREENS_HOME : String := "Home"

/-- The constant `SCREENS.FAVORITES`. -/
def SCREENS_FAVORITES : String := "Favorites"

/-- The constant `SCREENS.DETAILS`. -/
def SCREENS_DETAILS : String := "Details"

/-- The `useState` cells of `App`. -/
structure AppState where
  currentScreen : String := SCREENS_HOME
  lastTab : String := SCREENS_HOME
  selectedMovie : Option Movie := none
  favorites : List Movie := []
  deriving DecidableEq, Repr

/-- The function `navigate(screen, movie = null)` of lines 40-46; a call without
a movie passes `none`. -/
def navigate (screen : String) (movie : Option Movie) (a : AppState) : AppState :=
  let a1 := { a with selectedMovie := movie }
  let a2 :=
    if screen = SCREENS_HOME || screen = SCREENS_FAVORITES then { a1 with lastTab := screen }
    else a1
  { a2 with currentScreen := screen }

/-- The back action of the details screen and of the header: `navigate(lastTab)`. -/
def navigateBack (a : AppState) : AppState := navigate a.lastTab none a

/-- The state of `App` before any call. -/
def AppState.init : AppState := {}

/-- State after a list of `navigate` calls, each given by its two arguments. -/
def navigateAll (calls : List (String × Option Movie)) (a : AppState) : AppState :=
  calls.foldl (fun st c => navigate c.1 c.2 st) a

/-! ## Formatting helpers of the details screen (DetailsScreen.js lines 291-307) -/

/-- Number of low bits that a natural number loses when it is cut to the 53
bits of a double: the halvings that bring it below `2 ^ 53`.  The first
argument bounds the number of halvings; the number itself is always enough. -/
def shiftFor : Nat → Nat → Nat
  | 0, _ => 0
  | fuel + 1, n => if n < 2 ^ 53 then 0 else shiftFor fuel (n / 2) + 1

/-- The integer nearest to `p / q`, the even one of two that are equally near. -/
def roundHalfEven (p q : Nat) : Nat :=
  if 2 * (p % q) < q then p / q
  else if q < 2 * (p % q) then p / q + 1
  else if p / q % 2 = 0 then p / q
  else p / q + 1

/-- The double nearest to a natural number: its leading 53 bits, rounded to
nearest with ties to even.  A number is a double when this leaves it as it is;
a result of `2 ^ 1024` or more stands for Infinity. -/
def toDouble (n : Nat) : Nat :=
  roundHalfEven n (2 ^ shiftFor n n) * 2 ^ shiftFor n n

/-- The bound `2 ^ 1024` from which a magnitude is Infinity. -/
def doubleOverflow : Nat := (2 ^ 256) ^ 4

/-- The number value of an integer, as when the integer is read from JSON: the
nearest double, with the sign kept.  Integers of magnitude up to `2 ^ 53` are
their own number value. -/
def toNumber (n : Int) : Int :=
  if n < 0 then -(toDouble n.natAbs : Int) else (toDouble n.natAbs : Int)

/-- Number of doublings that bring `p / q` to at least `2 ^ 52`, for `p / q`
below `2 ^ 53`.  The first argument bounds the number of doublings; `53 + q` is
enough for a positive `p`. -/
def scaleFor : Nat → Nat → Nat → Nat
  | 0, _, _ => 0
  | fuel + 1, p, q => if 2 * p < q * 2 ^ 53 then scaleFor fuel (2 * p) q + 1 else 0

/-- Number of halvings that bring `p / q` below `2 ^ 53`.  The first argument
bounds the number of halvings; `p` is always enough. -/
def shiftForQuot : Nat → Nat → Nat → Nat
  | 0, _, _ => 0
  | fuel + 1, p, q => if p < q * 2 ^ 53 then 0 else shiftForQuot fuel p (2 * q) + 1

/-- The value `Math.floor(p / q)` for doubles `p` and `q` that are natural
numbers: the quotient `p / q` is the double nearest to the exact quotient, that
is its 53 leading bits rounded to nearest, ties to even, and the floor is taken
of that double. -/
def floorDivDouble (p q : Nat) : Nat :=
  if p < q * 2 ^ 53 then
    roundHalfEven (p * 2 ^ scaleFor (53 + q) p q) q / 2 ^ scaleFor (53 + q) p q
  else
    roundHalfEven p (q * 2 ^ shiftForQuot p p q) * 2 ^ shiftForQuot p p q

/-- The least integer that is not below the double `p / q`, for the floor of a
negative quotient. -/
def ceilDivDouble (p q : Nat) : Nat :=
  if p < q * 2 ^ 53 then
    (roundHalfEven (p * 2 ^ scaleFor (53 + q) p q) q + (2 ^ scaleFor (53 + q) p q - 1))
      / 2 ^ scaleFor (53 + q) p q
  else
    roundHalfEven p (q * 2 ^ shiftForQuot p p q) * 2 ^ shiftForQuot p p q

/-- The value `Math.floor(x / q)` for an integer double `x` and a positive
integer double `q`. -/
def mathFloorDiv (x : Int) (q : Nat) : Int :=
  if x < 0 then -(ceilDivDouble x.natAbs q : Int) else (floorDivDouble x.natAbs q : Int)

/-- Of the multiples of `10 ^ j` whose number value is the double `v`, the one
nearest to `v` (of two equally near the one with the even factor), if there is
any.  The multiples just below and just above `v` are the only ones to try. -/
def candidate (v j : Nat) : Option Nat :=
  let lo := v / 10 ^ j * 10 ^ j
  let hi := lo + 10 ^ j
  let okLo := decide (0 < lo) && toDouble lo == v
  let okHi := toDouble hi == v
  if okLo && okHi then
    if v - lo < hi - v then some lo
    else if hi - v < v - lo then some hi
    else if lo / 10 ^ j % 2 = 0 then some lo
    else some hi
  else if okLo then some lo
  else if okHi then some hi
  else none

/-- The integer with the fewest significant decimal digits whose number value
is the double `v`: the candidate with the most trailing zeros, looked for from
`j` zeros downwards; with no zero required `v` itself is one. -/
def shortest (v : Nat) : Nat → Nat
  | 0 => v
  | j + 1 =>
    match candidate v (j + 1) with
    | some c => c
    | none => shortest v j

/-- A digit string without its trailing zeros. -/
def stripZeros (l : List Char) : List Char :=
  (l.reverse.dropWhile (fun c => c == '0')).reverse

/-- The operation `Number::toString` of ECMA-262 on a double that is a natural
number: the digits are those of the shortest decimal that has `v` as its number
value, followed by zeros up to the size of `v`; from 22 digits on the exponent
form is used, one digit, the other significant digits after a point if there
are any, and `e+` with the exponent. -/
def doubleToString (v : Nat) : String :=
  if doubleOverflow ≤ v then "Infinity"
  else
    let c := shortest v (toString v).length
    if c < 10 ^ 21 then toString c
    else
      match stripZeros (toString c).data with
      | [] => ""
      | [d] => String.mk [d] ++ "e+" ++ toString ((toString c).length - 1)
      | d :: rest =>
        String.mk (d :: '.' :: rest) ++ "e+" ++ toString ((toString c).length - 1)

/-- The string of an integer double, as `toString()` and a template literal give
it. -/
def numberToString (x : Int) : String :=
  if x < 0 then "-" ++ doubleToString x.natAbs else doubleToString x.natAbs

/-- The function `formatRuntime(mins)`; `none` is a missing value and an integer
stands for its number value.  `!mins` holds for a missing value and for 0,
`mins / 60` is a division of doubles, `%` the remainder with the sign of the
dividend, which is exact, and the template puts in the strings of the two
numbers.  For an infinite `mins` the hours are infinite and the minutes NaN,
which is falsy.  Fractional minutes and NaN are no integers and not part of
this model. -/
def formatRuntime (mins : Option Int) : String :=
  match mins with
  | none => ""
  | some n =>
    let x := toNumber n
    if x = 0 then ""
    else if doubleOverflow ≤ x.natAbs then numberToString x ++ "h"
    else
      let h := mathFloorDiv x 60
      let m := Int.tmod x 60
      if h != 0 && m != 0 then numberToString h ++ "h " ++ numberToString m ++ "m"
      else if h != 0 then numberToString h ++ "h"
      else numberToString m ++ "m"

/-- The class `\w` of a regular expression: ASCII letters, digits and `_`. -/
def isWordChar (c : Char) : Bool := c.isAlphanum || c == '_'

/-- The assertion `\B` at a position with `prev` before it and `next` after it
(`none` at either end of the string): both sides are word characters or
neither is. -/
def atNonBoundary (prev next : Option Char) : Bool :=
  (prev.map isWordChar).getD false == (next.map isWordChar).getD false

/-- The lookahead `(?=(\d{3})+(?!\d))` on the text after a position: one or
more groups of three digits, the last of them not followed by a digit. -/
def lookaheadGroups : List Char → Bool
  | a :: b :: c :: tl =>
    a.isDigit && b.isDigit && c.isDigit &&
      (!((tl.head?.map Char.isDigit).getD false) || lookaheadGroups tl)
  | _ => false

/-- The call `s.replace(/\B(?=(\d{3})+(?!\d))/g, ',')`: the pattern matches the
empty string, so a comma is put at every position where it matches; `prev` is
the character before the current position. -/
def insertCommas (prev : Option Char) : List Char → List Char
  | [] => if atNonBoundary prev none && lookaheadGroups [] then [','] else []
  | c :: rest =>
    (if atNonBoundary prev (some c) && lookaheadGroups (c :: rest) then [','] else []) ++
      c :: insertCommas (some c) rest

/-- The function `formatCurrency(v)`; `none` is a missing value and an integer
stands for its number value.  `v.toString()` is the string of that double: the
decimal numeral up to `2 ^ 53`, rounded digits above it and the exponent form
from 22 digits on; nothing in the `try` block throws for a number. -/
def formatCurrency (v : Option Int) : String :=
  match v with
  | none => "$0"
  | some n =>
    if toNumber n = 0 then "$0"
    else "$" ++ String.mk (insertCommas none (numberToString (toNumber n)).data)

/-- Reference grouping of a digit string: a comma goes between a digit and the
next one exactly when the digits to the right of the gap are a positive multiple
of three in number. -/
def thousands : List Char → List Char
  | [] => []
  | c :: rest =>
    if rest ≠ [] ∧ rest.length % 3 = 0 then c :: ',' :: thousands rest
    else c :: thousands rest

/-! ## Concrete values used in examples -/

/-- Movie with the given id and no other field. -/
def movieWithId (id : Int) : Movie := { id := id }

/-- Page-1 state of the specification example: items 1 and 2, three pages. -/
def examplePage1 : HomeState := { movies := [movieWithId 1, movieWithId 2], page := 1, totalPages := 3 }

/-- Response for page 2 in the specification example. -/
def examplePage2Data : Option ResponseData :=
  some { results := some [movieWithId 2, movieWithId 3], total_pages := some 3 }

/-- A feed on page 2 showing two movies, with nothing in flight. -/
def exampleBrowsing : Feed :=
  { st := { movies := [movieWithId 1, movieWithId 2], page := 2, totalPages := 3, searchQuery := "dune " } }

/-- A first result page with two entries. -/
def exampleResetData : Option ResponseData :=
  some { results := some [movieWithId 7, movieWithId 2], total_pages := some 4 }

/-- A render with a settled search text and a selected genre. -/
def exampleSearching : HomeState :=
  { debouncedQuery := "dune 2", selectedGenre := some 28, page := 3 }

/-- A feed whose last page is already loaded. -/
def exampleLastPage : Feed :=
  { st := { movies := [movieWithId 1], page := 3, totalPages := 3 } }

/-- Response to the genre request in the race example. -/
def exampleGenreData : Option ResponseData :=
  some { results := some [movieWithId 2], total_pages := some 5 }

/-- Response to the request sent at mount in the race example. -/
def exampleMountData : Option ResponseData :=
  some { results := some [movieWithId 1], total_pages := some 9 }

/-- Race example: after mounting, genre 28 is selected and its response arrives
while the request sent at mount is still in flight. -/
def exampleRace : Feed :=
  run Feed.start [Event.selectGenre (some 28), Event.deliver 1 (Outcome.resolved exampleGenreData)]

/-- The mount request answered with `total_pages = 0`. -/
def exampleZeroPages : Feed :=
  run Feed.start
    [Event.deliver 0 (Outcome.resolved (some { results := some [], total_pages := some 0 }))]

/-- Three pages announced, page 2 requested, and its response announces one page. -/
def exampleShrunk : Feed :=
  run Feed.start
    [Event.deliver 0 (Outcome.resolved (some { results := some [movieWithId 1], total_pages := some 3 })),
     Event.loadMore,
     Event.deliver 0 (Outcome.resolved (some { results := some [movieWithId 2], total_pages := some 1 }))]

/-- Events of a session in which every response announces enough pages. -/
def exampleSession : List Event :=
  [Event.deliver 0 (Outcome.resolved (some { results := some [movieWithId 1], total_pages := some 3 })),
   Event.loadMore,
   Event.deliver 0 (Outcome.resolved (some { results := some [movieWithId 2], total_pages := some 2 })),
   Event.selectGenre (some 28),
   Event.deliver 0 Outcome.rejected]

/-- Favorites holding movies 1 and 2. -/
def exampleFavorites : List Movie := [movieWithId 1, movieWithId 2]

/-- Movie 2 with a title, as a second record of the same id. -/
def exampleTitled : Movie := { id := 2, title := some "Dune" }

/-- Three favorites in the order they were added. -/
def exampleShelf : List Movie :=
  [{ id := 1, title := some "Dune", release_date := some "2021-10-22" },
   { id := 2, title := some "Alien", release_date := some "1979-05-25" },
   { id := 3, title := some "Dune", release_date := some "1984-12-14" },
   { id := 4, release_date := some "1979-05-25" }]

/-- Four favorites of which the second has a release date that is not a date. -/
def exampleUndatedShelf : List Movie :=
  [{ id := 1, release_date := some "1990-01-01" },
   { id := 2, release_date := some "soon" },
   { id := 3, release_date := some "2000-01-01" },
   { id := 4, release_date := some "1980-01-01" }]

/-- Seven favorites of which the fourth has a release date that is not a date
and the fifth and the seventh share their release date. -/
def exampleUndatedTies : List Movie :=
  [{ id := 1, release_date := some "2010-01-01" },
   { id := 2, release_date := some "2009-01-01" },
   { id := 3, release_date := some "1990-01-01" },
   { id := 4, release_date := some "soon" },
   { id := 5, release_date := some "2000-01-01" },
   { id := 6, release_date := some "2005-01-01" },
   { id := 7, release_date := some "2000-01-01" }]

/-- A store holding the shelf at address 0 and another array at address 1. -/
def exampleStore : Store := [exampleShelf, [movieWithId 9]]

/-- The example of the specification: "dune", then "dune2" 100 ms later, then
enough time for the timer. -/
def exampleTyping : List TimedEvent :=
  [TimedEvent.setSearchQuery "dune", TimedEvent.advance 100,
   TimedEvent.setSearchQuery "dune2", TimedEvent.advance 350]

/-- Typing "dune" and clearing the box 100 ms later. -/
def exampleClearing : List TimedEvent :=
  [TimedEvent.setSearchQuery "dune", TimedEvent.advance 100,
   TimedEvent.setSearchQuery "", TimedEvent.advance 350]

/-- A render with no search text and the genre id 0 selected. -/
def exampleGenreZero : HomeState := { selectedGenre := some 0 }

/-- A render with no search text and the genre id 28 selected, on page 2. -/
def exampleGenrePicked : HomeState := { selectedGenre := some 28, page := 2 }

/-- A first page of three entries, one id repeated, out of four pages. -/
def exampleFirstPage : Option ResponseData :=
  some { results := some [movieWithId 1, movieWithId 2, movieWithId 1], total_pages := some 4 }

/-- Two further pages that overlap with the first and with each other. -/
def exampleMorePages : List (Option ResponseData) :=
  [some { results := some [movieWithId 2, movieWithId 3], total_pages := some 4 },
   some { results := some [movieWithId 3, movieWithId 4, movieWithId 5], total_pages := some 4 }]

/-- A feed showing search results for "dune" with genre 28 selected and the
text box holding blanks only. -/
def exampleBlankBox : Feed :=
  { st := { debouncedQuery := "dune", searchQuery := "   ", selectedGenre := some 28,
            movies := [movieWithId 1] } }

/-- The app on the favorites tab with two favorites, after a visit of Details. -/
def exampleOnFavorites : AppState :=
  navigateAll [(SCREENS_DETAILS, some (movieWithId 5)), (SCREENS_HOME, none),
    (SCREENS_FAVORITES, none)] { favorites := exampleFavorites }

/-! ## Lemmas on the array primitives -/

theorem findIndexAux_append_hit {α : Type} (p : α → Bool) (pre : List α) (x : α)
    (xs : List α) (i : Nat) (hx : p x = true) :
    findIndexAux p (pre ++ x :: xs) i = ((i + pre.length : Nat) : Int) ↔
      ∀ y ∈ pre, p y = false := by
  induction pre generalizing i with
  | nil => simp [findIndexAux, hx]
  | cons y ys ih =>
    simp only [List.cons_append, List.length_cons, List.mem_cons, forall_eq_or_imp]
    unfold findIndexAux
    by_cases hy : p y = true
    · simp only [hy, if_true]
      constructor
      · intro h; push_cast at h; omega
      · intro h; simp at h
    · simp only [hy, Bool.false_eq_true, if_false]
      have := ih (i + 1)
      rw [show i + 1 + ys.length = i + (ys.length + 1) by omega] at this
      rw [this]
      simp [hy]

theorem keepFresh_cons (seen : List Int) (x : Movie) (xs : List Movie) :
    keepFresh seen (x :: xs)
      = if x.id ∈ seen then keepFresh seen xs else x :: keepFresh (x.id :: seen) xs := by
  rw [keepFresh]

theorem keepFresh_congr (s t : List Int) (l : List Movie) (h : ∀ i, i ∈ s ↔ i ∈ t) :
    keepFresh s l = keepFresh t l := by
  induction l generalizing s t with
  | nil => rfl
  | cons x xs ih =>
    unfold keepFresh
    by_cases hx : x.id ∈ s
    · rw [if_pos hx, if_pos ((h _).1 hx)]
      exact ih s t h
    · rw [if_neg hx, if_neg (fun c => hx ((h _).2 c))]
      rw [ih (x.id :: s) (x.id :: t) (fun i => by simp [h i])]

theorem filterAux_unique_eq_keepFresh (pre l : List Movie) :
    filterAux (fun v i a => findIndex (fun t => t.id == v.id) a == (i : Int)) (pre ++ l) l
        pre.length
      = keepFresh (pre.map Movie.id) l := by
  induction l generalizing pre with
  | nil => rfl
  | cons x xs ih =>
    have hit := findIndexAux_append_hit (fun t : Movie => t.id == x.id) pre x xs 0 (by simp)
    have step := ih (pre ++ [x])
    simp only [List.append_assoc, List.singleton_append, List.length_append, List.length_singleton]
      at step
    unfold filterAux keepFresh
    rw [step]
    by_cases hx : x.id ∈ pre.map Movie.id
    · have hne : ¬ (findIndex (fun t : Movie => t.id == x.id) (pre ++ x :: xs)
          = ((pre.length : Nat) : Int)) := by
        intro c
        rw [findIndex] at c
        have c2 := hit.1 (by simpa using c)
        obtain ⟨y, hy, hyx⟩ := List.mem_map.1 hx
        have := c2 y hy
        simp [hyx] at this
      simp only [beq_iff_eq, hne, if_false, hx, if_true]
      apply keepFresh_congr
      intro i; simp only [List.map_append, List.map_cons, List.map_nil, List.mem_append,
        List.mem_singleton]
      constructor
      · rintro (h | h)
        · exact h
        · exact h ▸ hx
      · intro h; exact Or.inl h
    · have heq : findIndex (fun t : Movie => t.id == x.id) (pre ++ x :: xs)
          = ((pre.length : Nat) : Int) := by
        rw [findIndex]
        have := hit.2 (fun y hy => by
          simp only [beq_eq_false_iff_ne, ne_eq]
          intro c; exact hx (List.mem_map.2 ⟨y, hy, c⟩))
        simpa using this
      simp only [beq_iff_eq, heq, if_true, hx, if_false]
      congr 1
      apply keepFresh_congr
      intro i; simp only [List.map_append, List.map_cons, List.map_nil, List.mem_append,
        List.mem_singleton, List.mem_cons, List.not_mem_nil, or_false]
      exact or_comm

theorem uniqueById_eq_keepFresh (l : List Movie) : uniqueById l = keepFresh [] l := by
  have := filterAux_unique_eq_keepFresh [] l
  simpa [uniqueById, arrayFilter] using this

theorem keepFresh_ids (seen : List Int) (l : List Movie) :
    ((keepFresh seen l).map Movie.id).Nodup ∧
      ∀ m ∈ keepFresh seen l, m.id ∉ seen ∧ m ∈ l := by
  induction l generalizing seen with
  | nil => simp [keepFresh]
  | cons x xs ih =>
    unfold keepFresh
    by_cases hx : x.id ∈ seen
    · rw [if_pos hx]
      refine ⟨(ih seen).1, fun m hm => ?_⟩
      have := (ih seen).2 m hm
      exact ⟨this.1, List.mem_cons_of_mem _ this.2⟩
    · rw [if_neg hx]
      obtain ⟨h1, h2⟩ := ih (x.id :: seen)
      refine ⟨?_, ?_⟩
      · rw [List.map_cons, List.nodup_cons]
        refine ⟨?_, h1⟩
        intro c
        obtain ⟨m, hm, hmx⟩ := List.mem_map.1 c
        have := (h2 m hm).1
        simp [hmx] at this
      · intro m hm
        rcases List.mem_cons.1 hm with rfl | hm
        · exact ⟨hx, List.mem_cons_self _ _⟩
        · have := h2 m hm
          exact ⟨fun c => this.1 (List.mem_cons_of_mem _ c), List.mem_cons_of_mem _ this.2⟩

theorem keepFresh_complete (seen : List Int) (l : List Movie) :
    ∀ m ∈ l, m.id ∉ seen → m.id ∈ (keepFresh seen l).map Movie.id := by
  induction l generalizing seen with
  | nil => simp
  | cons x xs ih =>
    intro m hm hs
    unfold keepFresh
    by_cases hx : x.id ∈ seen
    · rw [if_pos hx]
      rcases List.mem_cons.1 hm with rfl | hm
      · exact absurd hx hs
      · exact ih seen m hm hs
    · rw [if_neg hx, List.map_cons, List.mem_cons]
      by_cases hmx : m.id = x.id
      · exact Or.inl hmx
      · right
        rcases List.mem_cons.1 hm with rfl | hm
        · exact absurd rfl hmx
        · apply ih (x.id :: seen) m hm
          simp [hmx, hs]

theorem keepFresh_append (seen : List Int) (l₁ l₂ : List Movie) :
    keepFresh seen (l₁ ++ l₂)
      = keepFresh seen l₁ ++ keepFresh (l₁.map Movie.id ++ seen) l₂ := by
  induction l₁ generalizing seen with
  | nil => simp [keepFresh]
  | cons x xs ih =>
    simp only [List.cons_append, List.map_cons, keepFresh_cons]
    by_cases hx : x.id ∈ seen
    · rw [if_pos hx, if_pos hx, ih seen]
      congr 1
      apply keepFresh_congr
      intro i; simp only [List.mem_append, List.mem_cons]
      constructor
      · intro h; tauto
      · rintro (h | h | h)
        · exact Or.inr (h ▸ hx)
        · exact Or.inl h
        · exact Or.inr h
    · rw [if_neg hx, if_neg hx, ih (x.id :: seen), List.cons_append]
      congr 2
      apply keepFresh_congr
      intro i; simp only [List.mem_append, List.mem_cons]
      tauto

theorem keepFresh_of_nodup (seen : List Int) (l : List Movie)
    (hn : (l.map Movie.id).Nodup) (hd : ∀ m ∈ l, m.id ∉ seen) : keepFresh seen l = l := by
  induction l generalizing seen with
  | nil => rfl
  | cons x xs ih =>
    rw [List.map_cons, List.nodup_cons] at hn
    unfold keepFresh
    rw [if_neg (hd x (List.mem_cons_self _ _))]
    congr 1
    apply ih _ hn.2
    intro m hm
    simp only [List.mem_cons, not_or]
    refine ⟨?_, hd m (List.mem_cons_of_mem _ hm)⟩
    intro c
    exact hn.1 (c ▸ List.mem_map_of_mem _ hm)

theorem keepFresh_sublist (seen : List Int) (l : List Movie) :
    (keepFresh seen l).Sublist l := by
  induction l generalizing seen with
  | nil => exact List.Sublist.refl _
  | cons x xs ih =>
    rw [keepFresh_cons]
    split
    · exact (ih seen).cons x
    · exact (ih _).cons₂ x

theorem keepFresh_first (seen : List Int) (l : List Movie) :
    ∀ m ∈ keepFresh seen l, l.find? (fun r => r.id == m.id) = some m := by
  induction l generalizing seen with
  | nil => intro m hm; simp [keepFresh] at hm
  | cons x xs ih =>
    intro m hm
    rw [keepFresh_cons] at hm
    by_cases hx : x.id ∈ seen
    · rw [if_pos hx] at hm
      have hms := ((keepFresh_ids seen xs).2 m hm).1
      have hne : (x.id == m.id) = false := by
        simp only [beq_eq_false_iff_ne, ne_eq]
        exact fun c => hms (c ▸ hx)
      rw [List.find?_cons, hne]
      exact ih seen m hm
    · rw [if_neg hx] at hm
      rcases List.mem_cons.1 hm with rfl | hm
      · simp
      · have hms := ((keepFresh_ids (x.id :: seen) xs).2 m hm).1
        have hne : (x.id == m.id) = false := by
          simp only [beq_eq_false_iff_ne, ne_eq]
          exact fun c => hms (by simp [c])
        rw [List.find?_cons, hne]
        exact ih _ m hm

theorem uniqueById_nodup (l : List Movie) : ((uniqueById l).map Movie.id).Nodup := by
  rw [uniqueById_eq_keepFresh]
  exact (keepFresh_ids [] l).1

theorem uniqueById_append (prev results : List Movie) (h : (prev.map Movie.id).Nodup) :
    uniqueById (prev ++ results) = prev ++ keepFresh (prev.map Movie.id) results := by
  rw [uniqueById_eq_keepFresh, keepFresh_append, List.append_nil,
    keepFresh_of_nodup [] prev h (fun _ _ => List.not_mem_nil _)]

theorem appendFirstSeen_eq (items rs : List Movie) :
    appendFirstSeen items rs = items ++ keepFresh (items.map Movie.id) rs := by
  induction rs generalizing items with
  | nil => simp [appendFirstSeen, keepFresh]
  | cons r rs ih =>
    rw [appendFirstSeen, keepFresh_cons]
    by_cases hr : r.id ∈ items.map Movie.id
    · have : items.any (fun t => t.id == r.id) = true := by
        obtain ⟨t, ht, htr⟩ := List.mem_map.1 hr
        exact List.any_eq_true.2 ⟨t, ht, by simp [htr]⟩
      rw [if_pos this, if_pos hr, ih]
    · have : ¬ items.any (fun t => t.id == r.id) = true := by
        intro c
        obtain ⟨t, ht, htr⟩ := List.any_eq_true.1 c
        exact hr (List.mem_map.2 ⟨t, ht, by simpa using htr⟩)
      rw [if_neg this, if_neg hr, ih, List.append_assoc, List.singleton_append]
      congr 2
      apply keepFresh_congr
      intro i
      simp only [List.map_append, List.map_cons, List.map_nil, List.mem_append, List.mem_cons,
        List.not_mem_nil, or_false]
      exact or_comm

/-! ## Lemmas on URLs -/

theorem isPlain_of_isUnescaped (c : Char) (h : isUnescaped c = true) : isPlain c = true := by
  by_contra hc
  have h3 : c = '?' ∨ c = '&' ∨ c = '=' := by
    simp only [isPlain, Bool.and_eq_true, bne_iff_ne, ne_eq, not_and_or, not_not] at hc
    tauto
  rcases h3 with rfl | rfl | rfl <;> exact absurd h (by decide)

theorem isPlain_hexUpper : ∀ k : Nat, k < 16 → isPlain (hexUpper k) = true := by decide

theorem isPlain_digitChar : ∀ k : Nat, k < 10 → isPlain (Nat.digitChar k) = true := by decide

theorem isPlain_encodeURIComponent (s : String) :
    ∀ c ∈ (encodeURIComponent s).data, isPlain c = true := by
  intro c hc
  simp only [encodeURIComponent, List.mem_flatMap] at hc
  obtain ⟨a, _, hca⟩ := hc
  split at hca
  · rename_i hu
    rw [List.mem_singleton] at hca
    exact isPlain_of_isUnescaped c (hca ▸ hu)
  · rw [List.mem_flatMap] at hca
    obtain ⟨b, _, hcb⟩ := hca
    simp only [percentUnit, List.mem_cons, List.mem_singleton, List.not_mem_nil, or_false] at hcb
    rcases hcb with rfl | rfl | rfl
    · decide
    · exact isPlain_hexUpper _ (Nat.mod_lt _ (by decide))
    · exact isPlain_hexUpper _ (Nat.mod_lt _ (by decide))

theorem isPlain_toDigitsCore (fuel n : Nat) (ds : List Char)
    (hds : ∀ c ∈ ds, isPlain c = true) :
    ∀ c ∈ Nat.toDigitsCore 10 fuel n ds, isPlain c = true := by
  induction fuel generalizing n ds with
  | zero => simpa [Nat.toDigitsCore] using hds
  | succ fuel ih =>
    have hcons : ∀ c ∈ Nat.digitChar (n % 10) :: ds, isPlain c = true := by
      intro c hc
      rcases List.mem_cons.1 hc with rfl | hc
      · exact isPlain_digitChar _ (Nat.mod_lt _ (by decide))
      · exact hds c hc
    simp only [Nat.toDigitsCore]
    split
    · exact hcons
    · exact ih _ _ hcons

theorem isPlain_natToString (n : Nat) : ∀ c ∈ (toString n).data, isPlain c = true := by
  intro c hc
  have : (toString n).data = Nat.toDigitsCore 10 (n + 1) n [] := rfl
  rw [this] at hc
  exact isPlain_toDigitsCore _ _ [] (fun _ h => absurd h (List.not_mem_nil _)) c hc

theorem takeWhile_append_stop {α : Type} (p : α → Bool) (xs : List α) (y : α) (ys : List α)
    (hx : ∀ x ∈ xs, p x = true) (hy : p y = false) :
    (xs ++ y :: ys).takeWhile p = xs ∧ (xs ++ y :: ys).dropWhile p = y :: ys := by
  induction xs with
  | nil => simp [List.takeWhile, List.dropWhile, hy]
  | cons x xs ih =>
    have hxx := hx x (List.mem_cons_self _ _)
    have := ih (fun z hz => hx z (List.mem_cons_of_mem _ hz))
    simp [List.takeWhile, List.dropWhile, hxx, this]

theorem mem_intercalate {α : Type} (sep : List α) (ls : List (List α)) (c : α)
    (h : c ∈ List.intercalate sep ls) : c ∈ sep ∨ ∃ l ∈ ls, c ∈ l := by
  induction ls with
  | nil => simp [List.intercalate, List.intersperse] at h
  | cons l ls ih =>
    cases ls with
    | nil =>
      simp [List.intercalate, List.intersperse] at h
      exact Or.inr ⟨l, List.mem_cons_self _ _, h⟩
    | cons l2 ls =>
      have e : List.intercalate sep (l :: l2 :: ls) = l ++ sep ++ List.intercalate sep (l2 :: ls) := by
        simp [List.intercalate, List.intersperse]
      rw [e] at h
      simp only [List.mem_append] at h
      rcases h with (h | h) | h
      · exact Or.inr ⟨l, List.mem_cons_self _ _, h⟩
      · exact Or.inl h
      · rcases ih h with h | ⟨l', hl', hc⟩
        · exact Or.inl h
        · exact Or.inr ⟨l', List.mem_cons_of_mem _ hl', hc⟩

theorem urlParams_renderUrl (path : String) (params : List (String × String))
    (hpath : ∀ c ∈ path.data, c ≠ '?')
    (hparams : ∀ kv ∈ params, (∀ c ∈ kv.1.data, isPlain c = true) ∧ (∀ c ∈ kv.2.data, isPlain c = true))
    (hne : params ≠ []) :
    urlParams (renderUrl path params) = params ∧ urlPath (renderUrl path params) = path := by
  have plainq : ∀ c : Char, isPlain c = true → c ≠ '?' ∧ c ≠ '&' ∧ c ≠ '=' := by
    intro c hc
    simpa [isPlain, and_assoc] using hc
  set kvs := params.map (fun kv => kv.1.data ++ '=' :: kv.2.data) with hkvs
  have hkv_no : ∀ l ∈ kvs, ∀ c ∈ l, c ≠ '?' ∧ c ≠ '&' := by
    intro l hl c hc
    obtain ⟨kv, hkv, rfl⟩ := List.mem_map.1 hl
    rcases List.mem_append.1 hc with h | h
    · have := plainq c ((hparams kv hkv).1 c h); exact ⟨this.1, this.2.1⟩
    · rcases List.mem_cons.1 h with rfl | h
      · exact ⟨by decide, by decide⟩
      · have := plainq c ((hparams kv hkv).2 c h); exact ⟨this.1, this.2.1⟩
  have hrest : ∀ c ∈ List.intercalate ['&'] kvs, c ≠ '?' := by
    intro c hc
    rcases mem_intercalate _ _ _ hc with h | ⟨l, hl, h⟩
    · rw [List.mem_singleton] at h; rw [h]; decide
    · exact (hkv_no l hl c h).1
  have hsplit1 : (path.data ++ '?' :: List.intercalate ['&'] kvs).splitOn '?'
      = [path.data, List.intercalate ['&'] kvs] := by
    have := List.splitOn_intercalate [path.data, List.intercalate ['&'] kvs] '?' (by
      intro l hl
      simp only [List.mem_cons, List.mem_singleton, List.not_mem_nil, or_false] at hl
      rcases hl with rfl | rfl
      · exact fun c => hpath _ c rfl
      · exact fun c => hrest _ c rfl) (by simp)
    simpa [List.intercalate, List.intersperse] using this
  have hsplit2 : (List.intercalate ['&'] kvs).splitOn '&' = kvs :=
    List.splitOn_intercalate kvs '&' (fun l hl c => (hkv_no l hl _ c).2 rfl)
      (by simpa [hkvs] using hne)
  constructor
  · simp only [urlParams, renderUrl]
    rw [hsplit1]
    simp only [hsplit2, hkvs, List.map_map]
    conv_rhs => rw [← List.map_id params]
    apply List.map_congr_left
    intro kv hkv
    have := takeWhile_append_stop (fun c => c != '=') kv.1.data '=' kv.2.data
      (fun c hc => by simpa using (plainq c ((hparams kv hkv).1 c hc)).2.2) (by decide)
    simp [this.1, this.2]
  · simp only [urlPath, renderUrl]
    have := takeWhile_append_stop (fun c => c != '?') path.data '?' (List.intercalate ['&'] kvs)
      (fun c hc => by simpa using hpath c hc) (by decide)
    rw [this.1]
theorem isPlain_intToString (g : Int) : ∀ c ∈ (toString g).data, isPlain c = true := by
  intro c hc
  cases g with
  | ofNat n => exact isPlain_natToString n c hc
  | negSucc n =>
    have e : (toString (Int.negSucc n)).data = '-' :: (toString (n + 1)).data := rfl
    rw [e] at hc
    rcases List.mem_cons.1 hc with rfl | hc
    · decide
    · exact isPlain_natToString _ c hc

theorem buildUrl_search (dq : String) (g : Option Int) (p : Nat) (hq : dq ≠ "") :
    buildUrl dq g p
      = renderUrl searchPath
          [("api_key", API_KEY), ("query", encodeURIComponent dq), ("page", toString p)] := by
  have hb : (dq != "") = true := by simpa using hq
  simp only [buildUrl, hb, if_true]
  apply String.ext
  simp only [String.data_append, renderUrl, List.map_cons, List.map_nil, List.intercalate,
    List.intersperse, List.flatten, List.append_assoc, List.append_nil]
  rfl

theorem buildUrl_discover (g : Option Int) (p : Nat) :
    buildUrl "" g p
      = renderUrl discoverPath
          ([("api_key", API_KEY), ("page", toString p)] ++
            (match g with
             | some v => if v != 0 then [("with_genres", toString v)] else []
             | none => [])) := by
  simp only [buildUrl, bne_self_eq_false, Bool.false_eq_true, if_false]
  apply String.ext
  cases g with
  | none =>
    simp only [String.data_append, renderUrl, List.map_cons, List.map_nil, List.intercalate,
      List.intersperse, List.flatten, List.append_assoc, List.append_nil, List.cons_append,
      List.nil_append]
    rfl
  | some v =>
    by_cases hv : (v != 0) = true
    · simp only [hv, if_true, String.data_append, renderUrl, List.map_cons, List.map_nil,
        List.intercalate, List.intersperse, List.flatten, List.append_assoc, List.append_nil,
        List.cons_append, List.nil_append]
      rfl
    · show ("https://api.themoviedb.org/3/discover/movie?api_key=" ++ API_KEY ++ "&page=" ++
          toString p ++ if (v != 0) = true then "&with_genres=" ++ toString v else "").data
        = (renderUrl discoverPath ([("api_key", API_KEY), ("page", toString p)] ++
            if (v != 0) = true then [("with_genres", toString v)] else [])).data
      rw [if_neg hv, if_neg hv]
      simp only [String.append_empty, String.data_append, renderUrl,
        List.map_cons, List.map_nil, List.intercalate, List.intersperse, List.flatten,
        List.append_assoc, List.append_nil, List.cons_append, List.nil_append]
      rfl

theorem isPlain_apiKey : ∀ c ∈ API_KEY.data, isPlain c = true := by decide

theorem urlParams_search (dq : String) (g : Option Int) (p : Nat) (hq : dq ≠ "") :
    urlParams (buildUrl dq g p)
        = [("api_key", API_KEY), ("query", encodeURIComponent dq), ("page", toString p)] ∧
      urlPath (buildUrl dq g p) = searchPath := by
  rw [buildUrl_search dq g p hq]
  apply urlParams_renderUrl
  · decide
  · intro kv hkv
    simp only [List.mem_cons, List.mem_singleton, List.not_mem_nil, or_false] at hkv
    rcases hkv with rfl | rfl | rfl
    · exact ⟨by decide, isPlain_apiKey⟩
    · exact ⟨(by decide : ∀ c ∈ "query".data, isPlain c = true), isPlain_encodeURIComponent dq⟩
    · exact ⟨(by decide : ∀ c ∈ "page".data, isPlain c = true), isPlain_natToString p⟩
  · simp

theorem urlParams_discover (g : Option Int) (p : Nat) :
    urlParams (buildUrl "" g p)
        = [("api_key", API_KEY), ("page", toString p)] ++
            (match g with
             | some v => if v != 0 then [("with_genres", toString v)] else []
             | none => []) ∧
      urlPath (buildUrl "" g p) = discoverPath := by
  rw [buildUrl_discover g p]
  apply urlParams_renderUrl
  · decide
  · intro kv hkv
    rw [List.mem_append] at hkv
    rcases hkv with hkv | hkv
    · simp only [List.mem_cons, List.mem_singleton, List.not_mem_nil, or_false] at hkv
      rcases hkv with rfl | rfl
      · exact ⟨by decide, isPlain_apiKey⟩
      · exact ⟨(by decide : ∀ c ∈ "page".data, isPlain c = true), isPlain_natToString p⟩
    · cases g with
      | none => simp at hkv
      | some v =>
        by_cases hv : (v != 0) = true
        · simp only [hv, if_true, List.mem_singleton] at hkv
          rw [hkv]
          exact ⟨(by decide : ∀ c ∈ "with_genres".data, isPlain c = true),
            isPlain_intToString v⟩
        · simp [hv] at hkv
  · simp

theorem urlParam_page (dq : String) (g : Option Int) (p : Nat) :
    urlParam (buildUrl dq g p) "page" = some (toString p) := by
  by_cases hq : dq = ""
  · subst hq
    rw [urlParam, (urlParams_discover g p).1]
    rfl
  · rw [urlParam, (urlParams_search dq g p hq).1]
    rfl

theorem step_movies_nodup (f : Feed) (e : Event) (h : (f.st.movies.map Movie.id).Nodup) :
    ((step f e).st.movies.map Movie.id).Nodup := by
  cases e with
  | typeText text => exact h
  | debounceFire =>
    simp only [step]
    split
    · exact h
    · exact h
  | selectGenre g =>
    simp only [step]
    split
    · exact h
    · exact h
  | loadMore =>
    simp only [step, Feed.send, loadMore, pageEffect]
    split
    · split
      · exact h
      · exact h
    · exact h
  | refresh => exact h
  | submit => exact h
  | retry => exact h
  | deliver i o =>
    simp only [step]
    cases f.inflight.get? i with
    | none => exact h
    | some r =>
      cases o with
      | rejected => by_cases hr : r.refresh = true <;> simpa [fetchMoviesDone, hr] using h
      | resolved data =>
        by_cases hr : r.refresh = true <;> simpa [fetchMoviesDone, hr] using uniqueById_nodup _

/-! ## Claims on the merge of result pages -/

/-- C1: starting from the empty movie list, after any sequence of successful
`fetchMovies` completions, each a reset or an append with an arbitrary response,
the ids of the movies list are pairwise distinct; the same holds for a single
successful completion applied to any state whatever, and in every state the
mounted feed reaches by any events, failures and late responses included. -/
theorem movies_ids_distinct_after_fetches :
    (∀ cs : List (Bool × Option ResponseData),
      ((cs.foldl (fun s c => fetchMovies c.1 (Outcome.resolved c.2) s) initState).movies.map
        Movie.id).Nodup) ∧
    (∀ (s : HomeState) (reset : Bool) (data : Option ResponseData),
      ((fetchMoviesDone reset (Outcome.resolved data) s).movies.map Movie.id).Nodup) ∧
    (∀ es : List Event, ((run Feed.start es).st.movies.map Movie.id).Nodup) := by
  have all : ∀ (es : List Event) (f : Feed), (f.st.movies.map Movie.id).Nodup →
      ((run f es).st.movies.map Movie.id).Nodup := by
    intro es
    induction es with
    | nil => intro f hf; exact hf
    | cons e es ih => intro f hf; exact ih (step f e) (step_movies_nodup f e hf)
  refine and_assoc.1 ⟨?_, fun es => all es Feed.start (by decide)⟩
  have one : ∀ (s : HomeState) (reset : Bool) (data : Option ResponseData),
      ((fetchMoviesDone reset (Outcome.resolved data) s).movies.map Movie.id).Nodup := by
    intro s reset data
    simp only [fetchMoviesDone]
    exact uniqueById_nodup _
  refine ⟨fun cs => ?_, one⟩
  induction cs using List.reverseRecOn with
  | nil => simp [initState]
  | append_singleton cs c _ =>
    rw [List.foldl_append]
    exact one _ _ _

/-- C2: when the ids of the current movies are pairwise distinct, a successful
non-reset `fetchMovies` completion gives the current list, unchanged and in its
order, followed by the incoming items whose id is not already present, each at
its first occurrence and in arrival order; it agrees with the append-with-dedup
of the specification, and it does not touch `page`. -/
theorem append_fetch_first_seen (s : HomeState) (data : Option ResponseData)
    (h : (s.movies.map Movie.id).Nodup) :
    (fetchMoviesDone false (Outcome.resolved data) s).movies
        = appendFirstSeen s.movies (resultsOf data) ∧
    (fetchMoviesDone false (Outcome.resolved data) s).page = s.page ∧
    ∃ added : List Movie,
      (fetchMoviesDone false (Outcome.resolved data) s).movies = s.movies ++ added ∧
      added.Sublist (resultsOf data) ∧
      (added.map Movie.id).Nodup ∧
      (∀ m ∈ added, (∀ t ∈ s.movies, t.id ≠ m.id) ∧
        (resultsOf data).find? (fun r => r.id == m.id) = some m) ∧
      (∀ r ∈ resultsOf data, (∀ t ∈ s.movies, t.id ≠ r.id) → ∃ m ∈ added, m.id = r.id) := by
  have hm : (fetchMoviesDone false (Outcome.resolved data) s).movies
      = s.movies ++ keepFresh (s.movies.map Movie.id) (resultsOf data) := by
    simp only [fetchMoviesDone, Bool.false_eq_true, if_false]
    exact uniqueById_append _ _ h
  refine ⟨?_, rfl, keepFresh (s.movies.map Movie.id) (resultsOf data), hm,
    keepFresh_sublist _ _, (keepFresh_ids _ _).1, ?_, ?_⟩
  · rw [hm, appendFirstSeen_eq]
  · intro m hmem
    refine ⟨fun t ht c => ?_, keepFresh_first _ _ m hmem⟩
    exact ((keepFresh_ids _ _).2 m hmem).1 (c ▸ List.mem_map_of_mem _ ht)
  · intro r hr hfresh
    have := keepFresh_complete (s.movies.map Movie.id) (resultsOf data) r hr (by
      intro c
      obtain ⟨t, ht, htr⟩ := List.mem_map.1 c
      exact hfresh t ht htr)
    obtain ⟨m, hmm, hmr⟩ := List.mem_map.1 this
    exact ⟨m, hmm, hmr⟩

/-- Example of the specification for C2: from items 1, 2 on page 1 of 3,
`loadMore` moves to page 2 and asks for it, and the response 2, 3 gives the items
1, 2, 3 with `page = 2`. -/
theorem append_fetch_first_seen_witness :
    ((loadMore examplePage1).1.movies.map Movie.id).Nodup ∧
    (loadMore examplePage1).2.map Request.reset = [false] ∧
    (fetchMoviesDone false (Outcome.resolved examplePage2Data) (loadMore examplePage1).1).movies
        = [movieWithId 1, movieWithId 2, movieWithId 3] ∧
    (fetchMoviesDone false (Outcome.resolved examplePage2Data) (loadMore examplePage1).1).page
        = 2 := by
  have h : ((loadMore examplePage1).1.movies.map Movie.id).Nodup := by decide
  have key := append_fetch_first_seen (loadMore examplePage1).1 examplePage2Data h
  refine ⟨h, by decide, ?_, ?_⟩
  · rw [key.1]; decide
  · rw [key.2.1]; decide

theorem uniqueById_mem (l : List Movie) : ∀ m ∈ uniqueById l, m ∈ l := by
  intro m hm
  rw [uniqueById_eq_keepFresh] at hm
  exact ((keepFresh_ids [] l).2 m hm).2

theorem uniqueById_of_nodup (l : List Movie) (h : (l.map Movie.id).Nodup) : uniqueById l = l := by
  rw [uniqueById_eq_keepFresh]
  exact keepFresh_of_nodup [] l h (fun _ _ => List.not_mem_nil _)

/-! ## Claims on reset, request and load-more -/

/-- C3: for every prior state the reset effect sets `page` to 1 and sends a
reset request whose URL asks for page 1; when that request succeeds, `page` is
still 1 and `movies` is the response's result list with repeated ids removed, so
every entry of `movies` comes from the response (the list itself when its ids
are distinct).  A change of `selectedGenre` or of `debouncedQuery` runs exactly
this effect on the changed state. -/
theorem reset_fetch_replaces_movies (s : HomeState) (data : Option ResponseData) :
    (resetEffect s).1.page = 1 ∧
    (resetEffect s).2.reset = true ∧
    (resetEffect s).2.url = buildUrl s.debouncedQuery s.selectedGenre 1 ∧
    urlParam (resetEffect s).2.url "page" = some "1" ∧
    (fetchMoviesDone (resetEffect s).2.reset (Outcome.resolved data) (resetEffect s).1).page = 1 ∧
    (fetchMoviesDone (resetEffect s).2.reset (Outcome.resolved data) (resetEffect s).1).movies
        = uniqueById (resultsOf data) ∧
    (∀ m ∈ (fetchMoviesDone (resetEffect s).2.reset (Outcome.resolved data)
        (resetEffect s).1).movies, m ∈ resultsOf data) ∧
    (((resultsOf data).map Movie.id).Nodup →
      (fetchMoviesDone (resetEffect s).2.reset (Outcome.resolved data) (resetEffect s).1).movies
        = resultsOf data) ∧
    (∀ (f : Feed) (g : Option Int), f.st = s → g ≠ s.selectedGenre →
      (step f (Event.selectGenre g)).st = (resetEffect { s with selectedGenre := g }).1 ∧
      (step f (Event.selectGenre g)).inflight.map Request.url
        = f.inflight.map Request.url ++ [buildUrl s.debouncedQuery g 1]) ∧
    (∀ f : Feed, f.st = s → jsTrim s.searchQuery ≠ s.debouncedQuery →
      (step f Event.debounceFire).st
        = (resetEffect { s with debouncedQuery := jsTrim s.searchQuery }).1 ∧
      (step f Event.debounceFire).inflight.map Request.url
        = f.inflight.map Request.url ++ [buildUrl (jsTrim s.searchQuery) s.selectedGenre 1]) := by
  have hm : (fetchMoviesDone (resetEffect s).2.reset (Outcome.resolved data)
      (resetEffect s).1).movies = uniqueById (resultsOf data) := by
    simp [fetchMoviesDone, resetEffect, fetchMoviesBegin]
  refine ⟨rfl, rfl, rfl, ?_, rfl, hm, ?_, ?_, ?_, ?_⟩
  · exact urlParam_page _ _ 1
  · rw [hm]; exact uniqueById_mem _
  · intro h; rw [hm]; exact uniqueById_of_nodup _ h
  · intro f g hf hg
    subst hf
    simp [step, hg, Feed.reset, Feed.send, resetEffect, fetchMoviesBegin]
  · intro f hf hq
    subst hf
    simp [step, hq, Feed.reset, Feed.send, resetEffect, fetchMoviesBegin]

/-- Example for C3: on page 2 with movies 1 and 2 shown, selecting genre 28 puts
`page` back to 1 and asks for page 1 of that genre; the response 7, 2 then
becomes the whole list, and movie 1 is gone. -/
theorem reset_fetch_replaces_movies_witness :
    (step exampleBrowsing (Event.selectGenre (some 28))).st.page = 1 ∧
    (step exampleBrowsing (Event.selectGenre (some 28))).inflight.map Request.url
      = [buildUrl "" (some 28) 1] ∧
    (step (step exampleBrowsing (Event.selectGenre (some 28)))
      (Event.deliver 0 (Outcome.resolved exampleResetData))).st.movies = [movieWithId 7, movieWithId 2] ∧
    (step (step exampleBrowsing (Event.selectGenre (some 28)))
      (Event.deliver 0 (Outcome.resolved exampleResetData))).st.page = 1 := by
  have key := reset_fetch_replaces_movies exampleBrowsing.st exampleResetData
  have trig := key.2.2.2.2.2.2.2.2.1 exampleBrowsing (some 28) rfl (by decide)
  refine ⟨?_, ?_, by decide, by decide⟩
  · rw [trig.1]; rfl
  · rw [trig.2]; rfl

/-- C4: when `debouncedQuery` is not empty, the URL built by `fetchMovies` is
the search/movie URL with the parameters `api_key`, `query` (the encoded query)
and `page`, in this order and no others, so it has no `with_genres` parameter;
replacing `selectedGenre` by any other value gives the same request. -/
theorem search_request_ignores_genre (c : HomeState) (reset : Bool) (s : HomeState)
    (hq : c.debouncedQuery ≠ "") :
    (fetchMoviesBegin c reset s).2.url
      = "https://api.themoviedb.org/3/search/movie?api_key=" ++ API_KEY ++ "&query=" ++
          encodeURIComponent c.debouncedQuery ++ "&page=" ++
          toString (if reset then 1 else c.page) ∧
    urlPath (fetchMoviesBegin c reset s).2.url = searchPath ∧
    urlParams (fetchMoviesBegin c reset s).2.url
      = [("api_key", API_KEY), ("query", encodeURIComponent c.debouncedQuery),
         ("page", toString (if reset then 1 else c.page))] ∧
    urlParam (fetchMoviesBegin c reset s).2.url "with_genres" = none ∧
    (∀ kv ∈ urlParams (fetchMoviesBegin c reset s).2.url, kv.1 ≠ "with_genres") ∧
    (∀ g : Option Int,
      (fetchMoviesBegin { c with selectedGenre := g } reset s).2 = (fetchMoviesBegin c reset s).2) := by
  have hb : (c.debouncedQuery != "") = true := by simpa using hq
  have hu : (fetchMoviesBegin c reset s).2.url
      = buildUrl c.debouncedQuery c.selectedGenre (if reset then 1 else c.page) := rfl
  have hp := urlParams_search c.debouncedQuery c.selectedGenre (if reset then 1 else c.page) hq
  refine ⟨?_, ?_, ?_, ?_, ?_, ?_⟩
  · rw [hu]; simp only [buildUrl, hb, if_true]
  · rw [hu]; exact hp.2
  · rw [hu]; exact hp.1
  · rw [urlParam, hu, hp.1]; rfl
  · rw [hu, hp.1]
    intro kv hkv
    simp only [List.mem_cons, List.mem_singleton, List.not_mem_nil, or_false] at hkv
    rcases hkv with rfl | rfl | rfl
    · decide
    · exact (by decide : "query" ≠ "with_genres")
    · exact (by decide : "page" ≠ "with_genres")
  · intro g
    simp only [fetchMoviesBegin, buildUrl, hb, if_true]

/-- Example for C4: with the settled text "dune 2" and genre 28 selected, a
reset fetch asks the search endpoint for the encoded text and page 1. -/
theorem search_request_ignores_genre_witness :
    exampleSearching.debouncedQuery ≠ "" ∧
    (fetchMoviesBegin exampleSearching true exampleSearching).2.url
      = "https://api.themoviedb.org/3/search/movie?api_key=82f823b60a578d4233a3902227a3f1e2" ++
          "&query=dune%202&page=1" ∧
    urlParam (fetchMoviesBegin exampleSearching true exampleSearching).2.url "with_genres"
      = none := by
  have key := search_request_ignores_genre exampleSearching true exampleSearching (by decide)
  refine ⟨by decide, ?_, key.2.2.2.1⟩
  rw [key.1]; decide

/-- C5: when `loading` is true or `page >= totalPages`, `loadMore()` returns the
state as it was, field for field, and sends no request; as an event of the feed
it leaves state, requests in flight and change counter untouched. -/
theorem loadMore_blocked_is_noop (f : Feed)
    (h : f.st.loading = true ∨ f.st.totalPages ≤ (f.st.page : Int)) :
    loadMore f.st = (f.st, []) ∧ step f Event.loadMore = f := by
  have hc : (!f.st.loading && hasMore f.st) = false := by
    rcases h with h | h
    · simp [h]
    · simp [hasMore, h]
  have hl : loadMore f.st = (f.st, []) := by
    simp only [loadMore, hc, Bool.false_eq_true, if_false]
  refine ⟨hl, ?_⟩
  simp only [step, hl, Feed.send, if_true, List.map_nil, List.append_nil]

/-- Example for C5: on page 3 of 3, `loadMore` changes nothing. -/
theorem loadMore_blocked_is_noop_witness :
    (exampleLastPage.st.loading = true ∨
      exampleLastPage.st.totalPages ≤ (exampleLastPage.st.page : Int)) ∧
    loadMore exampleLastPage.st = (exampleLastPage.st, []) ∧
    step exampleLastPage Event.loadMore = exampleLastPage :=
  ⟨Or.inr (by decide), loadMore_blocked_is_noop exampleLastPage (Or.inr (by decide))⟩

/-- C7: a `fetchMovies` call whose request is rejected ends with `error` set to
the one generic message, `loading` false, and `movies`, `page` and `totalPages`
as they were before the call; the part before the `await` and the `catch` and
`finally` part each leave these three fields alone. -/
theorem failed_fetch_keeps_list (s : HomeState) (reset : Bool) :
    (fetchMovies reset Outcome.rejected s).error = some errorMessage ∧
    errorMessage ≠ "" ∧
    (fetchMovies reset Outcome.rejected s).movies = s.movies ∧
    (fetchMovies reset Outcome.rejected s).page = s.page ∧
    (fetchMovies reset Outcome.rejected s).totalPages = s.totalPages ∧
    (fetchMovies reset Outcome.rejected s).loading = false ∧
    (∀ c : HomeState, (fetchMoviesBegin c reset s).1.movies = s.movies ∧
      (fetchMoviesBegin c reset s).1.page = s.page ∧
      (fetchMoviesBegin c reset s).1.totalPages = s.totalPages) ∧
    (fetchMoviesDone reset Outcome.rejected s).movies = s.movies ∧
    (fetchMoviesDone reset Outcome.rejected s).page = s.page ∧
    (fetchMoviesDone reset Outcome.rejected s).totalPages = s.totalPages ∧
    (fetchMoviesDone reset Outcome.rejected s).error = some errorMessage ∧
    (fetchMoviesDone reset Outcome.rejected s).loading = false :=
  ⟨rfl, by decide, rfl, rfl, rfl, rfl, fun _ => ⟨rfl, rfl, rfl⟩, rfl, rfl, rfl, rfl, rfl⟩

/-! ## Claims on stale responses, failures and the page bound -/

/-- C6 (the code departs from it): in the race example the request sent at mount
is stale, since the genre changed after it was sent, and yet its response
replaces `movies` and `totalPages`; no delivered response, stale or not, changes
`page`. -/
theorem stale_response_overwrites_feed :
    Reachable exampleRace ∧
    exampleRace.staleAt 0 = true ∧
    exampleRace.inflight.map Request.url = [buildUrl "" none 1] ∧
    exampleRace.st.selectedGenre = some 28 ∧
    exampleRace.st.movies = [movieWithId 2] ∧
    exampleRace.st.totalPages = 5 ∧
    (step exampleRace (Event.deliver 0 (Outcome.resolved exampleMountData))).st.movies = [movieWithId 1] ∧
    (step exampleRace (Event.deliver 0 (Outcome.resolved exampleMountData))).st.totalPages = 9 ∧
    (∀ (f : Feed) (i : Nat) (o : Outcome), (step f (Event.deliver i o)).st.page = f.st.page) := by
  refine ⟨⟨_, rfl⟩, by decide, by decide, by decide, by decide, by decide, by decide, by decide, ?_⟩
  intro f i o
  simp only [step]
  cases f.inflight.get? i with
  | none => rfl
  | some r =>
    cases o <;> by_cases hr : r.refresh = true <;> simp [fetchMoviesDone, hr]

/-- Counterexample to C8 as stated: from page 1 of 3 with `loading` false, a
load-more cycle whose fetch fails ends on page 2, not on page 1. -/
theorem failed_loadMore_rollback_counterexample :
    examplePage1.loading = false ∧
    (examplePage1.page : Int) < examplePage1.totalPages ∧
    (loadMoreCycle Outcome.rejected examplePage1).page = 2 ∧
    (loadMoreCycle Outcome.rejected examplePage1).page ≠ examplePage1.page := by
  decide

/-- C8 as amended: from a state with `page >= 1`, `loading` false and
`page < totalPages`, a load-more cycle whose fetch fails ends with `page` one
above its earlier value (the advance is kept), `movies` and `totalPages` as they
were, `loading` false and `error` set.  The failed request asked for the new
page; the Retry button then asks for page 1, and a further `loadMore`, when
allowed, asks for the page after the failed one. -/
theorem failed_loadMore_keeps_advance (s : HomeState) (h1 : 1 ≤ s.page)
    (hl : s.loading = false) (hp : (s.page : Int) < s.totalPages) :
    (loadMoreCycle Outcome.rejected s).page = s.page + 1 ∧
    (loadMoreCycle Outcome.rejected s).movies = s.movies ∧
    (loadMoreCycle Outcome.rejected s).totalPages = s.totalPages ∧
    (loadMoreCycle Outcome.rejected s).loading = false ∧
    (loadMoreCycle Outcome.rejected s).error = some errorMessage ∧
    (loadMore s).2.map Request.url = [buildUrl s.debouncedQuery s.selectedGenre (s.page + 1)] ∧
    (fetchMoviesBegin (loadMoreCycle Outcome.rejected s) true
        (loadMoreCycle Outcome.rejected s)).2.url
      = buildUrl s.debouncedQuery s.selectedGenre 1 ∧
    (((s.page : Int) + 1 < s.totalPages) →
      (loadMore (loadMoreCycle Outcome.rejected s)).2.map Request.url
        = [buildUrl s.debouncedQuery s.selectedGenre (s.page + 2)]) := by
  have hc : (!s.loading && hasMore s) = true := by simp [hl, hasMore, hp]
  have hgt : s.page + 1 > 1 := by omega
  have hcyc : loadMoreCycle Outcome.rejected s
      = { s with page := s.page + 1, error := some errorMessage, loading := false } := by
    simp [loadMoreCycle, loadMore, hc, pageEffect, hgt, fetchMoviesBegin, fetchMoviesDone]
  refine ⟨by rw [hcyc], by rw [hcyc], by rw [hcyc], by rw [hcyc], by rw [hcyc], ?_, ?_, ?_⟩
  · simp [loadMore, hc, pageEffect, hgt, fetchMoviesBegin]
  · rw [hcyc]; rfl
  · intro hnext
    rw [hcyc]
    have hc2 : (decide ((s.page : Int) + 1 < s.totalPages)) = true := by simpa using hnext
    simp [loadMore, hasMore, hc2, pageEffect, fetchMoviesBegin]

/-- Example for amended C8: from page 1 of 3, a failed load-more leaves `page`
at 2 with the two movies kept and the error set. -/
theorem failed_loadMore_keeps_advance_witness :
    (1 ≤ examplePage1.page ∧ examplePage1.loading = false ∧
      (examplePage1.page : Int) < examplePage1.totalPages) ∧
    (loadMoreCycle Outcome.rejected examplePage1).page = examplePage1.page + 1 ∧
    (loadMoreCycle Outcome.rejected examplePage1).movies = [movieWithId 1, movieWithId 2] ∧
    (loadMoreCycle Outcome.rejected examplePage1).error = some errorMessage := by
  have key := failed_loadMore_keeps_advance examplePage1 (by decide) (by decide) (by decide)
  exact ⟨by decide, key.1, key.2.1, key.2.2.2.2.1⟩

theorem step_page_pos (f : Feed) (e : Event) (h : 1 ≤ f.st.page) : 1 ≤ (step f e).st.page := by
  cases e with
  | typeText text => exact h
  | debounceFire =>
    simp only [step]
    split
    · exact h
    · exact le_refl _
  | selectGenre g =>
    simp only [step]
    split
    · exact h
    · exact le_refl _
  | loadMore =>
    simp only [step, Feed.send, loadMore, pageEffect]
    split
    · split
      · simp [fetchMoviesBegin]
      · simp
    · exact h
  | refresh => exact le_refl _
  | submit => exact le_refl _
  | retry => exact h
  | deliver i o =>
    simp only [step]
    cases f.inflight.get? i with
    | none => exact h
    | some r =>
      cases o <;> by_cases hr : r.refresh = true <;> simpa [fetchMoviesDone, hr] using h

theorem step_page_bound (f : Feed) (e : Event) (hk : keepsPageBound f e = true)
    (hpos : 1 ≤ f.st.page) (h : (f.st.page : Int) ≤ f.st.totalPages) :
    ((step f e).st.page : Int) ≤ (step f e).st.totalPages := by
  have hone : (1 : Int) ≤ f.st.totalPages := by
    have : (1 : Int) ≤ (f.st.page : Int) := by exact_mod_cast hpos
    exact le_trans this h
  cases e with
  | typeText text => exact h
  | debounceFire =>
    simp only [step]
    split
    · exact h
    · simpa [Feed.reset, Feed.send, resetEffect, fetchMoviesBegin] using hone
  | selectGenre g =>
    simp only [step]
    split
    · exact h
    · simpa [Feed.reset, Feed.send, resetEffect, fetchMoviesBegin] using hone
  | loadMore =>
    simp only [step, Feed.send, loadMore, pageEffect]
    split
    · rename_i hc
      have hlt : (f.st.page : Int) < f.st.totalPages := by
        simp only [Bool.and_eq_true, hasMore, decide_eq_true_eq] at hc
        exact hc.2
      split
      · simp only [fetchMoviesBegin]
        push_cast; omega
      · show ((f.st.page + 1 : Nat) : Int) ≤ f.st.totalPages
        push_cast; omega
    · exact h
  | refresh => simpa [step, Feed.send, fetchMoviesBegin] using hone
  | submit => simpa [step, Feed.send, fetchMoviesBegin] using hone
  | retry => exact h
  | deliver i o =>
    simp only [step]
    cases hg : f.inflight.get? i with
    | none => exact h
    | some r =>
      cases o with
      | rejected =>
        by_cases hr : r.refresh = true <;> simpa [fetchMoviesDone, hr] using h
      | resolved data =>
        have hb : (f.st.page : Int) ≤ totalPagesOf data := by
          simp only [keepsPageBound, hg, decide_eq_true_eq] at hk
          exact hk
        by_cases hr : r.refresh = true <;> simp [fetchMoviesDone, hr, hb]

/-- Counterexample to C9 as stated: a response with `total_pages = 0` to the
request sent at mount leaves `totalPages = 0` below `page = 1`; and with every
`total_pages` at least 1, a page-2 response announcing one page leaves
`page = 2` above `totalPages = 1`. -/
theorem page_bound_counterexample :
    (Reachable exampleZeroPages ∧
      ¬ ((exampleZeroPages.st.page : Int) ≤ exampleZeroPages.st.totalPages ∧
          1 ≤ exampleZeroPages.st.totalPages)) ∧
    (Reachable exampleShrunk ∧ exampleShrunk.st.page = 2 ∧ exampleShrunk.st.totalPages = 1 ∧
      ¬ ((exampleShrunk.st.page : Int) ≤ exampleShrunk.st.totalPages)) := by
  refine ⟨⟨⟨_, rfl⟩, by decide⟩, ⟨_, rfl⟩, by decide, by decide, by decide⟩

/-- C9 as amended: in every state reached from the mounted feed by events in
which each successful response announces a `total_pages` at least as large as
the page current at its arrival, `1 <= page <= totalPages`; and `page >= 1`
holds after any events at all, whatever the responses announce. -/
theorem page_bound_invariant (es : List Event) (h : allKeepPageBound Feed.start es = true) :
    1 ≤ (run Feed.start es).st.page ∧
    ((run Feed.start es).st.page : Int) ≤ (run Feed.start es).st.totalPages ∧
    1 ≤ (run Feed.start es).st.totalPages ∧
    (∀ es2 : List Event, 1 ≤ (run Feed.start es2).st.page) := by
  have pos : ∀ (es2 : List Event) (f : Feed), 1 ≤ f.st.page → 1 ≤ (run f es2).st.page := by
    intro es2
    induction es2 with
    | nil => intro f hf; exact hf
    | cons e es2 ih => intro f hf; exact ih (step f e) (step_page_pos f e hf)
  have bound : ∀ (es2 : List Event) (f : Feed), allKeepPageBound f es2 = true →
      1 ≤ f.st.page → (f.st.page : Int) ≤ f.st.totalPages →
      ((run f es2).st.page : Int) ≤ (run f es2).st.totalPages := by
    intro es2
    induction es2 with
    | nil => intro f _ _ hf; exact hf
    | cons e es2 ih =>
      intro f hk hp hf
      simp only [allKeepPageBound, Bool.and_eq_true] at hk
      exact ih (step f e) hk.2 (step_page_pos f e hp) (step_page_bound f e hk.1 hp hf)
  have hs : 1 ≤ Feed.start.st.page := by decide
  have b := bound es Feed.start h hs (by decide)
  have p := pos es Feed.start hs
  refine ⟨p, b, ?_, fun es2 => pos es2 Feed.start hs⟩
  have : (1 : Int) ≤ ((run Feed.start es).st.page : Int) := by exact_mod_cast p
  exact le_trans this b

/-- Example for amended C9: a session with a load-more, a genre change and a
failure, in which every response announces enough pages, ends within bounds. -/
theorem page_bound_invariant_witness :
    allKeepPageBound Feed.start exampleSession = true ∧
    1 ≤ (run Feed.start exampleSession).st.page ∧
    ((run Feed.start exampleSession).st.page : Int)
      ≤ (run Feed.start exampleSession).st.totalPages ∧
    1 ≤ (run Feed.start exampleSession).st.totalPages :=
  have key := page_bound_invariant exampleSession (by decide)
  ⟨by decide, key.1, key.2.1, key.2.2.1⟩

/-! ## Favorites store -/

theorem handleToggleFavorite_present (m : Movie) (prev : List Movie)
    (h : ∃ f ∈ prev, f.id = m.id) :
    handleToggleFavorite (some m) prev = prev.filter (fun f => f.id != m.id) := by
  simp only [handleToggleFavorite]
  cases hf : prev.find? (fun f => f.id == m.id) with
  | some _ => rfl
  | none =>
    obtain ⟨f, hfm, hid⟩ := h
    have := List.find?_eq_none.1 hf f hfm
    simp [hid] at this

theorem handleToggleFavorite_absent (m : Movie) (prev : List Movie)
    (h : ∀ f ∈ prev, f.id ≠ m.id) :
    handleToggleFavorite (some m) prev = prev ++ [m] := by
  simp only [handleToggleFavorite]
  cases hf : prev.find? (fun f => f.id == m.id) with
  | none => rfl
  | some x =>
    have hx := List.find?_some hf
    have hmem := List.mem_of_find?_eq_some hf
    simp only [beq_iff_eq] at hx
    exact absurd hx (h x hmem)

/-- C10: for a favorites list with pairwise distinct ids and a non-null movie,
toggling the movie twice gives a list with exactly the ids of the original
list, again pairwise distinct; when the movie was not a favorite the list
itself comes back. -/
theorem toggle_twice_same_ids (favorites : List Movie) (m : Movie)
    (h : (favorites.map Movie.id).Nodup) :
    (∀ i : Int,
      i ∈ (handleToggleFavorite (some m) (handleToggleFavorite (some m) favorites)).map Movie.id
        ↔ i ∈ favorites.map Movie.id) ∧
    ((handleToggleFavorite (some m) (handleToggleFavorite (some m) favorites)).map
      Movie.id).Nodup ∧
    ((∀ f ∈ favorites, f.id ≠ m.id) →
      handleToggleFavorite (some m) (handleToggleFavorite (some m) favorites) = favorites) := by
  by_cases hex : ∃ f ∈ favorites, f.id = m.id
  · have h1 := handleToggleFavorite_present m favorites hex
    have hno : ∀ f ∈ favorites.filter (fun f => f.id != m.id), f.id ≠ m.id := by
      intro f hf
      simpa using (List.mem_filter.1 hf).2
    have h2 := handleToggleFavorite_absent m _ hno
    rw [h1, h2]
    refine ⟨?_, ?_, ?_⟩
    · intro i
      simp only [List.map_append, List.map_cons, List.map_nil, List.mem_append, List.mem_map,
        List.mem_filter, List.mem_singleton, bne_iff_ne, ne_eq]
      constructor
      · rintro (⟨f, ⟨hf, _⟩, rfl⟩ | rfl)
        · exact ⟨f, hf, rfl⟩
        · exact hex
      · rintro ⟨f, hf, rfl⟩
        by_cases hfm : f.id = m.id
        · exact Or.inr hfm
        · exact Or.inl ⟨f, ⟨hf, hfm⟩, rfl⟩
    · rw [List.map_append, List.nodup_append]
      refine ⟨(h.sublist ((List.filter_sublist _).map _)), by simp, ?_⟩
      intro i hi hm
      simp only [List.map_cons, List.map_nil, List.mem_singleton] at hm
      obtain ⟨f, hf, rfl⟩ := List.mem_map.1 hi
      exact hno f hf hm
    · intro hall
      obtain ⟨f, hf, hid⟩ := hex
      exact absurd hid (hall f hf)
  · have hno : ∀ f ∈ favorites, f.id ≠ m.id := fun f hf c => hex ⟨f, hf, c⟩
    have h1 := handleToggleFavorite_absent m favorites hno
    have h2 := handleToggleFavorite_present m (favorites ++ [m]) ⟨m, by simp, rfl⟩
    have hback : (favorites ++ [m]).filter (fun f => f.id != m.id) = favorites := by
      rw [List.filter_append]
      have : favorites.filter (fun f => f.id != m.id) = favorites :=
        List.filter_eq_self.2 (fun f hf => by simpa using hno f hf)
      simp [this]
    rw [h1, h2, hback]
    exact ⟨fun _ => Iff.rfl, h, fun _ => rfl⟩

/-- Example for C10: toggling movie 2 twice in the favorites 1, 2 keeps the ids
1 and 2; toggling the absent movie 3 twice gives the list back. -/
theorem toggle_twice_same_ids_witness :
    (exampleFavorites.map Movie.id).Nodup ∧
    (∀ i : Int,
      i ∈ (handleToggleFavorite (some (movieWithId 2))
            (handleToggleFavorite (some (movieWithId 2)) exampleFavorites)).map Movie.id
        ↔ i ∈ exampleFavorites.map Movie.id) ∧
    handleToggleFavorite (some (movieWithId 3)) (handleToggleFavorite (some (movieWithId 3)) exampleFavorites)
      = exampleFavorites :=
  ⟨by decide, (toggle_twice_same_ids exampleFavorites (movieWithId 2) (by decide)).1,
    (toggle_twice_same_ids exampleFavorites (movieWithId 3) (by decide)).2.2 (by decide)⟩

theorem handleToggleFavorite_nodup (movie : Option Movie) (prev : List Movie)
    (h : (prev.map Movie.id).Nodup) :
    ((handleToggleFavorite movie prev).map Movie.id).Nodup := by
  cases movie with
  | none => exact h
  | some m =>
    by_cases hex : ∃ f ∈ prev, f.id = m.id
    · rw [handleToggleFavorite_present m prev hex]
      exact h.sublist ((List.filter_sublist _).map _)
    · have hno : ∀ f ∈ prev, f.id ≠ m.id := fun f hf c => hex ⟨f, hf, c⟩
      rw [handleToggleFavorite_absent m prev hno, List.map_append, List.nodup_append]
      refine ⟨h, by simp, ?_⟩
      intro i hi hm
      simp only [List.map_cons, List.map_nil, List.mem_singleton] at hm
      obtain ⟨f, hf, rfl⟩ := List.mem_map.1 hi
      exact hno f hf hm

theorem isFavorite_iff (m : Movie) (favorites : List Movie) :
    isFavorite (some m) favorites = true ↔ ∃ f ∈ favorites, f.id = m.id := by
  simp only [isFavorite, Option.map_some', List.find?_isSome]
  constructor
  · rintro ⟨f, hf, hid⟩
    exact ⟨f, hf, by simpa using hid⟩
  · rintro ⟨f, hf, hid⟩
    exact ⟨f, hf, by simpa using hid⟩

/-- C11: for a non-null movie, when some favorite has the movie's id,
`handleToggleFavorite` returns the favorites without the entries of that id, in
their order and with nothing added; otherwise it returns the favorites followed
by the movie, with nothing removed. -/
theorem toggle_removes_or_adds (favorites : List Movie) (m : Movie) :
    ((∃ f ∈ favorites, f.id = m.id) →
      handleToggleFavorite (some m) favorites = favorites.filter (fun f => f.id != m.id) ∧
      (∀ f, f ∈ handleToggleFavorite (some m) favorites ↔ f ∈ favorites ∧ f.id ≠ m.id) ∧
      (handleToggleFavorite (some m) favorites).Sublist favorites) ∧
    ((¬ ∃ f ∈ favorites, f.id = m.id) →
      handleToggleFavorite (some m) favorites = favorites ++ [m] ∧
      (∀ f, f ∈ handleToggleFavorite (some m) favorites ↔ f ∈ favorites ∨ f = m) ∧
      favorites <+: handleToggleFavorite (some m) favorites) := by
  constructor
  · intro hex
    rw [handleToggleFavorite_present m favorites hex]
    refine ⟨rfl, fun f => ?_, List.filter_sublist _⟩
    simp [List.mem_filter]
  · intro hex
    have hno : ∀ f ∈ favorites, f.id ≠ m.id := fun f hf c => hex ⟨f, hf, c⟩
    rw [handleToggleFavorite_absent m favorites hno]
    refine ⟨rfl, fun f => ?_, List.prefix_append _ _⟩
    simp

/-- Example for C11: in the favorites 1, 2 toggling a record of id 2 leaves only
movie 1, and toggling movie 3 puts it after 1 and 2. -/
theorem toggle_removes_or_adds_witness :
    handleToggleFavorite (some exampleTitled) exampleFavorites = [movieWithId 1] ∧
    handleToggleFavorite (some (movieWithId 3)) exampleFavorites
      = [movieWithId 1, movieWithId 2, movieWithId 3] := by
  have h2 := (toggle_removes_or_adds exampleFavorites exampleTitled).1
    ⟨movieWithId 2, by decide, by decide⟩
  have h3 := (toggle_removes_or_adds exampleFavorites (movieWithId 3)).2 (by decide)
  exact ⟨h2.1.trans (by decide), h3.1.trans (by decide)⟩

/-- C12: after any sequence of `handleToggleFavorite` calls on the empty
favorites list, with any movies and with `null` allowed, the ids of the
favorites are pairwise distinct. -/
theorem favorites_ids_distinct (movies : List (Option Movie)) :
    ((toggleAll movies []).map Movie.id).Nodup := by
  have all : ∀ (ms : List (Option Movie)) (favs : List Movie), (favs.map Movie.id).Nodup →
      ((toggleAll ms favs).map Movie.id).Nodup := by
    intro ms
    induction ms with
    | nil => intro favs h; exact h
    | cons m ms ih =>
      intro favs h
      exact ih _ (handleToggleFavorite_nodup m favs h)
  exact all movies [] List.nodup_nil

/-- C13: for a non-null movie, `isFavorite` of App is true exactly when some
favorite has the movie's id; the tests of HomeScreen and of DetailsScreen give
the same answer; and after `handleToggleFavorite` of that movie the answer is
the opposite one. -/
theorem isFavorite_agrees_and_flips (favorites : List Movie) (m : Movie) :
    (isFavorite (some m) favorites = true ↔ ∃ f ∈ favorites, f.id = m.id) ∧
    isFavoriteHome favorites m = isFavorite (some m) favorites ∧
    isFavoriteDetails favorites m = isFavorite (some m) favorites ∧
    isFavorite (some m) (handleToggleFavorite (some m) favorites)
      = !isFavorite (some m) favorites := by
  have hany : favorites.any (fun f => f.id == m.id) = isFavorite (some m) favorites := by
    rw [Bool.eq_iff_iff, isFavorite_iff, List.any_eq_true]
    simp
  refine ⟨isFavorite_iff m favorites, hany, hany, ?_⟩
  by_cases hex : ∃ f ∈ favorites, f.id = m.id
  · have h1 : isFavorite (some m) favorites = true := (isFavorite_iff m favorites).2 hex
    rw [handleToggleFavorite_present m favorites hex, h1]
    rw [Bool.not_true, ← Bool.not_eq_true, isFavorite_iff]
    rintro ⟨f, hf, hid⟩
    have := (List.mem_filter.1 hf).2
    simp [hid] at this
  · have hno : ∀ f ∈ favorites, f.id ≠ m.id := fun f hf c => hex ⟨f, hf, c⟩
    have h1 : isFavorite (some m) favorites = false := by
      rw [← Bool.not_eq_true, isFavorite_iff]; exact hex
    rw [handleToggleFavorite_absent m favorites hno, h1, Bool.not_false, isFavorite_iff]
    exact ⟨m, by simp, rfl⟩

/-- C14: toggling a movie whose id is absent puts it last and keeps every
earlier entry at its position; toggling one whose id is present removes it and
keeps the remaining entries in their relative order; hence toggling movies of
distinct ids one after the other, from the empty list, lists them in the order
of the calls. -/
theorem favorites_keep_insertion_order (favorites : List Movie) (m : Movie) :
    ((∀ f ∈ favorites, f.id ≠ m.id) →
      (handleToggleFavorite (some m) favorites).getLast? = some m ∧
      (handleToggleFavorite (some m) favorites).length = favorites.length + 1 ∧
      (∀ i, i < favorites.length →
        (handleToggleFavorite (some m) favorites)[i]? = favorites[i]?)) ∧
    ((∃ f ∈ favorites, f.id = m.id) →
      (handleToggleFavorite (some m) favorites).Sublist favorites ∧
      (∀ f ∈ handleToggleFavorite (some m) favorites, f.id ≠ m.id) ∧
      (∀ f ∈ favorites, f.id ≠ m.id → f ∈ handleToggleFavorite (some m) favorites)) ∧
    (∀ ms : List Movie, (ms.map Movie.id).Nodup → toggleAll (ms.map some) [] = ms) := by
  refine ⟨?_, ?_, ?_⟩
  · intro hno
    rw [handleToggleFavorite_absent m favorites hno]
    refine ⟨by simp, by simp, fun i hi => ?_⟩
    rw [List.getElem?_append_left hi]
  · intro hex
    rw [handleToggleFavorite_present m favorites hex]
    refine ⟨List.filter_sublist _, fun f hf => ?_, fun f hf hid => ?_⟩
    · simpa using (List.mem_filter.1 hf).2
    · exact List.mem_filter.2 ⟨hf, by simpa using hid⟩
  · have all : ∀ (ms favs : List Movie), ((favs ++ ms).map Movie.id).Nodup →
        toggleAll (ms.map some) favs = favs ++ ms := by
      intro ms
      induction ms with
      | nil => intro favs _; simp [toggleAll]
      | cons x xs ih =>
        intro favs h
        have hno : ∀ f ∈ favs, f.id ≠ x.id := by
          intro f hf c
          rw [List.map_append, List.nodup_append] at h
          exact h.2.2 (List.mem_map_of_mem _ hf) (by simp [c])
        have step1 : toggleAll ((x :: xs).map some) favs
            = toggleAll (xs.map some) (handleToggleFavorite (some x) favs) := rfl
        rw [step1, handleToggleFavorite_absent x favs hno, ih (favs ++ [x]) (by simpa using h)]
        simp
    intro ms h
    simpa using all ms [] (by simpa using h)

/-- Example for C14: toggling movies 1, 2, 3 in this order lists them so, and
toggling 2 again leaves 1, 3. -/
theorem favorites_keep_insertion_order_witness :
    toggleAll [some (movieWithId 1), some (movieWithId 2), some (movieWithId 3)] []
      = [movieWithId 1, movieWithId 2, movieWithId 3] ∧
    (handleToggleFavorite (some (movieWithId 2))
      [movieWithId 1, movieWithId 2, movieWithId 3]).Sublist
        [movieWithId 1, movieWithId 2, movieWithId 3] ∧
    handleToggleFavorite (some (movieWithId 2)) [movieWithId 1, movieWithId 2, movieWithId 3]
      = [movieWithId 1, movieWithId 3] := by
  have k := favorites_keep_insertion_order [movieWithId 1, movieWithId 2, movieWithId 3]
    (movieWithId 2)
  exact ⟨k.2.2 [movieWithId 1, movieWithId 2, movieWithId 3] (by decide),
    (k.2.1 ⟨movieWithId 2, by decide, rfl⟩).1, by decide⟩

/-! ## Lemmas on sorting -/

theorem arraySort_perm (js : Builtins) (cmp : Comparator) (l : List Movie) :
    (arraySort js cmp l).Perm l :=
  js.sort_perm cmp l

theorem arraySort_sorted (js : Builtins) (cmp : Comparator) (l : List Movie)
    (h : ConsistentOn cmp l) :
    (arraySort js cmp l).Pairwise (fun a b => sortCompare cmp a b ≤ 0) :=
  (js.sort_consistent cmp l h).2.1

theorem arraySort_sublist (js : Builtins) (cmp : Comparator) (l c : List Movie)
    (h : ConsistentOn cmp l) (hc : c.Pairwise (fun a b => sortCompare cmp a b ≤ 0))
    (hs : c.Sublist l) : c.Sublist (arraySort js cmp l) :=
  (js.sort_consistent cmp l h).2.2 c hc hs

theorem arraySort_stable (js : Builtins) (cmp : Comparator) (p : Movie → Bool)
    (l : List Movie) (h : ConsistentOn cmp l)
    (hp : ∀ a ∈ l, ∀ b ∈ l, p a = true → p b = true → sortCompare cmp a b ≤ 0) :
    (arraySort js cmp l).filter p = l.filter p := by
  have hpw : (l.filter p).Pairwise (fun a b => sortCompare cmp a b ≤ 0) := by
    rw [List.pairwise_iff_forall_sublist]
    intro a b hab
    have ha : a ∈ l.filter p := hab.subset (by simp)
    have hb : b ∈ l.filter p := hab.subset (by simp)
    exact hp a (List.mem_filter.1 ha).1 b (List.mem_filter.1 hb).1
      (List.mem_filter.1 ha).2 (List.mem_filter.1 hb).2
  have hsub : (l.filter p).Sublist (arraySort js cmp l) :=
    arraySort_sublist js cmp l _ h hpw (List.filter_sublist l)
  have hsub2 : (l.filter p).Sublist ((arraySort js cmp l).filter p) := by
    have := hsub.filter p
    simpa [List.filter_filter] using this
  have hlen : ((arraySort js cmp l).filter p).length = (l.filter p).length :=
    ((arraySort_perm js cmp l).filter p).length_eq
  exact (hsub2.eq_of_length hlen.symm).symm

theorem arraySort_pair (js : Builtins) (cmp : Comparator) (a b : Movie) (l : List Movie)
    (h : ConsistentOn cmp l) (hab : sortCompare cmp a b ≤ 0) (hs : [a, b].Sublist l) :
    [a, b].Sublist (arraySort js cmp l) :=
  arraySort_sublist js cmp l [a, b] h (by simpa using hab) hs

theorem localeCompare_zero_swap (js : Builtins) (a b : String) (h : js.localeCompare a b = 0) :
    js.localeCompare b a = 0 := by
  have h1 : ¬ 0 < js.localeCompare b a := fun c => by
    have := (js.localeCompare_swap b a).1 c
    omega
  have h2 : ¬ js.localeCompare b a < 0 := fun c => by
    have := (js.localeCompare_swap a b).2 c
    omega
  omega

theorem sortBase_perm (js : Builtins) (sort : String) (base : List Movie) :
    (sortBase js sort base).Perm base := by
  unfold sortBase
  split
  · exact arraySort_perm _ _ _
  · split
    · exact arraySort_perm _ _ _
    · split
      · exact arraySort_perm _ _ _
      · split
        · exact arraySort_perm _ _ _
        · exact List.Perm.refl _

theorem baseOf_eq_filter (js : Builtins) (favorites : List Movie) (query : String) :
    baseOf js favorites query
      = favorites.filter (fun m =>
          includes (js.toLowerCase (titleOf m)) (js.toLowerCase (jsTrim query))) := by
  unfold baseOf
  by_cases hq : js.toLowerCase (jsTrim query) = ""
  · have hall : ∀ m ∈ favorites, includes (js.toLowerCase (titleOf m)) "" = true := by
      intro m _
      simp [includes]
    simp only [hq, bne_self_eq_false, Bool.false_eq_true, if_false]
    exact (List.filter_eq_self.2 hall).symm
  · have hb : (js.toLowerCase (jsTrim query) != "") = true := by simpa using hq
    simp only [hb, if_true]

theorem byTitle_consistent (js : Builtins) (l : List Movie) : ConsistentOn (byTitle js) l :=
  ⟨fun _ _ _ _ => rfl,
    fun a _ b _ => js.localeCompare_swap (titleOf a) (titleOf b),
    fun a _ b _ c _ => js.localeCompare_trans (titleOf a) (titleOf b) (titleOf c)⟩

theorem byTitleReversed_consistent (js : Builtins) (l : List Movie) :
    ConsistentOn (byTitleReversed js) l :=
  ⟨fun _ _ _ _ => rfl,
    fun a _ b _ => js.localeCompare_swap (titleOf b) (titleOf a),
    fun a _ b _ c _ h1 h2 => js.localeCompare_trans (titleOf c) (titleOf b) (titleOf a) h2 h1⟩

theorem byDate_of_dates (js : Builtins) (a b : Movie) (da db : Int)
    (ha : dateOf js a = some da) (hb : dateOf js b = some db) :
    byDate js a b = some (db - da) ∧ byDateReversed js a b = some (-(db - da)) := by
  simp [byDate, byDateReversed, ha, hb]

theorem dateOf_of_isSome (js : Builtins) (l : List Movie)
    (h : ∀ m ∈ l, (dateOf js m).isSome = true) (m : Movie) (hm : m ∈ l) :
    ∃ d, dateOf js m = some d :=
  Option.isSome_iff_exists.mp (h m hm)

theorem byDate_consistent (js : Builtins) (l : List Movie)
    (h : ∀ m ∈ l, (dateOf js m).isSome = true) : ConsistentOn (byDate js) l := by
  refine ⟨?_, ?_, ?_⟩
  · intro a ha b hb
    obtain ⟨da, hda⟩ := dateOf_of_isSome js l h a ha
    obtain ⟨db, hdb⟩ := dateOf_of_isSome js l h b hb
    rw [(byDate_of_dates js a b da db hda hdb).1]
    rfl
  · intro a ha b hb
    obtain ⟨da, hda⟩ := dateOf_of_isSome js l h a ha
    obtain ⟨db, hdb⟩ := dateOf_of_isSome js l h b hb
    simp only [sortCompare, (byDate_of_dates js a b da db hda hdb).1,
      (byDate_of_dates js b a db da hdb hda).1, Option.getD_some]
    omega
  · intro a ha b hb c hc
    obtain ⟨da, hda⟩ := dateOf_of_isSome js l h a ha
    obtain ⟨db, hdb⟩ := dateOf_of_isSome js l h b hb
    obtain ⟨dc, hdc⟩ := dateOf_of_isSome js l h c hc
    simp only [sortCompare, (byDate_of_dates js a b da db hda hdb).1,
      (byDate_of_dates js b c db dc hdb hdc).1, (byDate_of_dates js a c da dc hda hdc).1,
      Option.getD_some]
    omega

theorem byDateReversed_consistent (js : Builtins) (l : List Movie)
    (h : ∀ m ∈ l, (dateOf js m).isSome = true) : ConsistentOn (byDateReversed js) l := by
  refine ⟨?_, ?_, ?_⟩
  · intro a ha b hb
    obtain ⟨da, hda⟩ := dateOf_of_isSome js l h a ha
    obtain ⟨db, hdb⟩ := dateOf_of_isSome js l h b hb
    rw [(byDate_of_dates js a b da db hda hdb).2]
    rfl
  · intro a ha b hb
    obtain ⟨da, hda⟩ := dateOf_of_isSome js l h a ha
    obtain ⟨db, hdb⟩ := dateOf_of_isSome js l h b hb
    simp only [sortCompare, (byDate_of_dates js a b da db hda hdb).2,
      (byDate_of_dates js b a db da hdb hda).2, Option.getD_some]
    omega
  · intro a ha b hb c hc
    obtain ⟨da, hda⟩ := dateOf_of_isSome js l h a ha
    obtain ⟨db, hdb⟩ := dateOf_of_isSome js l h b hb
    obtain ⟨dc, hdc⟩ := dateOf_of_isSome js l h c hc
    simp only [sortCompare, (byDate_of_dates js a b da db hda hdb).2,
      (byDate_of_dates js b c db dc hdb hdc).2, (byDate_of_dates js a c da dc hda hdc).2,
      Option.getD_some]
    omega

theorem baseOf_subset (js : Builtins) (favorites : List Movie) (query : String) (m : Movie)
    (hm : m ∈ baseOf js favorites query) : m ∈ favorites := by
  rw [baseOf_eq_filter] at hm
  exact (List.mem_filter.1 hm).1

theorem Store.read_alloc_old (h : Store) (c : List Movie) (p : Nat) (hp : p < h.length) :
    (h.alloc c).1.read p = h.read p := by
  simp [Store.read, Store.alloc, List.getD_eq_getElem?_getD, List.getElem?_append_left hp]

theorem Store.read_alloc_new (h : Store) (c : List Movie) :
    (h.alloc c).1.read (h.alloc c).2 = c := by
  simp [Store.read, Store.alloc, List.getD_eq_getElem?_getD]

theorem Store.read_sort_other (h : Store) (js : Builtins) (p q : Nat) (cmp : Comparator)
    (hpq : p ≠ q) : (h.sort js q cmp).1.read p = h.read p := by
  simp [Store.read, Store.sort, Store.write, List.getD_eq_getElem?_getD,
    List.getElem?_set_ne hpq.symm]

theorem Store.read_sort_same (h : Store) (js : Builtins) (q : Nat) (cmp : Comparator)
    (hq : q < h.length) :
    (h.sort js q cmp).1.read (h.sort js q cmp).2 = arraySort js cmp (h.read q) := by
  simp [Store.read, Store.sort, Store.write, List.getD_eq_getElem?_getD, List.getElem?_set, hq]

theorem filtered_new (js : Builtins) (favorites : List Movie) (query : String) :
    filtered js favorites query "new"
      = arraySort js (byDate js) (baseOf js favorites query) := by
  simp [filtered, sortBase]

theorem filtered_old (js : Builtins) (favorites : List Movie) (query : String) :
    filtered js favorites query "old"
      = arraySort js (byDateReversed js) (baseOf js favorites query) := by
  simp [filtered, sortBase]

theorem filtered_az (js : Builtins) (favorites : List Movie) (query : String) :
    filtered js favorites query "az"
      = arraySort js (byTitle js) (baseOf js favorites query) := by
  simp [filtered, sortBase]

theorem filtered_za (js : Builtins) (favorites : List Movie) (query : String) :
    filtered js favorites query "za"
      = arraySort js (byTitleReversed js) (baseOf js favorites query) := by
  simp [filtered, sortBase]

/-! ## Claims on the derived favorites list -/

/-- Counterexample to C15 as stated: with the query " alien", which starts with
a blank, the derived list holds the movie titled "Alien", although that title
does not contain the query, however the case is folded. -/
theorem filtered_untrimmed_query_counterexample :
    filtered sampleBuiltins exampleShelf " alien" "new"
      = [{ id := 2, title := some "Alien", release_date := some "1979-05-25" }] ∧
    includes (sampleBuiltins.toLowerCase "Alien") (sampleBuiltins.toLowerCase " alien")
      = false := by
  decide

/-- C15 as amended: for every favorites list, query and sort key, the derived
list holds exactly the favorites whose title (a missing title counting as
empty) contains the query with its surrounding white space removed, both in
lower case, each as often as the favorites list holds it; when the trimmed query
is empty, and so for the empty query, it holds every favorite. -/
theorem filtered_matches_trimmed_query (js : Builtins) (favorites : List Movie)
    (query sort : String) :
    (filtered js favorites query sort).Perm
      (favorites.filter (fun m =>
        includes (js.toLowerCase (titleOf m)) (js.toLowerCase (jsTrim query)))) ∧
    (∀ m, m ∈ filtered js favorites query sort ↔
      m ∈ favorites ∧
        includes (js.toLowerCase (titleOf m)) (js.toLowerCase (jsTrim query)) = true) ∧
    (js.toLowerCase (jsTrim query) = "" → (filtered js favorites query sort).Perm favorites) ∧
    (filtered js favorites "" sort).Perm favorites := by
  have hperm : (filtered js favorites query sort).Perm
      (favorites.filter (fun m =>
        includes (js.toLowerCase (titleOf m)) (js.toLowerCase (jsTrim query)))) := by
    rw [← baseOf_eq_filter]
    exact sortBase_perm js sort _
  have hempty : ∀ q : String, js.toLowerCase (jsTrim q) = "" →
      (filtered js favorites q sort).Perm favorites := by
    intro q hq
    have : baseOf js favorites q = favorites := by
      simp [baseOf, hq]
    rw [filtered, this]
    exact sortBase_perm js sort _
  refine ⟨hperm, fun m => ?_, hempty query, hempty "" ?_⟩
  · rw [hperm.mem_iff, List.mem_filter]
  · have : jsTrim "" = "" := by decide
    rw [this]
    exact js.toLowerCase_empty

/-- Example for amended C15: the query " DUNE " keeps the two movies titled
"Dune", oldest first under `old`, and the empty query keeps all four. -/
theorem filtered_matches_trimmed_query_witness :
    (filtered sampleBuiltins exampleShelf " DUNE " "old").map Movie.id = [3, 1] ∧
    (∀ m, m ∈ filtered sampleBuiltins exampleShelf " DUNE " "old" ↔
      m ∈ exampleShelf ∧
        includes (sampleBuiltins.toLowerCase (titleOf m))
          (sampleBuiltins.toLowerCase (jsTrim " DUNE ")) = true) ∧
    (filtered sampleBuiltins exampleShelf "" "old").Perm exampleShelf :=
  ⟨by decide, (filtered_matches_trimmed_query sampleBuiltins exampleShelf " DUNE " "old").2.1,
    (filtered_matches_trimmed_query sampleBuiltins exampleShelf " DUNE " "old").2.2.2⟩

/-- Counterexample to C16 as stated: of four favorites released 1990, "soon",
2000 and 1980, the second release date is not a date, so the comparator gives
NaN against it.  Under `new` the derived list keeps the order 1, 2, 3, 4, in
which the movie of 1990 stands before the movie of 2000, and under `old` the
order is 1, 2, 4, 3, in which the movie of 1990 stands before the movie of
1980: the release times are not ordered, even among the dates that are dates. -/
theorem filtered_unparsed_date_unsorted_counterexample :
    (filtered sampleBuiltins exampleUndatedShelf "" "new").map Movie.id = [1, 2, 3, 4] ∧
    (filtered sampleBuiltins exampleUndatedShelf "" "new").map (dateOf sampleBuiltins)
      = [some 631152000000, none, some 946684800000, some 315532800000] ∧
    ¬ (filtered sampleBuiltins exampleUndatedShelf "" "new").Pairwise
        (fun a b => ∀ da ∈ dateOf sampleBuiltins a, ∀ db ∈ dateOf sampleBuiltins b, db ≤ da) ∧
    (filtered sampleBuiltins exampleUndatedShelf "" "old").map Movie.id = [1, 2, 4, 3] ∧
    (filtered sampleBuiltins exampleUndatedShelf "" "old").map (dateOf sampleBuiltins)
      = [some 631152000000, none, some 315532800000, some 946684800000] ∧
    ¬ (filtered sampleBuiltins exampleUndatedShelf "" "old").Pairwise
        (fun a b => ∀ da ∈ dateOf sampleBuiltins a, ∀ db ∈ dateOf sampleBuiltins b, da ≤ db) := by
  decide

/-- C16 as amended: under `az` each title of the derived list compares at most
equal to every later one and under `za` at least equal, for every favorites
list and query; when every release date among the favorites that is not empty
is a date, then under `new` the release times never increase along the derived
list and under `old` they never decrease.  A missing or empty release date
counts as time 0 and a missing title as the empty string. -/
theorem filtered_is_sorted_of_dates (js : Builtins) (favorites : List Movie)
    (query : String) :
    ((∀ m ∈ favorites, (dateOf js m).isSome = true) →
      (filtered js favorites query "new").Pairwise
        (fun a b => ∃ da db, dateOf js a = some da ∧ dateOf js b = some db ∧ db ≤ da) ∧
      (filtered js favorites query "old").Pairwise
        (fun a b => ∃ da db, dateOf js a = some da ∧ dateOf js b = some db ∧ da ≤ db)) ∧
    (filtered js favorites query "az").Pairwise
      (fun a b => js.localeCompare (titleOf a) (titleOf b) ≤ 0) ∧
    (filtered js favorites query "za").Pairwise
      (fun a b => js.localeCompare (titleOf b) (titleOf a) ≤ 0) ∧
    (∀ m : Movie, m.release_date = none ∨ m.release_date = some "" → dateOf js m = some 0) ∧
    (∀ m : Movie, m.title = none → titleOf m = "") := by
  refine ⟨fun hdates => ?_, ?_, ?_, ?_, ?_⟩
  · have hbase : ∀ m ∈ baseOf js favorites query, (dateOf js m).isSome = true :=
      fun m hm => hdates m (baseOf_subset js favorites query m hm)
    constructor
    · rw [filtered_new]
      refine (arraySort_sorted js (byDate js) _ (byDate_consistent js _ hbase)).imp_of_mem ?_
      intro a b ha hb hab
      obtain ⟨da, hda⟩ := dateOf_of_isSome js _ hbase a ((arraySort_perm js _ _).subset ha)
      obtain ⟨db, hdb⟩ := dateOf_of_isSome js _ hbase b ((arraySort_perm js _ _).subset hb)
      refine ⟨da, db, hda, hdb, ?_⟩
      simp only [sortCompare, (byDate_of_dates js a b da db hda hdb).1, Option.getD_some] at hab
      omega
    · rw [filtered_old]
      refine (arraySort_sorted js (byDateReversed js) _
        (byDateReversed_consistent js _ hbase)).imp_of_mem ?_
      intro a b ha hb hab
      obtain ⟨da, hda⟩ := dateOf_of_isSome js _ hbase a ((arraySort_perm js _ _).subset ha)
      obtain ⟨db, hdb⟩ := dateOf_of_isSome js _ hbase b ((arraySort_perm js _ _).subset hb)
      refine ⟨da, db, hda, hdb, ?_⟩
      simp only [sortCompare, (byDate_of_dates js a b da db hda hdb).2, Option.getD_some] at hab
      omega
  · rw [filtered_az]
    exact arraySort_sorted js (byTitle js) _ (byTitle_consistent js _)
  · rw [filtered_za]
    exact arraySort_sorted js (byTitleReversed js) _ (byTitleReversed_consistent js _)
  · intro m hm
    rcases hm with hm | hm <;> simp [dateOf, hm]
  · intro m hm
    simp [titleOf, hm]

/-- Example for amended C16 on the shelf Dune 2021, Alien 1979, Dune 1984 and an
untitled movie of 1979, whose release dates are all dates: newest first gives
1, 3, 2, 4 with times that never increase, oldest first 2, 4, 3, 1. -/
theorem filtered_is_sorted_of_dates_witness :
    (∀ m ∈ exampleShelf, (dateOf sampleBuiltins m).isSome = true) ∧
    (filtered sampleBuiltins exampleShelf "" "new").map Movie.id = [1, 3, 2, 4] ∧
    (filtered sampleBuiltins exampleShelf "" "new").map (dateOf sampleBuiltins)
      = [some 1634860800000, some 471830400000, some 296438400000, some 296438400000] ∧
    (filtered sampleBuiltins exampleShelf "" "new").Pairwise
      (fun a b => ∃ da db, dateOf sampleBuiltins a = some da ∧
        dateOf sampleBuiltins b = some db ∧ db ≤ da) ∧
    (filtered sampleBuiltins exampleShelf "" "old").map Movie.id = [2, 4, 3, 1] ∧
    (filtered sampleBuiltins exampleShelf "" "old").Pairwise
      (fun a b => ∃ da db, dateOf sampleBuiltins a = some da ∧
        dateOf sampleBuiltins b = some db ∧ da ≤ db) := by
  have k := (filtered_is_sorted_of_dates sampleBuiltins exampleShelf "").1 (by decide)
  exact ⟨by decide, by decide, by decide, k.1, by decide, k.2⟩

/-- Counterexample to C17 as stated: of seven favorites released 2010, 2009,
1990, "soon", 2000, 2005 and 2000, the fourth release date is not a date.  Under
`new` the derived list is 1, 2, 6, 7, 3, 4, 5: the movies 5 and 7 have the same
release time, 5 comes before 7 in the favorites, and 7 comes before 5 in the
derived list. -/
theorem filtered_unparsed_date_unstable_counterexample :
    (filtered sampleBuiltins exampleUndatedTies "" "new").map Movie.id
      = [1, 2, 6, 7, 3, 4, 5] ∧
    dateOf sampleBuiltins { id := 5, release_date := some "2000-01-01" }
      = some 946684800000 ∧
    dateOf sampleBuiltins { id := 7, release_date := some "2000-01-01" }
      = some 946684800000 ∧
    [({ id := 5, release_date := some "2000-01-01" } : Movie),
      { id := 7, release_date := some "2000-01-01" }].Sublist exampleUndatedTies ∧
    ¬ [({ id := 5, release_date := some "2000-01-01" } : Movie),
      { id := 7, release_date := some "2000-01-01" }].Sublist
        (filtered sampleBuiltins exampleUndatedTies "" "new") ∧
    [({ id := 7, release_date := some "2000-01-01" } : Movie),
      { id := 5, release_date := some "2000-01-01" }].Sublist
        (filtered sampleBuiltins exampleUndatedTies "" "new") := by
  decide

/-- C17 as amended: under `az` and `za`, for every favorites list and query, the
entries of the derived list whose titles compare equal to one string are exactly
the matching favorites with such a title, in the order of the favorites list,
and two matching favorites whose titles compare equal keep their relative
order; when every release date among the favorites that is not empty is a date,
the same holds under `new` and `old` for the entries that share a release
time. -/
theorem filtered_is_stable_of_dates (js : Builtins) (favorites : List Movie)
    (query : String) :
    (baseOf js favorites query).Sublist favorites ∧
    ((∀ m ∈ favorites, (dateOf js m).isSome = true) →
      (∀ k : Int, (filtered js favorites query "new").filter (fun m => dateOf js m == some k)
        = (baseOf js favorites query).filter (fun m => dateOf js m == some k)) ∧
      (∀ k : Int, (filtered js favorites query "old").filter (fun m => dateOf js m == some k)
        = (baseOf js favorites query).filter (fun m => dateOf js m == some k)) ∧
      (∀ a b : Movie, [a, b].Sublist (baseOf js favorites query) →
        dateOf js a = dateOf js b →
        [a, b].Sublist (filtered js favorites query "new") ∧
        [a, b].Sublist (filtered js favorites query "old"))) ∧
    (∀ t : String,
      (filtered js favorites query "az").filter (fun m => js.localeCompare (titleOf m) t == 0)
        = (baseOf js favorites query).filter (fun m => js.localeCompare (titleOf m) t == 0)) ∧
    (∀ t : String,
      (filtered js favorites query "za").filter (fun m => js.localeCompare (titleOf m) t == 0)
        = (baseOf js favorites query).filter (fun m => js.localeCompare (titleOf m) t == 0)) ∧
    (∀ a b : Movie, [a, b].Sublist (baseOf js favorites query) →
      js.localeCompare (titleOf a) (titleOf b) = 0 →
      [a, b].Sublist (filtered js favorites query "az") ∧
      [a, b].Sublist (filtered js favorites query "za")) := by
  refine ⟨?_, fun hdates => ⟨?_, ?_, ?_⟩, ?_, ?_, ?_⟩
  · rw [baseOf_eq_filter]; exact List.filter_sublist _
  · intro k
    have hbase : ∀ m ∈ baseOf js favorites query, (dateOf js m).isSome = true :=
      fun m hm => hdates m (baseOf_subset js favorites query m hm)
    rw [filtered_new]
    apply arraySort_stable js (byDate js) _ _ (byDate_consistent js _ hbase)
    intro a _ b _ ha hb
    simp only [beq_iff_eq] at ha hb
    simp only [sortCompare, (byDate_of_dates js a b k k ha hb).1, Option.getD_some]
    omega
  · intro k
    have hbase : ∀ m ∈ baseOf js favorites query, (dateOf js m).isSome = true :=
      fun m hm => hdates m (baseOf_subset js favorites query m hm)
    rw [filtered_old]
    apply arraySort_stable js (byDateReversed js) _ _ (byDateReversed_consistent js _ hbase)
    intro a _ b _ ha hb
    simp only [beq_iff_eq] at ha hb
    simp only [sortCompare, (byDate_of_dates js a b k k ha hb).2, Option.getD_some]
    omega
  · intro a b hab hd
    have hbase : ∀ m ∈ baseOf js favorites query, (dateOf js m).isSome = true :=
      fun m hm => hdates m (baseOf_subset js favorites query m hm)
    obtain ⟨da, hda⟩ := dateOf_of_isSome js _ hbase a (hab.subset (by simp))
    have hdb : dateOf js b = some da := by rw [← hd, hda]
    rw [filtered_new, filtered_old]
    refine ⟨arraySort_pair js _ a b _ (byDate_consistent js _ hbase) ?_ hab,
      arraySort_pair js _ a b _ (byDateReversed_consistent js _ hbase) ?_ hab⟩
    · simp only [sortCompare, (byDate_of_dates js a b da da hda hdb).1, Option.getD_some]
      omega
    · simp only [sortCompare, (byDate_of_dates js a b da da hda hdb).2, Option.getD_some]
      omega
  · intro t
    rw [filtered_az]
    apply arraySort_stable js (byTitle js) _ _ (byTitle_consistent js _)
    intro a _ b _ ha hb
    simp only [beq_iff_eq] at ha hb
    exact js.localeCompare_trans _ t _ (le_of_eq ha)
      (le_of_eq (localeCompare_zero_swap js _ _ hb))
  · intro t
    rw [filtered_za]
    apply arraySort_stable js (byTitleReversed js) _ _ (byTitleReversed_consistent js _)
    intro a _ b _ ha hb
    simp only [beq_iff_eq] at ha hb
    exact js.localeCompare_trans _ t _ (le_of_eq hb)
      (le_of_eq (localeCompare_zero_swap js _ _ ha))
  · intro a b hab hd
    rw [filtered_az, filtered_za]
    exact ⟨arraySort_pair js _ a b _ (byTitle_consistent js _) (le_of_eq hd) hab,
      arraySort_pair js _ a b _ (byTitleReversed_consistent js _)
        (le_of_eq (localeCompare_zero_swap js _ _ hd)) hab⟩

/-- Example for amended C17 on the shelf Dune 2021, Alien 1979, Dune 1984 and an
untitled movie of 1979, whose release dates are all dates: newest first gives
1, 3, 2, 4 and oldest first 2, 4, 3, 1, the two movies of 1979 staying in the
order 2, 4; by title the untitled one comes first and the two Dunes stay in the
order 1, 3. -/
theorem filtered_is_stable_of_dates_witness :
    (∀ m ∈ exampleShelf, (dateOf sampleBuiltins m).isSome = true) ∧
    (filtered sampleBuiltins exampleShelf "" "new").map Movie.id = [1, 3, 2, 4] ∧
    (filtered sampleBuiltins exampleShelf "" "old").map Movie.id = [2, 4, 3, 1] ∧
    (filtered sampleBuiltins exampleShelf "" "az").map Movie.id = [4, 2, 1, 3] ∧
    (filtered sampleBuiltins exampleShelf "" "za").map Movie.id = [1, 3, 2, 4] ∧
    ((filtered sampleBuiltins exampleShelf "" "old").filter
      (fun m => dateOf sampleBuiltins m == some 296438400000)).map Movie.id = [2, 4] := by
  have k := ((filtered_is_stable_of_dates sampleBuiltins exampleShelf "").2.1
    (by decide)).2.1 296438400000
  refine ⟨by decide, by decide, by decide, by decide, by decide, ?_⟩
  rw [k]; decide

/-- C18: computing the derived list leaves the array `favorites`, and every
other array that existed before, with the content it had; the array returned is
a new one, and its content is a function of the content of `favorites`, the
query and the sort key alone, so equal inputs give equal outputs from any
store.  This holds on the five paths of `switch (sort)` and for the filtering
and the copying path alike. -/
theorem filtered_leaves_favorites (js : Builtins) (h : Store) (fav : Nat)
    (query sort : String) (hf : fav < h.length) :
    (filteredM js h fav query sort).1.read fav = h.read fav ∧
    (∀ p, p < h.length → (filteredM js h fav query sort).1.read p = h.read p) ∧
    (filteredM js h fav query sort).2 = h.length ∧
    (filteredM js h fav query sort).1.read (filteredM js h fav query sort).2
      = filtered js (h.read fav) query sort ∧
    (∀ (h2 : Store) (fav2 : Nat), h2.read fav2 = h.read fav →
      (filteredM js h2 fav2 query sort).1.read (filteredM js h2 fav2 query sort).2
        = (filteredM js h fav query sort).1.read (filteredM js h fav query sort).2) := by
  have content : ∀ (g : Store) (a : Nat),
      (filteredM js g a query sort).1.read (filteredM js g a query sort).2
        = filtered js (g.read a) query sort ∧
      (filteredM js g a query sort).2 = g.length ∧
      (∀ p, p < g.length → (filteredM js g a query sort).1.read p = g.read p) := by
    intro g a
    have hnew : ∀ c : List Movie, (g.alloc c).2 < (g.alloc c).1.length := by
      intro c; simp [Store.alloc]
    have hold : ∀ (c : List Movie) (p : Nat), p < g.length → p ≠ (g.alloc c).2 := by
      intro c p hp; simp only [Store.alloc]; omega
    have sorted : ∀ (c : List Movie) (cmp : Comparator),
        ((g.alloc c).1.sort js (g.alloc c).2 cmp).1.read
            ((g.alloc c).1.sort js (g.alloc c).2 cmp).2
          = arraySort js cmp c ∧
        ((g.alloc c).1.sort js (g.alloc c).2 cmp).2 = g.length ∧
        (∀ p, p < g.length →
          ((g.alloc c).1.sort js (g.alloc c).2 cmp).1.read p = g.read p) := by
      intro c cmp
      refine ⟨?_, rfl, fun p hp => ?_⟩
      · rw [Store.read_sort_same _ _ _ _ (hnew c), Store.read_alloc_new]
      · rw [Store.read_sort_other _ _ _ _ _ (hold c p hp), Store.read_alloc_old _ _ _ hp]
    have plain : ∀ c : List Movie,
        (g.alloc c).1.read (g.alloc c).2 = c ∧ (g.alloc c).2 = g.length ∧
        (∀ p, p < g.length → (g.alloc c).1.read p = g.read p) :=
      fun c => ⟨Store.read_alloc_new g c, rfl, fun p hp => Store.read_alloc_old g c p hp⟩
    simp only [filteredM, filtered, sortBase, baseOf]
    by_cases hq : (js.toLowerCase (jsTrim query) != "") = true <;>
      simp only [hq, if_true, Bool.false_eq_true, if_false] <;>
      (split_ifs <;> first | exact sorted _ _ | exact plain _)
  refine ⟨(content h fav).2.2 fav hf, (content h fav).2.2, (content h fav).2.1,
    (content h fav).1, fun h2 fav2 he => ?_⟩
  rw [(content h2 fav2).1, (content h fav).1, he]

/-- Example for C18: sorting the shelf by title from the store that holds it at
address 0 returns a new array at address 2 and leaves the shelf as it was. -/
theorem filtered_leaves_favorites_witness :
    (0 < exampleStore.length) ∧
    (filteredM sampleBuiltins exampleStore 0 "" "az").1.read 0 = exampleShelf ∧
    (filteredM sampleBuiltins exampleStore 0 "" "az").2 = 2 ∧
    ((filteredM sampleBuiltins exampleStore 0 "" "az").1.read 2).map Movie.id = [4, 2, 1, 3] := by
  have k := filtered_leaves_favorites sampleBuiltins exampleStore 0 "" "az" (by decide)
  refine ⟨by decide, k.1, k.2.2.1, ?_⟩
  have e : (filteredM sampleBuiltins exampleStore 0 "" "az").2 = 2 := k.2.2.1
  rw [← e, k.2.2.2.1]
  decide

/-! ## Lemmas on the debounce timer -/

theorem step_keeps_queries (f : Feed) (e : Event)
    (h1 : ∀ text, e ≠ Event.typeText text) (h2 : e ≠ Event.debounceFire) :
    (step f e).st.searchQuery = f.st.searchQuery ∧
    (step f e).st.debouncedQuery = f.st.debouncedQuery := by
  cases e with
  | typeText text => exact absurd rfl (h1 text)
  | debounceFire => exact absurd rfl h2
  | selectGenre g =>
    simp only [step]
    split
    · exact ⟨rfl, rfl⟩
    · exact ⟨rfl, rfl⟩
  | loadMore =>
    simp only [step, Feed.send, loadMore, pageEffect]
    split
    · split
      · exact ⟨rfl, rfl⟩
      · exact ⟨rfl, rfl⟩
    · exact ⟨rfl, rfl⟩
  | refresh => exact ⟨rfl, rfl⟩
  | submit => exact ⟨rfl, rfl⟩
  | retry => exact ⟨rfl, rfl⟩
  | deliver i o =>
    simp only [step]
    cases f.inflight.get? i with
    | none => exact ⟨rfl, rfl⟩
    | some r =>
      cases o <;> by_cases hr : r.refresh = true <;> simp [fetchMoviesDone, hr]

theorem debounceCallback_searchQuery (text : String) (f : Feed) :
    (debounceCallback text f).st.searchQuery = f.st.searchQuery := by
  simp only [debounceCallback]
  split
  · rfl
  · rfl

theorem foldl_callback_searchQuery (ts : List Timer) (f : Feed) :
    (ts.foldl (fun g t => debounceCallback t.text g) f).st.searchQuery = f.st.searchQuery := by
  induction ts generalizing f with
  | nil => rfl
  | cons t ts ih =>
    rw [List.foldl_cons, ih, debounceCallback_searchQuery]

theorem stepTimed_setSearchQuery (T : Timed) (text : String) (hi : TimedInv T)
    (hne : text ≠ T.feed.st.searchQuery) :
    stepTimed T (TimedEvent.setSearchQuery text)
      = { feed := { T.feed with st := { T.feed.st with searchQuery := text } },
          now := T.now,
          timers := [{ id := T.nextId, due := T.now + debounceDelay, text := text }],
          nextId := T.nextId + 1,
          cleanupId := some T.nextId,
          lastChange := T.now } := by
  have hclear : T.timers.filter (fun t => some t.id != T.cleanupId) = [] := by
    rw [List.filter_eq_nil_iff]
    intro t ht
    simp [(hi.2 t ht).1]
  simp only [stepTimed, hne, if_false, debounceEffect, setTimeout, clearTimeout, hclear,
    List.nil_append]

theorem stepTimed_advance_early (T : Timed) (t : Timer) (dt : Nat) (ht : T.timers = [t])
    (hd : T.now + dt < t.due) :
    stepTimed T (TimedEvent.advance dt) = { T with now := T.now + dt } := by
  have hn : ¬ t.due ≤ T.now + dt := by omega
  simp [stepTimed, ht, hn]

theorem stepTimed_advance_due (T : Timed) (t : Timer) (dt : Nat) (ht : T.timers = [t])
    (hd : t.due ≤ T.now + dt) :
    stepTimed T (TimedEvent.advance dt)
      = { T with now := T.now + dt, timers := [], feed := debounceCallback t.text T.feed } := by
  simp [stepTimed, ht, hd]

theorem timedInv_start : TimedInv Timed.start := by
  constructor
  · decide
  · intro t ht
    have : t = { id := 0, due := 350, text := "" } := by
      simpa [Timed.start, debounceEffect, setTimeout, clearTimeout, debounceDelay] using ht
    subst this
    exact ⟨rfl, rfl, rfl⟩

theorem timedInv_step (T : Timed) (e : TimedEvent) (hi : TimedInv T) :
    TimedInv (stepTimed T e) := by
  cases e with
  | setSearchQuery text =>
    by_cases hne : text = T.feed.st.searchQuery
    · simpa [stepTimed, hne] using hi
    · rw [stepTimed_setSearchQuery T text hi hne]
      refine ⟨by simp, ?_⟩
      intro t ht
      simp only [List.mem_singleton] at ht
      subst ht
      exact ⟨rfl, rfl, rfl⟩
  | advance dt =>
    simp only [stepTimed, TimedInv]
    refine ⟨le_trans (List.length_filter_le _ _) hi.1, ?_⟩
    intro t ht
    have := hi.2 t (List.mem_filter.1 ht).1
    rw [foldl_callback_searchQuery]
    exact this
  | feed e =>
    cases e with
    | typeText text => exact hi
    | debounceFire => exact hi
    | selectGenre g =>
      refine ⟨hi.1, fun t ht => ?_⟩
      have := hi.2 t ht
      exact ⟨this.1, this.2.1, this.2.2.trans
        (step_keeps_queries T.feed _ (fun _ => by simp) (by simp)).1.symm⟩
    | loadMore =>
      refine ⟨hi.1, fun t ht => ?_⟩
      have := hi.2 t ht
      exact ⟨this.1, this.2.1, this.2.2.trans
        (step_keeps_queries T.feed _ (fun _ => by simp) (by simp)).1.symm⟩
    | refresh =>
      refine ⟨hi.1, fun t ht => ?_⟩
      have := hi.2 t ht
      exact ⟨this.1, this.2.1, this.2.2.trans
        (step_keeps_queries T.feed _ (fun _ => by simp) (by simp)).1.symm⟩
    | submit =>
      refine ⟨hi.1, fun t ht => ?_⟩
      have := hi.2 t ht
      exact ⟨this.1, this.2.1, this.2.2.trans
        (step_keeps_queries T.feed _ (fun _ => by simp) (by simp)).1.symm⟩
    | retry =>
      refine ⟨hi.1, fun t ht => ?_⟩
      have := hi.2 t ht
      exact ⟨this.1, this.2.1, this.2.2.trans
        (step_keeps_queries T.feed _ (fun _ => by simp) (by simp)).1.symm⟩
    | deliver i o =>
      refine ⟨hi.1, fun t ht => ?_⟩
      have := hi.2 t ht
      exact ⟨this.1, this.2.1, this.2.2.trans
        (step_keeps_queries T.feed _ (fun _ => by simp) (by simp)).1.symm⟩

theorem timedInv_run (es : List TimedEvent) (T : Timed) (hi : TimedInv T) :
    TimedInv (runTimed T es) := by
  induction es generalizing T with
  | nil => exact hi
  | cons e es ih => exact ih (stepTimed T e) (timedInv_step T e hi)

theorem debounceCallback_debouncedQuery (text : String) (f : Feed) :
    (debounceCallback text f).st.debouncedQuery = jsTrim text := by
  simp only [debounceCallback]
  split
  · rename_i h; exact h.symm
  · rfl

theorem debounceCallback_same (text : String) (f : Feed) (h : jsTrim text = f.st.debouncedQuery) :
    debounceCallback text f = f := by
  simp [debounceCallback, h]

theorem debounceCallback_new (text : String) (f : Feed) (h : jsTrim text ≠ f.st.debouncedQuery) :
    (debounceCallback text f).changes = f.changes + 1 ∧
    (debounceCallback text f).inflight.map Request.url
      = f.inflight.map Request.url ++ [buildUrl (jsTrim text) f.st.selectedGenre 1] ∧
    (debounceCallback text f).inflight.length = f.inflight.length + 1 := by
  simp [debounceCallback, h, Feed.reset, Feed.send, resetEffect, fetchMoviesBegin]

theorem two_changes_run (T : Timed) (hi : TimedInv T) (a b : String) (d w : Nat)
    (ha : a ≠ T.feed.st.searchQuery) (hb : b ≠ a) (hd : d < debounceDelay)
    (hw : debounceDelay ≤ w) :
    runTimed T [TimedEvent.setSearchQuery a, TimedEvent.advance d,
        TimedEvent.setSearchQuery b, TimedEvent.advance w]
      = { feed := debounceCallback b
            { T.feed with st := { T.feed.st with searchQuery := b } },
          now := T.now + d + w,
          timers := [],
          nextId := T.nextId + 2,
          cleanupId := some (T.nextId + 1),
          lastChange := T.now + d } := by
  have e1 := stepTimed_setSearchQuery T a hi ha
  have i1 : TimedInv (stepTimed T (TimedEvent.setSearchQuery a)) := timedInv_step T _ hi
  have e2 := stepTimed_advance_early (stepTimed T (TimedEvent.setSearchQuery a))
    { id := T.nextId, due := T.now + debounceDelay, text := a } d (by rw [e1])
    (by rw [e1]; show T.now + d < T.now + debounceDelay; omega)
  have i2 : TimedInv (stepTimed (stepTimed T (TimedEvent.setSearchQuery a))
      (TimedEvent.advance d)) := timedInv_step _ _ i1
  have e3 := stepTimed_setSearchQuery _ b i2 (by rw [e2, e1]; exact hb)
  have e4 := stepTimed_advance_due (stepTimed (stepTimed (stepTimed T
      (TimedEvent.setSearchQuery a)) (TimedEvent.advance d)) (TimedEvent.setSearchQuery b))
    { id := T.nextId + 1, due := T.now + d + debounceDelay, text := b } w
    (by rw [e3, e2, e1]) (by
      rw [e3, e2, e1]
      show T.now + d + debounceDelay ≤ T.now + d + w
      omega)
  show stepTimed (stepTimed (stepTimed (stepTimed T (TimedEvent.setSearchQuery a))
    (TimedEvent.advance d)) (TimedEvent.setSearchQuery b)) (TimedEvent.advance w) = _
  rw [e4, e3, e2, e1]

/-! ## Claims on the debounce and on the discover request -/

/-- Counterexample to C19 as stated: the search text becomes "dune" and 100 ms
later the empty text; when the timer has fired, `debouncedQuery` is still empty,
no update of it has been counted, no timer is pending and the only request ever
sent is the one of the mount, so the two changes gave no debounced update and no
search request. -/
theorem debounce_exactly_one_counterexample :
    (runTimed Timed.start exampleClearing).feed.st.debouncedQuery = "" ∧
    (runTimed Timed.start exampleClearing).feed.changes = Timed.start.feed.changes ∧
    (runTimed Timed.start exampleClearing).feed.inflight = Timed.start.feed.inflight ∧
    (runTimed Timed.start exampleClearing).feed.inflight.length = 1 ∧
    (runTimed Timed.start exampleClearing).timers = [] ∧
    (runTimed Timed.start exampleClearing).now = 450 := by
  decide

/-- C19 as amended: in every state of the timed feed at most one timer is
pending; `debouncedQuery` changes only when time passes and 350 ms have gone by
since the latest change of the search text, and it becomes that text trimmed;
and two changes less than 350 ms apart, followed by 350 ms of quiet, leave no
timer pending and give no update for the earlier text and at most one for the
later: none and no request when the later text trimmed is the current
`debouncedQuery`, exactly one update and one request, for page 1 of the later
text trimmed, when it is not. -/
theorem debounce_latest_text_wins (es : List TimedEvent) :
    (runTimed Timed.start es).timers.length ≤ 1 ∧
    (∀ e : TimedEvent,
      (stepTimed (runTimed Timed.start es) e).feed.st.debouncedQuery
          ≠ (runTimed Timed.start es).feed.st.debouncedQuery →
        (∃ dt, e = TimedEvent.advance dt ∧
          (runTimed Timed.start es).lastChange + 350 ≤ (runTimed Timed.start es).now + dt) ∧
        (stepTimed (runTimed Timed.start es) e).feed.st.debouncedQuery
          = jsTrim (runTimed Timed.start es).feed.st.searchQuery) ∧
    (∀ (a b : String) (d w : Nat),
      a ≠ (runTimed Timed.start es).feed.st.searchQuery → b ≠ a → d < 350 → 350 ≤ w →
        (runTimed (runTimed Timed.start es)
          [TimedEvent.setSearchQuery a, TimedEvent.advance d,
           TimedEvent.setSearchQuery b, TimedEvent.advance w]).timers = [] ∧
        (runTimed (runTimed Timed.start es)
          [TimedEvent.setSearchQuery a, TimedEvent.advance d,
           TimedEvent.setSearchQuery b, TimedEvent.advance w]).feed.st.debouncedQuery
          = jsTrim b ∧
        (jsTrim b = (runTimed Timed.start es).feed.st.debouncedQuery →
          (runTimed (runTimed Timed.start es)
            [TimedEvent.setSearchQuery a, TimedEvent.advance d,
             TimedEvent.setSearchQuery b, TimedEvent.advance w]).feed.changes
            = (runTimed Timed.start es).feed.changes ∧
          (runTimed (runTimed Timed.start es)
            [TimedEvent.setSearchQuery a, TimedEvent.advance d,
             TimedEvent.setSearchQuery b, TimedEvent.advance w]).feed.inflight
            = (runTimed Timed.start es).feed.inflight) ∧
        (jsTrim b ≠ (runTimed Timed.start es).feed.st.debouncedQuery →
          (runTimed (runTimed Timed.start es)
            [TimedEvent.setSearchQuery a, TimedEvent.advance d,
             TimedEvent.setSearchQuery b, TimedEvent.advance w]).feed.changes
            = (runTimed Timed.start es).feed.changes + 1 ∧
          (runTimed (runTimed Timed.start es)
            [TimedEvent.setSearchQuery a, TimedEvent.advance d,
             TimedEvent.setSearchQuery b, TimedEvent.advance w]).feed.inflight.map Request.url
            = (runTimed Timed.start es).feed.inflight.map Request.url ++
                [buildUrl (jsTrim b) (runTimed Timed.start es).feed.st.selectedGenre 1])) := by
  have hi : TimedInv (runTimed Timed.start es) := timedInv_run es _ timedInv_start
  generalize runTimed Timed.start es = T at hi ⊢
  refine ⟨hi.1, ?_, ?_⟩
  · intro e hch
    cases e with
    | setSearchQuery text =>
      exfalso; apply hch
      by_cases hne : text = T.feed.st.searchQuery
      · simp [stepTimed, hne]
      · rw [stepTimed_setSearchQuery T text hi hne]
    | feed e =>
      exfalso; apply hch
      cases e with
      | typeText text => rfl
      | debounceFire => rfl
      | selectGenre g => exact (step_keeps_queries T.feed _ (fun _ => by simp) (by simp)).2
      | loadMore => exact (step_keeps_queries T.feed _ (fun _ => by simp) (by simp)).2
      | refresh => exact (step_keeps_queries T.feed _ (fun _ => by simp) (by simp)).2
      | submit => exact (step_keeps_queries T.feed _ (fun _ => by simp) (by simp)).2
      | retry => exact (step_keeps_queries T.feed _ (fun _ => by simp) (by simp)).2
      | deliver i o => exact (step_keeps_queries T.feed _ (fun _ => by simp) (by simp)).2
    | advance dt =>
      cases hts : T.timers with
      | nil =>
        exfalso; apply hch
        simp [stepTimed, hts]
      | cons t ts =>
        have hnil : ts = [] := by
          have := hi.1
          rw [hts] at this
          exact List.length_eq_zero.1 (by simpa using this)
        subst hnil
        have hinv := hi.2 t (by rw [hts]; exact List.mem_singleton_self t)
        by_cases hdue : t.due ≤ T.now + dt
        · rw [stepTimed_advance_due T t dt hts hdue] at hch ⊢
          refine ⟨⟨dt, rfl, ?_⟩, ?_⟩
          · have := hinv.2.1
            simp only [debounceDelay] at this
            omega
          · show (debounceCallback t.text T.feed).st.debouncedQuery = _
            rw [debounceCallback_debouncedQuery, hinv.2.2]
        · exfalso; apply hch
          rw [stepTimed_advance_early T t dt hts (by omega)]
  · intro a b d w ha hb hd hw
    rw [two_changes_run T hi a b d w ha hb hd hw]
    refine ⟨rfl, debounceCallback_debouncedQuery _ _, ?_, ?_⟩
    · intro heq
      have hs := debounceCallback_same b
        { T.feed with st := { T.feed.st with searchQuery := b } } heq
      show (debounceCallback b _).changes = _ ∧ (debounceCallback b _).inflight = _
      rw [hs]
      exact ⟨rfl, rfl⟩
    · intro hne
      have := debounceCallback_new b
        { T.feed with st := { T.feed.st with searchQuery := b } } hne
      exact ⟨this.1, this.2.1⟩

/-- Example of the specification for C19: "dune" and then "dune2" 100 ms later
leave, once the timer has fired, exactly one request besides the one of the
mount, and it is the search for "dune2". -/
theorem debounce_latest_text_wins_witness :
    (runTimed Timed.start exampleTyping).timers = [] ∧
    (runTimed Timed.start exampleTyping).feed.st.debouncedQuery = "dune2" ∧
    (runTimed Timed.start exampleTyping).feed.inflight.map Request.url
      = [buildUrl "" none 1, buildUrl "dune2" none 1] ∧
    buildUrl "dune2" none 1
      = "https://api.themoviedb.org/3/search/movie?api_key=82f823b60a578d4233a3902227a3f1e2" ++
          "&query=dune2&page=1" := by
  have k := (debounce_latest_text_wins []).2.2 "dune" "dune2" 100 350
    (by decide) (by decide) (by decide) (by decide)
  refine ⟨k.1, k.2.1.trans (by decide), ?_, by decide⟩
  have h := (k.2.2.2 (by decide)).2
  exact h.trans (by decide)

/-- Counterexample to C20 as stated: with the genre id 0 selected, which is not
the `null` of the chip "All", the discover URL has no `with_genres` parameter. -/
theorem discover_genre_zero_counterexample :
    exampleGenreZero.debouncedQuery = "" ∧
    exampleGenreZero.selectedGenre ≠ none ∧
    (fetchMoviesBegin exampleGenreZero true exampleGenreZero).2.url
      = "https://api.themoviedb.org/3/discover/movie?api_key=82f823b60a578d4233a3902227a3f1e2" ++
          "&page=1" ∧
    urlParam (fetchMoviesBegin exampleGenreZero true exampleGenreZero).2.url "with_genres"
      = none := by
  refine ⟨rfl, by decide, by decide, ?_⟩
  have hu : (fetchMoviesBegin exampleGenreZero true exampleGenreZero).2.url
      = buildUrl "" (some 0) 1 := rfl
  rw [hu, urlParam, (urlParams_discover (some 0) 1).1]
  rfl

/-- C20 as amended: when `debouncedQuery` is empty, the URL built by
`fetchMovies` is a discover/movie URL; for every selected genre id other than 0
it carries `with_genres=<id>` after `api_key` and `page`; and it has no
`with_genres` parameter exactly when the selection is the `null` of the chip
"All", which `genresWithAll` puts first, or the id 0. -/
theorem discover_request_carries_genre (c : HomeState) (reset : Bool) (s : HomeState)
    (hq : c.debouncedQuery = "") :
    urlPath (fetchMoviesBegin c reset s).2.url = discoverPath ∧
    (∀ g : Int, c.selectedGenre = some g → g ≠ 0 →
      urlParam (fetchMoviesBegin c reset s).2.url "with_genres" = some (toString g) ∧
      urlParams (fetchMoviesBegin c reset s).2.url
        = [("api_key", API_KEY), ("page", toString (if reset then 1 else c.page)),
           ("with_genres", toString g)] ∧
      (fetchMoviesBegin c reset s).2.url
        = "https://api.themoviedb.org/3/discover/movie?api_key=" ++ API_KEY ++ "&page=" ++
            toString (if reset then 1 else c.page) ++ "&with_genres=" ++ toString g) ∧
    (urlParam (fetchMoviesBegin c reset s).2.url "with_genres" = none ↔
      c.selectedGenre = none ∨ c.selectedGenre = some 0) ∧
    (∀ genres : List Genre,
      (genresWithAll genres).map Genre.id = none :: genres.map Genre.id) := by
  have hu : (fetchMoviesBegin c reset s).2.url
      = buildUrl "" c.selectedGenre (if reset then 1 else c.page) := by
    show buildUrl c.debouncedQuery c.selectedGenre (if reset then 1 else c.page) = _
    rw [hq]
  have hp := urlParams_discover c.selectedGenre (if reset then 1 else c.page)
  refine ⟨by rw [hu]; exact hp.2, ?_, ?_, fun _ => rfl⟩
  · intro g hg hg0
    have hb : (g != 0) = true := by simpa using hg0
    rw [hg] at hp hu
    simp only [hb, if_true] at hp
    refine ⟨?_, ?_, ?_⟩
    · rw [urlParam, hu, hp.1]; rfl
    · rw [hu, hp.1]; rfl
    · rw [hu]; simp only [buildUrl, bne_self_eq_false, Bool.false_eq_true, if_false, hb, if_true,
        String.append_assoc]
  · rw [urlParam, hu, hp.1]
    cases hg : c.selectedGenre with
    | none => simp
    | some g =>
      by_cases hg0 : g = 0
      · subst hg0
        simp
      · have hb : (g != 0) = true := by simpa using hg0
        simp only [hb, if_true, Option.some.injEq, hg0, or_false, reduceCtorEq, iff_false]
        intro hc
        have : List.lookup "with_genres"
            ([("api_key", API_KEY), ("page", toString (if reset then 1 else c.page))] ++
              [("with_genres", toString g)]) = some (toString g) := rfl
        rw [this] at hc
        exact absurd hc (by simp)

/-- Example for C20: with genre 28 selected and no search text, the request for
page 2 carries `with_genres=28`. -/
theorem discover_request_carries_genre_witness :
    exampleGenrePicked.debouncedQuery = "" ∧
    urlParam (fetchMoviesBegin exampleGenrePicked false exampleGenrePicked).2.url "with_genres"
      = some "28" ∧
    (fetchMoviesBegin exampleGenrePicked false exampleGenrePicked).2.url
      = "https://api.themoviedb.org/3/discover/movie?api_key=82f823b60a578d4233a3902227a3f1e2" ++
          "&page=2&with_genres=28" := by
  have k := (discover_request_carries_genre exampleGenrePicked false exampleGenrePicked rfl).2.1
    28 rfl (by decide)
  exact ⟨rfl, k.1, by decide⟩

/-! ## Lemmas on decimal numerals -/

theorem digitChar_value : ∀ k : Nat, k < 10 → (Nat.digitChar k).toNat - 48 = k := by decide

theorem foldl_toDigitsCore (fuel n acc : Nat) (ds : List Char) (h : n < fuel) :
    (Nat.toDigitsCore 10 fuel n ds).foldl (fun m c => 10 * m + (c.toNat - 48)) acc
      = ds.foldl (fun m c => 10 * m + (c.toNat - 48))
          ((Nat.toDigitsCore 10 fuel n []).foldl (fun m c => 10 * m + (c.toNat - 48)) acc) ∧
    (Nat.toDigitsCore 10 fuel n []).foldl (fun m c => 10 * m + (c.toNat - 48)) 0 = n := by
  induction fuel generalizing n acc ds with
  | zero => omega
  | succ fuel ih =>
    have hd := digitChar_value (n % 10) (Nat.mod_lt _ (by decide))
    by_cases hz : n / 10 = 0
    · have hn : n % 10 = n := Nat.mod_eq_of_lt (by omega)
      simp only [Nat.toDigitsCore, hz, if_true, List.foldl_cons, List.foldl_nil, hd]
      exact ⟨trivial, by omega⟩
    · have hlt : n / 10 < fuel := by omega
      simp only [Nat.toDigitsCore, hz, if_false]
      have a1 := (ih (n / 10) acc (Nat.digitChar (n % 10) :: ds) hlt).1
      have a2 := (ih (n / 10) acc [Nat.digitChar (n % 10)] hlt).1
      have a3 := (ih (n / 10) 0 [Nat.digitChar (n % 10)] hlt).1
      have a4 := (ih (n / 10) 0 [] hlt).2
      refine ⟨?_, ?_⟩
      · rw [a1, a2]; rfl
      · rw [a3, a4]
        simp only [List.foldl_cons, List.foldl_nil, hd]
        omega

theorem decimalValue_toString (n : Nat) : decimalValue (toString n).data = n := by
  have : (toString n).data = Nat.toDigitsCore 10 (n + 1) n [] := rfl
  rw [decimalValue, this]
  exact (foldl_toDigitsCore (n + 1) n 0 [] (by omega)).2

theorem natToString_injective (a b : Nat) (h : toString a = toString b) : a = b := by
  have := congrArg (fun t => decimalValue t.data) h
  simpa [decimalValue_toString] using this

/-! ## Claims on load-more, refresh and the number of movies -/

/-- C21: from a state with `loading` false and `page < totalPages` (and
`page >= 1`, as in every state the feed reaches), `loadMore()` raises `page` by
exactly 1 and triggers one request, not a reset, built from the current
`debouncedQuery` and `selectedGenre` and asking for the new page: its `page`
parameter is the numeral of `page + 1`, which is neither `1` nor the numeral of
the old page. -/
theorem loadMore_requests_next_page (s : HomeState) (h1 : 1 ≤ s.page)
    (hl : s.loading = false) (hp : (s.page : Int) < s.totalPages) :
    (loadMore s).1.page = s.page + 1 ∧
    (loadMore s).2.map Request.url
      = [buildUrl s.debouncedQuery s.selectedGenre (s.page + 1)] ∧
    (loadMore s).2.map Request.reset = [false] ∧
    (∀ r ∈ (loadMore s).2,
      urlParam r.url "page" = some (toString (s.page + 1)) ∧
      urlParam r.url "page" ≠ some "1" ∧
      urlParam r.url "page" ≠ some (toString s.page)) ∧
    (loadMore s).1.debouncedQuery = s.debouncedQuery ∧
    (loadMore s).1.selectedGenre = s.selectedGenre ∧
    (loadMore s).1.movies = s.movies ∧
    (loadMore s).1.totalPages = s.totalPages ∧
    (∀ es : List Event, 1 ≤ (run Feed.start es).st.page) := by
  have hc : (!s.loading && hasMore s) = true := by simp [hl, hasMore, hp]
  have hgt : s.page + 1 > 1 := by omega
  have hlm : loadMore s
      = ((fetchMoviesBegin { s with page := s.page + 1 } false { s with page := s.page + 1 }).1,
         [(fetchMoviesBegin { s with page := s.page + 1 } false
            { s with page := s.page + 1 }).2]) := by
    simp [loadMore, hc, pageEffect, hgt]
  have pos : ∀ (es : List Event) (f : Feed), 1 ≤ f.st.page → 1 ≤ (run f es).st.page := by
    intro es
    induction es with
    | nil => intro f hf; exact hf
    | cons e es ih => intro f hf; exact ih (step f e) (step_page_pos f e hf)
  rw [hlm]
  refine ⟨rfl, rfl, rfl, ?_, rfl, rfl, rfl, rfl, fun es => pos es Feed.start (by decide)⟩
  intro r hr
  simp only [List.mem_singleton] at hr
  subst hr
  have hu : urlParam (fetchMoviesBegin { s with page := s.page + 1 } false
      { s with page := s.page + 1 }).2.url "page" = some (toString (s.page + 1)) :=
    urlParam_page _ _ _
  refine ⟨hu, ?_, ?_⟩
  · rw [hu]
    intro c
    have := natToString_injective (s.page + 1) 1 (Option.some.inj c)
    omega
  · rw [hu]
    intro c
    have := natToString_injective (s.page + 1) s.page (Option.some.inj c)
    omega

/-- Example for C21: on page 1 of 3 with the text "dune" settled, `loadMore`
moves to page 2 and asks the search endpoint for page 2 of "dune". -/
theorem loadMore_requests_next_page_witness :
    (1 ≤ ({ examplePage1 with debouncedQuery := "dune" } : HomeState).page ∧
      ({ examplePage1 with debouncedQuery := "dune" } : HomeState).loading = false ∧
      ((({ examplePage1 with debouncedQuery := "dune" } : HomeState).page : Nat) : Int)
        < ({ examplePage1 with debouncedQuery := "dune" } : HomeState).totalPages) ∧
    (loadMore { examplePage1 with debouncedQuery := "dune" }).1.page = 2 ∧
    (loadMore { examplePage1 with debouncedQuery := "dune" }).2.map Request.url
      = ["https://api.themoviedb.org/3/search/movie?api_key=82f823b60a578d4233a3902227a3f1e2" ++
          "&query=dune&page=2"] := by
  have k := loadMore_requests_next_page { examplePage1 with debouncedQuery := "dune" }
    (by decide) (by decide) (by decide)
  exact ⟨by decide, k.1, k.2.1.trans (by decide)⟩

/-- C22: for every state and every outcome, `onRefresh()` sends the request
that a reset-fetch sends (same URL, `reset` true) and ends with the `movies`,
`page`, `totalPages`, `error` and `loading` of that reset-fetch; `refreshing` is
false when it completes, on success and on failure.  In the feed, the refresh
event and the delivery of its response are these two halves. -/
theorem refresh_equals_reset_fetch (s : HomeState) (o : Outcome) :
    (onRefreshBegin s).2.url = (resetEffect s).2.url ∧
    (onRefreshBegin s).2.reset = (resetEffect s).2.reset ∧
    (onRefresh o s).movies = (resetFetch o s).movies ∧
    (onRefresh o s).page = (resetFetch o s).page ∧
    (onRefresh o s).totalPages = (resetFetch o s).totalPages ∧
    (onRefresh o s).error = (resetFetch o s).error ∧
    (onRefresh o s).loading = (resetFetch o s).loading ∧
    (onRefresh o s).refreshing = false ∧
    (onRefresh Outcome.rejected s).refreshing = false ∧
    (∀ f : Feed, f.st = s →
      (step f Event.refresh).st = (onRefreshBegin s).1 ∧
      (step f Event.refresh).inflight.map Request.url
        = f.inflight.map Request.url ++ [(resetEffect s).2.url]) ∧
    (∀ (f : Feed) (i : Nat) (r : Request), f.st = s → f.inflight.get? i = some r →
      r.reset = true → r.refresh = true →
      (step f (Event.deliver i o)).st = onRefreshDone o s) := by
  refine ⟨rfl, rfl, ?_, ?_, ?_, ?_, ?_, ?_, rfl, ?_, ?_⟩
  · cases o <;> rfl
  · cases o <;> rfl
  · cases o <;> rfl
  · cases o <;> rfl
  · cases o <;> rfl
  · cases o <;> rfl
  · intro f hf
    subst hf
    simp [step, Feed.send, onRefreshBegin, fetchMoviesBegin, resetEffect]
  · intro f i r hf hg hres href
    subst hf
    simp only [step, hg, href, if_true, hres, onRefreshDone]

/-- Example for C22: refreshing the feed that shows movies 1, 2 on page 2, with
the response 7, 2, ends like the reset-fetch: movies 7, 2 on page 1 of 4, with
`refreshing` false. -/
theorem refresh_equals_reset_fetch_witness :
    (onRefresh (Outcome.resolved exampleResetData) exampleBrowsing.st).movies
      = [movieWithId 7, movieWithId 2] ∧
    (resetFetch (Outcome.resolved exampleResetData) exampleBrowsing.st).movies
      = [movieWithId 7, movieWithId 2] ∧
    (onRefresh (Outcome.resolved exampleResetData) exampleBrowsing.st).page = 1 ∧
    (onRefresh (Outcome.resolved exampleResetData) exampleBrowsing.st).refreshing = false ∧
    (step (step exampleBrowsing Event.refresh)
      (Event.deliver 0 (Outcome.resolved exampleResetData))).st
      = onRefresh (Outcome.resolved exampleResetData) exampleBrowsing.st := by
  have k := refresh_equals_reset_fetch exampleBrowsing.st (Outcome.resolved exampleResetData)
  refine ⟨k.2.2.1.trans (by decide), by decide, k.2.2.2.1.trans (by decide), k.2.2.2.2.2.2.2.1,
    by decide⟩

theorem keepFresh_ids_iff (l : List Movie) (i : Int) :
    i ∈ (keepFresh [] l).map Movie.id ↔ i ∈ l.map Movie.id := by
  constructor
  · intro h
    obtain ⟨m, hm, rfl⟩ := List.mem_map.1 h
    exact List.mem_map_of_mem _ ((keepFresh_ids [] l).2 m hm).2
  · intro h
    obtain ⟨m, hm, rfl⟩ := List.mem_map.1 h
    exact keepFresh_complete [] l m hm (List.not_mem_nil _)

theorem uniqueById_absorb (a b : List Movie) :
    uniqueById (uniqueById a ++ b) = uniqueById (a ++ b) := by
  rw [uniqueById_append _ _ (uniqueById_nodup a)]
  rw [uniqueById_eq_keepFresh (a ++ b), keepFresh_append, uniqueById_eq_keepFresh a]
  congr 1
  apply keepFresh_congr
  intro i
  rw [List.append_nil]
  exact keepFresh_ids_iff a i

theorem loadMore_cases (s : HomeState) (d : Option ResponseData) :
    ((loadMore s).2 = [] ∧ (loadMoreCycle (Outcome.resolved d) s).movies = s.movies) ∨
    ((loadMore s).2.map (fun _ => resultsOf d) = [resultsOf d] ∧
      (loadMoreCycle (Outcome.resolved d) s).movies = uniqueById (s.movies ++ resultsOf d)) := by
  simp only [loadMoreCycle, loadMore, pageEffect]
  split
  · split
    · right
      simp [fetchMoviesBegin, fetchMoviesDone]
    · left
      exact ⟨rfl, rfl⟩
  · left
    exact ⟨rfl, rfl⟩

theorem loadMoreRun_movies (ds : List (Option ResponseData)) (s : HomeState) (a : List Movie)
    (h : s.movies = uniqueById a) :
    (loadMoreRun s ds).1.movies = uniqueById (a ++ (loadMoreRun s ds).2.flatten) := by
  induction ds generalizing s a with
  | nil => simpa [loadMoreRun] using h
  | cons d ds ih =>
    simp only [loadMoreRun]
    rcases loadMore_cases s d with ⟨h1, h2⟩ | ⟨h1, h2⟩
    · rw [h1, List.map_nil, List.nil_append]
      exact ih _ a (h2.trans h)
    · rw [h1]
      have := ih (loadMoreCycle (Outcome.resolved d) s) (a ++ resultsOf d)
        (by rw [h2, h, uniqueById_absorb])
      simpa [List.append_assoc] using this

/-- C25: after a reset-fetch and any run of successful load-more fetches, the
movies list is the pages fetched since the reset, put one after the other, with
every id kept at its first occurrence; so its length equals the number of
distinct ids occurring in those pages. -/
theorem movies_count_is_distinct_ids (s : HomeState) (p1 : Option ResponseData)
    (ds : List (Option ResponseData)) :
    (loadMoreRun (resetFetch (Outcome.resolved p1) s) ds).1.movies
      = uniqueById (resultsOf p1 ++
          (loadMoreRun (resetFetch (Outcome.resolved p1) s) ds).2.flatten) ∧
    (loadMoreRun (resetFetch (Outcome.resolved p1) s) ds).1.movies.length
      = ((resultsOf p1 ++
          (loadMoreRun (resetFetch (Outcome.resolved p1) s) ds).2.flatten).map
            Movie.id).toFinset.card ∧
    (∀ i : Int,
      i ∈ (loadMoreRun (resetFetch (Outcome.resolved p1) s) ds).1.movies.map Movie.id ↔
        i ∈ (resultsOf p1 ++
          (loadMoreRun (resetFetch (Outcome.resolved p1) s) ds).2.flatten).map Movie.id) := by
  have hm := loadMoreRun_movies ds (resetFetch (Outcome.resolved p1) s) (resultsOf p1)
    (by simp [resetFetch, fetchMoviesDone])
  have hmem : ∀ i : Int,
      i ∈ (loadMoreRun (resetFetch (Outcome.resolved p1) s) ds).1.movies.map Movie.id ↔
        i ∈ (resultsOf p1 ++
          (loadMoreRun (resetFetch (Outcome.resolved p1) s) ds).2.flatten).map Movie.id := by
    intro i
    rw [hm, uniqueById_eq_keepFresh]
    exact keepFresh_ids_iff _ i
  refine ⟨hm, ?_, hmem⟩
  have hnd : ((loadMoreRun (resetFetch (Outcome.resolved p1) s) ds).1.movies.map
      Movie.id).Nodup := by
    rw [hm]; exact uniqueById_nodup _
  rw [← List.length_map _ Movie.id, ← List.toFinset_card_of_nodup hnd]
  congr 1
  ext i
  simp only [List.mem_toFinset]
  exact hmem i

/-- Example for C25: the first page 1, 2, 1 and the further pages 2, 3 and
3, 4, 5 hold five distinct ids, and the list ends with the five movies
1, 2, 3, 4, 5. -/
theorem movies_count_is_distinct_ids_witness :
    (loadMoreRun (resetFetch (Outcome.resolved exampleFirstPage) initState)
      exampleMorePages).1.movies.map Movie.id = [1, 2, 3, 4, 5] ∧
    (loadMoreRun (resetFetch (Outcome.resolved exampleFirstPage) initState)
      exampleMorePages).2.length = 2 ∧
    (loadMoreRun (resetFetch (Outcome.resolved exampleFirstPage) initState)
      exampleMorePages).1.movies.length = 5 := by
  have k := movies_count_is_distinct_ids initState exampleFirstPage exampleMorePages
  refine ⟨?_, by decide, ?_⟩
  · rw [k.1]; decide
  · rw [k.1]; decide

/-! ## Claims on bulk removal of favorites -/

theorem removeSelected_fold (favorites : List Movie) (ids done : List Int)
    (hs : ids.Nodup) (hd : ∀ i ∈ ids, i ∉ done) :
    ids.foldl
        (fun st id =>
          match favorites.find? (fun f => f.id == id) with
          | some movie => handleToggleFavorite (some movie) st
          | none => st)
        (favorites.filter (fun f => decide (f.id ∉ done)))
      = favorites.filter (fun f => decide (f.id ∉ done ++ ids)) := by
  induction ids generalizing done with
  | nil => simp
  | cons id ids ih =>
    rw [List.nodup_cons] at hs
    have hnext : ∀ i ∈ ids, i ∉ done ++ [id] := by
      intro i hi c
      rcases List.mem_append.1 c with c | c
      · exact hd i (List.mem_cons_of_mem _ hi) c
      · rw [List.mem_singleton] at c
        exact hs.1 (c ▸ hi)
    have hid : id ∉ done := hd id (List.mem_cons_self _ _)
    have hgoal : favorites.filter (fun f => decide (f.id ∉ done ++ id :: ids))
        = favorites.filter (fun f => decide (f.id ∉ (done ++ [id]) ++ ids)) := by
      simp
    rw [List.foldl_cons, hgoal, ← ih (done ++ [id]) hs.2 hnext]
    congr 1
    cases hf : favorites.find? (fun f => f.id == id) with
    | none =>
      have hno : ∀ f ∈ favorites, f.id ≠ id := by
        intro f hfm c
        have := List.find?_eq_none.1 hf f hfm
        simp [c] at this
      apply List.filter_congr
      intro f hfm
      have := hno f hfm
      simp [this]
    | some movie =>
      have hmem := List.mem_of_find?_eq_some hf
      have hmid : movie.id = id := by simpa using List.find?_some hf
      have hpres : ∃ f ∈ favorites.filter (fun f => decide (f.id ∉ done)), f.id = movie.id :=
        ⟨movie, List.mem_filter.2 ⟨hmem, by simpa [hmid] using hid⟩, rfl⟩
      show handleToggleFavorite (some movie) _ = _
      rw [handleToggleFavorite_present movie _ hpres, List.filter_filter]
      apply List.filter_congr
      intro f _
      by_cases hfi : f.id = id <;> simp [hfi, hmid]

/-- C23: for favorites with pairwise distinct ids and a set of selected ids,
confirming `removeSelected` with the toggle handler supplied leaves exactly the
favorites whose id is not selected, in their original order and still with
distinct ids; the selection is empty afterwards; and a selected id that no
favorite has changes nothing. -/
theorem removeSelected_removes_selection (favorites : List Movie) (sel : SelectState)
    (hf : (favorites.map Movie.id).Nodup) (hs : sel.selectedIds.Nodup) :
    (removeSelected true true favorites sel favorites).1
      = favorites.filter (fun f => decide (f.id ∉ sel.selectedIds)) ∧
    (removeSelected true true favorites sel favorites).1.Sublist favorites ∧
    ((removeSelected true true favorites sel favorites).1.map Movie.id).Nodup ∧
    (∀ f, f ∈ (removeSelected true true favorites sel favorites).1 ↔
      f ∈ favorites ∧ f.id ∉ sel.selectedIds) ∧
    (removeSelected true true favorites sel favorites).2.selectedIds = [] ∧
    (∀ id : Int, (∀ f ∈ favorites, f.id ≠ id) →
      (removeSelected true true favorites { sel with selectedIds := [id] } favorites).1
        = favorites) := by
  have hall : ∀ ids : List Int, ids.Nodup →
      (removeSelected true true favorites { sel with selectedIds := ids } favorites).1
        = favorites.filter (fun f => decide (f.id ∉ ids)) ∧
      (removeSelected true true favorites { sel with selectedIds := ids } favorites).2.selectedIds
        = [] := by
    intro ids hn
    cases ids with
    | nil => simp [removeSelected]
    | cons i is =>
      have h0 : favorites = favorites.filter (fun f => decide (f.id ∉ ([] : List Int))) := by
        simp
      have := removeSelected_fold favorites (i :: is) [] hn (fun _ _ => List.not_mem_nil _)
      rw [← h0, List.nil_append] at this
      simp only [removeSelected, Bool.not_true, Bool.false_eq_true, if_false, List.length_cons,
        Nat.add_one_ne_zero, beq_iff_eq, if_true, removeSelectedConfirm, exitSelectMode]
      exact ⟨this, trivial⟩
  have hmain := hall sel.selectedIds hs
  have hres : (removeSelected true true favorites sel favorites).1
      = favorites.filter (fun f => decide (f.id ∉ sel.selectedIds)) := hmain.1
  refine ⟨hres, ?_, ?_, ?_, hmain.2, ?_⟩
  · rw [hres]; exact List.filter_sublist _
  · rw [hres]; exact hf.sublist ((List.filter_sublist _).map _)
  · intro f
    rw [hres, List.mem_filter]
    simp
  · intro id hno
    rw [(hall [id] (List.nodup_singleton id)).1]
    apply List.filter_eq_self.2
    intro f hfm
    simpa using hno f hfm

/-- Example for C23: with the favorites 1, 2 and the ids 2 and 9 selected,
confirming leaves movie 1 and an empty selection. -/
theorem removeSelected_removes_selection_witness :
    (exampleFavorites.map Movie.id).Nodup ∧
    (removeSelected true true exampleFavorites { selectMode := true, selectedIds := [2, 9] }
      exampleFavorites).1 = [movieWithId 1] ∧
    (removeSelected true true exampleFavorites { selectMode := true, selectedIds := [2, 9] }
      exampleFavorites).2.selectedIds = [] := by
  have k := removeSelected_removes_selection exampleFavorites
    { selectMode := true, selectedIds := [2, 9] } (by decide) (by decide)
  exact ⟨by decide, k.1.trans (by decide), k.2.2.2.2.1⟩

theorem toggle_head_removes (x : Movie) (xs : List Movie)
    (h : ((x :: xs).map Movie.id).Nodup) :
    handleToggleFavorite (some x) (x :: xs) = xs := by
  rw [handleToggleFavorite_present x (x :: xs) ⟨x, List.mem_cons_self _ _, rfl⟩]
  rw [List.map_cons, List.nodup_cons] at h
  rw [List.filter_cons]
  simp only [bne_self_eq_false, Bool.false_eq_true, if_false]
  apply List.filter_eq_self.2
  intro f hfm
  simp only [bne_iff_ne, ne_eq]
  intro c
  exact h.1 (c ▸ List.mem_map_of_mem _ hfm)

/-- C24: for favorites with pairwise distinct ids, confirming `clearAll` with
the toggle handler supplied, which toggles every entry once, leaves the store
empty, and the selection cleared when there was a favorite.  App.js itself hands no toggle handler to the
favorites screen, and without it `clearAll` changes nothing. -/
theorem clearAll_empties_store (favorites : List Movie) (sel : SelectState)
    (hf : (favorites.map Movie.id).Nodup) :
    (clearAll true true favorites sel favorites).1 = [] ∧
    (favorites ≠ [] → (clearAll true true favorites sel favorites).2.selectedIds = []) ∧
    toggleAll (favorites.map some) favorites = [] ∧
    clearAll appPassesToggleToFavorites true favorites sel favorites = (favorites, sel) := by
  have hfold : ∀ l : List Movie, (l.map Movie.id).Nodup →
      l.foldl (fun st m => handleToggleFavorite (some m) st) l = [] := by
    intro l
    induction l with
    | nil => intro _; rfl
    | cons x xs ih =>
      intro h
      rw [List.foldl_cons, toggle_head_removes x xs h]
      rw [List.map_cons, List.nodup_cons] at h
      exact ih h.2
  have hta : toggleAll (favorites.map some) favorites
      = favorites.foldl (fun st m => handleToggleFavorite (some m) st) favorites := by
    simp [toggleAll, List.foldl_map]
  refine ⟨?_, ?_, by rw [hta]; exact hfold favorites hf, by simp [clearAll, appPassesToggleToFavorites]⟩
  · cases hfav : favorites with
    | nil => simp [clearAll]
    | cons x xs =>
      rw [hfav] at hf
      simp only [clearAll, Bool.not_true, List.length_cons, Nat.add_one_ne_zero, beq_iff_eq,
        Bool.or_self, Bool.false_eq_true, if_false, if_true, clearAllConfirm]
      exact hfold (x :: xs) hf
  · intro hne
    cases hfav : favorites with
    | nil => exact absurd hfav hne
    | cons x xs => simp [clearAll, clearAllConfirm, exitSelectMode]

/-- Example for C24: clearing the favorites 1, 2 leaves none. -/
theorem clearAll_empties_store_witness :
    (exampleFavorites.map Movie.id).Nodup ∧
    (clearAll true true exampleFavorites { selectMode := true, selectedIds := [1] }
      exampleFavorites).1 = [] ∧
    toggleAll (exampleFavorites.map some) exampleFavorites = [] :=
  ⟨by decide,
    (clearAll_empties_store exampleFavorites { selectMode := true, selectedIds := [1] }
      (by decide)).1,
    (clearAll_empties_store exampleFavorites { selectMode := true, selectedIds := [1] }
      (by decide)).2.2.1⟩

/-! ## Lemmas on trimming -/

theorem dropWhile_all {α : Type} (p : α → Bool) (w l : List α) (hw : ∀ c ∈ w, p c = true) :
    (w ++ l).dropWhile p = l.dropWhile p := by
  induction w with
  | nil => rfl
  | cons x xs ih =>
    rw [List.cons_append, List.dropWhile_cons, if_pos (hw x (List.mem_cons_self _ _))]
    exact ih (fun c hc => hw c (List.mem_cons_of_mem _ hc))

theorem dropWhile_head_not {α : Type} (p : α → Bool) (l : List α) (c : α)
    (h : (l.dropWhile p).head? = some c) : p c = false := by
  induction l with
  | nil => simp at h
  | cons x xs ih =>
    rw [List.dropWhile_cons] at h
    by_cases hx : p x = true
    · rw [if_pos hx] at h; exact ih h
    · rw [if_neg hx] at h
      simp only [List.head?_cons, Option.some.injEq] at h
      subst h
      simpa using hx

theorem trimEnd_pad (b w : List Char) (hw : ∀ c ∈ w, isJsSpace c = true) :
    ((b ++ w).reverse.dropWhile isJsSpace).reverse = (b.reverse.dropWhile isJsSpace).reverse := by
  rw [List.reverse_append, dropWhile_all isJsSpace w.reverse b.reverse
    (fun c hc => hw c (List.mem_reverse.1 hc))]

theorem jsTrim_pad (w1 core w2 : List Char) (h1 : ∀ c ∈ w1, isJsSpace c = true)
    (h2 : ∀ c ∈ w2, isJsSpace c = true) :
    jsTrim (String.mk (w1 ++ core ++ w2)) = jsTrim (String.mk core) := by
  simp only [jsTrim, List.append_assoc]
  rw [dropWhile_all isJsSpace w1 _ h1, List.dropWhile_append]
  by_cases he : (core.dropWhile isJsSpace).isEmpty = true
  · rw [if_pos he]
    have hc : core.dropWhile isJsSpace = [] := List.isEmpty_iff.1 he
    have hw : w2.dropWhile isJsSpace = [] := by
      have := dropWhile_all isJsSpace w2 [] h2
      simpa using this
    rw [hc, hw]
  · rw [if_neg he, trimEnd_pad _ w2 h2]

theorem jsTrim_blank (text : String) (h : ∀ c ∈ text.data, isJsSpace c = true) :
    jsTrim text = "" := by
  have := jsTrim_pad text.data [] [] h (fun _ hc => absurd hc (List.not_mem_nil _))
  simpa [jsTrim] using this

theorem jsTrim_split (text : String) :
    ∃ w1 w2 : List Char, text.data = w1 ++ (jsTrim text).data ++ w2 ∧
      (∀ c ∈ w1, isJsSpace c = true) ∧ (∀ c ∈ w2, isJsSpace c = true) := by
  refine ⟨text.data.takeWhile isJsSpace,
    ((text.data.dropWhile isJsSpace).reverse.takeWhile isJsSpace).reverse, ?_, ?_, ?_⟩
  · simp only [jsTrim]
    rw [List.append_assoc, ← List.reverse_append, List.takeWhile_append_dropWhile,
      List.reverse_reverse, List.takeWhile_append_dropWhile]
  · intro c hc
    exact (List.mem_takeWhile_imp hc)
  · intro c hc
    exact (List.mem_takeWhile_imp (List.mem_reverse.1 hc))

theorem jsTrim_ends (text : String) (c : Char) :
    ((jsTrim text).data.head? = some c → isJsSpace c = false) ∧
    ((jsTrim text).data.getLast? = some c → isJsSpace c = false) := by
  simp only [jsTrim]
  constructor
  · intro h
    rw [List.head?_reverse] at h
    have hsuf : (text.data.dropWhile isJsSpace).reverse.dropWhile isJsSpace
        <:+ (text.data.dropWhile isJsSpace).reverse := List.dropWhile_suffix _
    obtain ⟨pre, hpre⟩ := hsuf
    have hne : (text.data.dropWhile isJsSpace).reverse.dropWhile isJsSpace ≠ [] := by
      intro hc; rw [hc] at h; simp at h
    have hl : (text.data.dropWhile isJsSpace).reverse.getLast? = some c := by
      rw [← hpre, List.getLast?_append_of_ne_nil _ hne]
      exact h
    rw [List.getLast?_reverse] at hl
    exact dropWhile_head_not isJsSpace _ c hl
  · intro h
    rw [List.getLast?_reverse] at h
    exact dropWhile_head_not isJsSpace _ c h

/-! ## Claims on the settled search text -/

/-- C26: the value the debounce callback settles is the search text without its
leading and trailing white space, the text being that value with white space
around it and the value neither starting nor ending with white space.  For a
text of white space only the value is empty, so every URL built from it is a
discover URL that carries the genre filter, and the request sent when this
changes `debouncedQuery` is such a URL; two texts that differ only in the white
space around the same core settle the same value and so give the same
request. -/
theorem debounced_query_is_trimmed (text : String) (f : Feed) :
    (debounceCallback text f).st.debouncedQuery = jsTrim text ∧
    (step f Event.debounceFire).st.debouncedQuery = jsTrim f.st.searchQuery ∧
    (∃ w1 w2 : List Char, text.data = w1 ++ (jsTrim text).data ++ w2 ∧
      (∀ c ∈ w1, isJsSpace c = true) ∧ (∀ c ∈ w2, isJsSpace c = true)) ∧
    (∀ c, ((jsTrim text).data.head? = some c → isJsSpace c = false) ∧
      ((jsTrim text).data.getLast? = some c → isJsSpace c = false)) ∧
    ((∀ c ∈ text.data, isJsSpace c = true) →
      jsTrim text = "" ∧
      (∀ (g : Option Int) (p : Nat),
        urlPath (buildUrl (jsTrim text) g p) = discoverPath ∧
        urlParams (buildUrl (jsTrim text) g p)
          = [("api_key", API_KEY), ("page", toString p)] ++
              (match g with
               | some v => if v != 0 then [("with_genres", toString v)] else []
               | none => [])) ∧
      (f.st.debouncedQuery ≠ "" →
        (debounceCallback text f).inflight.map Request.url
          = f.inflight.map Request.url ++ [buildUrl "" f.st.selectedGenre 1])) ∧
    (∀ (text2 : String) (core w1 w2 w3 w4 : List Char),
      (∀ c ∈ w1 ++ w2 ++ w3 ++ w4, isJsSpace c = true) →
      text.data = w1 ++ core ++ w2 → text2.data = w3 ++ core ++ w4 →
        jsTrim text = jsTrim text2 ∧
        debounceCallback text f = debounceCallback text2 f ∧
        (∀ (g : Option Int) (p : Nat),
          buildUrl (jsTrim text) g p = buildUrl (jsTrim text2) g p)) := by
  refine ⟨debounceCallback_debouncedQuery text f, ?_, jsTrim_split text, jsTrim_ends text, ?_, ?_⟩
  · simp only [step]
    split
    · rename_i h; exact h.symm
    · rfl
  · intro hb
    have he := jsTrim_blank text hb
    refine ⟨he, fun g p => ?_, fun hne => ?_⟩
    · rw [he]
      exact ⟨(urlParams_discover g p).2, (urlParams_discover g p).1⟩
    · have := (debounceCallback_new text f (by rw [he]; exact fun c => hne c.symm)).2.1
      rw [he] at this
      exact this
  · intro text2 core w1 w2 w3 w4 hw h1 h2
    have hmem : ∀ w : List Char, (∀ c ∈ w, c ∈ w1 ++ w2 ++ w3 ++ w4) →
        ∀ c ∈ w, isJsSpace c = true := fun w hsub c hc => hw c (hsub c hc)
    have e1 : jsTrim text = jsTrim (String.mk core) := by
      have := jsTrim_pad w1 core w2 (hmem w1 (by simp; tauto)) (hmem w2 (by simp; tauto))
      rw [← h1] at this
      exact this
    have e2 : jsTrim text2 = jsTrim (String.mk core) := by
      have := jsTrim_pad w3 core w4 (hmem w3 (by simp; tauto)) (hmem w4 (by simp; tauto))
      rw [← h2] at this
      exact this
    have e : jsTrim text = jsTrim text2 := e1.trans e2.symm
    refine ⟨e, ?_, fun g p => by rw [e]⟩
    simp only [debounceCallback, e]

/-- Example for C26: in a feed that shows the results for "dune" with genre 28
selected, a text box holding three blanks settles the empty query and sends the
discover request for genre 28; and " dune " settles the same value as "dune". -/
theorem debounced_query_is_trimmed_witness :
    (debounceCallback "   " exampleBlankBox).st.debouncedQuery = "" ∧
    (debounceCallback "   " exampleBlankBox).inflight.map Request.url
      = ["https://api.themoviedb.org/3/discover/movie?api_key=82f823b60a578d4233a3902227a3f1e2" ++
          "&page=1&with_genres=28"] ∧
    jsTrim " dune " = jsTrim "dune" := by
  have k := debounced_query_is_trimmed "   " exampleBlankBox
  have kb := k.2.2.2.2.1 (by decide)
  have k2 := (debounced_query_is_trimmed " dune " exampleBlankBox).2.2.2.2.2 "dune"
    "dune".data [' '] [' '] [] [] (by decide) rfl rfl
  refine ⟨k.1.trans kb.1, ?_, k2.1⟩
  exact (kb.2.2 (by decide)).trans (by decide)

/-! ## Claims on navigation -/

theorem navigate_tabs (screen : String) (movie : Option Movie) (a : AppState)
    (h : (a.lastTab = SCREENS_HOME ∨ a.lastTab = SCREENS_FAVORITES) ∧
      (a.currentScreen = SCREENS_HOME ∨ a.currentScreen = SCREENS_FAVORITES →
        a.lastTab = a.currentScreen)) :
    ((navigate screen movie a).lastTab = SCREENS_HOME ∨
      (navigate screen movie a).lastTab = SCREENS_FAVORITES) ∧
    ((navigate screen movie a).currentScreen = SCREENS_HOME ∨
      (navigate screen movie a).currentScreen = SCREENS_FAVORITES →
        (navigate screen movie a).lastTab = (navigate screen movie a).currentScreen) := by
  by_cases hs : screen = SCREENS_HOME ∨ screen = SCREENS_FAVORITES
  · have hb : (decide (screen = SCREENS_HOME) || decide (screen = SCREENS_FAVORITES)) = true := by
      simpa using hs
    have e : navigate screen movie a
        = { a with selectedMovie := movie, lastTab := screen, currentScreen := screen } := by
      simp only [navigate, hb, if_true]
    rw [e]
    exact ⟨hs, fun _ => rfl⟩
  · have hb : ¬ (decide (screen = SCREENS_HOME) || decide (screen = SCREENS_FAVORITES)) = true := by
      simpa using hs
    have e : navigate screen movie a
        = { a with selectedMovie := movie, currentScreen := screen } := by
      simp [navigate, hb]
    rw [e]
    exact ⟨h.1, fun c => absurd c hs⟩

/-- C27: in every state reached from the initial state of App by `navigate`
calls, `lastTab` is Home or Favorites, and it equals `currentScreen` whenever
that is Home or Favorites.  Navigating to Details leaves `lastTab` as it was, so
from a tab, opening Details and then going back ends on that tab with
`selectedMovie` cleared.  No `navigate` call changes `favorites`. -/
theorem navigation_keeps_last_tab (calls : List (String × Option Movie)) :
    ((navigateAll calls AppState.init).lastTab = SCREENS_HOME ∨
      (navigateAll calls AppState.init).lastTab = SCREENS_FAVORITES) ∧
    ((navigateAll calls AppState.init).currentScreen = SCREENS_HOME ∨
      (navigateAll calls AppState.init).currentScreen = SCREENS_FAVORITES →
        (navigateAll calls AppState.init).lastTab
          = (navigateAll calls AppState.init).currentScreen) ∧
    (∀ (a : AppState) (movie : Option Movie),
      (navigate SCREENS_DETAILS movie a).lastTab = a.lastTab ∧
      (navigate SCREENS_DETAILS movie a).currentScreen = SCREENS_DETAILS ∧
      (navigate SCREENS_DETAILS movie a).selectedMovie = movie) ∧
    (∀ movie : Option Movie,
      ((navigateAll calls AppState.init).currentScreen = SCREENS_HOME ∨
        (navigateAll calls AppState.init).currentScreen = SCREENS_FAVORITES) →
      (navigateBack (navigate SCREENS_DETAILS movie
          (navigateAll calls AppState.init))).currentScreen
        = (navigateAll calls AppState.init).currentScreen ∧
      (navigateBack (navigate SCREENS_DETAILS movie
          (navigateAll calls AppState.init))).lastTab
        = (navigateAll calls AppState.init).currentScreen ∧
      (navigateBack (navigate SCREENS_DETAILS movie
          (navigateAll calls AppState.init))).selectedMovie = none) ∧
    (∀ (a : AppState) (screen : String) (movie : Option Movie),
      (navigate screen movie a).favorites = a.favorites) ∧
    (∀ a : AppState, (navigateAll calls a).favorites = a.favorites) := by
  have inv : ∀ (cs : List (String × Option Movie)) (a : AppState),
      ((a.lastTab = SCREENS_HOME ∨ a.lastTab = SCREENS_FAVORITES) ∧
        (a.currentScreen = SCREENS_HOME ∨ a.currentScreen = SCREENS_FAVORITES →
          a.lastTab = a.currentScreen)) →
      (((navigateAll cs a).lastTab = SCREENS_HOME ∨
          (navigateAll cs a).lastTab = SCREENS_FAVORITES) ∧
        ((navigateAll cs a).currentScreen = SCREENS_HOME ∨
          (navigateAll cs a).currentScreen = SCREENS_FAVORITES →
            (navigateAll cs a).lastTab = (navigateAll cs a).currentScreen)) := by
    intro cs
    induction cs with
    | nil => intro a h; exact h
    | cons c cs ih => intro a h; exact ih _ (navigate_tabs c.1 c.2 a h)
  have hinit := inv calls AppState.init ⟨Or.inl rfl, fun _ => rfl⟩
  have hfav : ∀ (a : AppState) (screen : String) (movie : Option Movie),
      (navigate screen movie a).favorites = a.favorites := by
    intro a screen movie
    simp only [navigate]
    split <;> rfl
  have hdet : ∀ (a : AppState) (movie : Option Movie),
      (navigate SCREENS_DETAILS movie a).lastTab = a.lastTab ∧
      (navigate SCREENS_DETAILS movie a).currentScreen = SCREENS_DETAILS ∧
      (navigate SCREENS_DETAILS movie a).selectedMovie = movie := by
    intro a movie
    have hb : ¬ (decide (SCREENS_DETAILS = SCREENS_HOME) ||
        decide (SCREENS_DETAILS = SCREENS_FAVORITES)) = true := by decide
    have e : navigate SCREENS_DETAILS movie a
        = { a with selectedMovie := movie, currentScreen := SCREENS_DETAILS } := by
      simp [navigate, hb]
    rw [e]
    exact ⟨rfl, rfl, rfl⟩
  refine ⟨hinit.1, hinit.2, hdet, ?_, hfav, ?_⟩
  · intro movie htab
    have hlast := hinit.2 htab
    have hd := hdet (navigateAll calls AppState.init) movie
    have hb : (decide ((navigateAll calls AppState.init).currentScreen = SCREENS_HOME) ||
        decide ((navigateAll calls AppState.init).currentScreen = SCREENS_FAVORITES)) = true := by
      simpa using htab
    have e : navigateBack (navigate SCREENS_DETAILS movie (navigateAll calls AppState.init))
        = { navigate SCREENS_DETAILS movie (navigateAll calls AppState.init) with
            selectedMovie := none,
            lastTab := (navigateAll calls AppState.init).currentScreen,
            currentScreen := (navigateAll calls AppState.init).currentScreen } := by
      simp only [navigateBack, hd.1, hlast]
      simp only [navigate, hb, if_true]
    rw [e]
    exact ⟨rfl, rfl, rfl⟩
  · have all : ∀ (cs : List (String × Option Movie)) (a : AppState),
        (navigateAll cs a).favorites = a.favorites := by
      intro cs
      induction cs with
      | nil => intro a; rfl
      | cons c cs ih =>
        intro a
        exact (ih (navigate c.1 c.2 a)).trans (hfav a c.1 c.2)
    exact all calls

/-- Example for C27: on the favorites tab, opening the details of movie 7 and
going back ends on the favorites tab with no movie selected and the two
favorites untouched. -/
theorem navigation_keeps_last_tab_witness :
    exampleOnFavorites.currentScreen = SCREENS_FAVORITES ∧
    (navigate SCREENS_DETAILS (some (movieWithId 7)) exampleOnFavorites).lastTab
      = SCREENS_FAVORITES ∧
    navigateBack (navigate SCREENS_DETAILS (some (movieWithId 7)) exampleOnFavorites)
      = exampleOnFavorites := by
  have k := navigation_keeps_last_tab
    [(SCREENS_DETAILS, some (movieWithId 5)), (SCREENS_HOME, none), (SCREENS_FAVORITES, none)]
  exact ⟨by decide, ((k.2.2.1 exampleOnFavorites (some (movieWithId 7))).1).trans (by decide),
    by decide⟩

/-! ## Claims on the formatting helpers -/

/-! ### Doubles up to `2 ^ 53` -/

theorem shiftFor_small (f n : Nat) (h : n < 2 ^ 53) : shiftFor f n = 0 := by
  cases f with
  | zero => rfl
  | succ f => simp only [shiftFor, if_pos h]

theorem roundHalfEven_one (n : Nat) : roundHalfEven n 1 = n := by
  simp [roundHalfEven, Nat.mod_one]

theorem toDouble_small (n : Nat) (h : n < 2 ^ 53) : toDouble n = n := by
  simp only [toDouble, shiftFor_small n n h, pow_zero, roundHalfEven_one, mul_one]

theorem shiftFor_big (f : Nat) : ∀ n, 2 ^ 53 ≤ n → 2 ^ 52 * 2 ^ shiftFor f n ≤ n := by
  induction f with
  | zero => intro n h; simp only [shiftFor, pow_zero, mul_one]; omega
  | succ f ih =>
    intro n h
    have hn : ¬ n < 2 ^ 53 := by omega
    simp only [shiftFor, if_neg hn]
    by_cases h2 : n / 2 < 2 ^ 53
    · rw [shiftFor_small f _ h2]
      simp only [zero_add, pow_one]
      omega
    · have := ih (n / 2) (by omega)
      rw [pow_succ]
      have h3 : 2 * (n / 2) ≤ n := Nat.mul_div_le n 2
      calc 2 ^ 52 * (2 ^ shiftFor f (n / 2) * 2) = 2 * (2 ^ 52 * 2 ^ shiftFor f (n / 2)) := by ring
        _ ≤ 2 * (n / 2) := Nat.mul_le_mul_left 2 this
        _ ≤ n := h3

theorem roundHalfEven_ge (p q : Nat) : p / q ≤ roundHalfEven p q := by
  unfold roundHalfEven
  split
  · exact le_refl _
  · split
    · omega
    · split <;> omega

theorem toDouble_big (n : Nat) (h : 2 ^ 53 ≤ n) : 2 ^ 53 ≤ toDouble n := by
  have h1 := shiftFor_big n n h
  have he : 1 ≤ shiftFor n n := by
    cases n with
    | zero => simp at h
    | succ k =>
      have hn : ¬ k + 1 < 2 ^ 53 := by omega
      simp only [shiftFor, if_neg hn]
      omega
  have hpos : 0 < 2 ^ shiftFor n n := Nat.two_pow_pos _
  have h2 : 2 ^ 52 ≤ n / 2 ^ shiftFor n n := (Nat.le_div_iff_mul_le hpos).mpr h1
  have h3 := roundHalfEven_ge n (2 ^ shiftFor n n)
  have h4 : 2 ^ 1 ≤ 2 ^ shiftFor n n := Nat.pow_le_pow_right (by decide) he
  unfold toDouble
  calc 2 ^ 53 = 2 ^ 52 * 2 ^ 1 := by norm_num
    _ ≤ roundHalfEven n (2 ^ shiftFor n n) * 2 ^ shiftFor n n :=
      Nat.mul_le_mul (le_trans h2 h3) h4

theorem toDouble_eq_safe (v c : Nat) (hv : v < 2 ^ 53) (h : toDouble c = v) : c = v := by
  by_cases hc : c < 2 ^ 53
  · rw [toDouble_small c hc] at h; exact h
  · have := toDouble_big c (by omega)
    omega

theorem candidate_safe (v j c : Nat) (hv : v < 2 ^ 53) (h : candidate v j = some c) : c = v := by
  unfold candidate at h
  simp only [] at h
  have key : ∀ x : Nat, (toDouble x == v) = true → x = v := fun x hx =>
    toDouble_eq_safe v x hv (by simpa using hx)
  split at h
  · rename_i hb
    rw [Bool.and_eq_true, Bool.and_eq_true] at hb
    have e1 := key _ hb.1.2
    have e2 := key _ hb.2
    split at h
    · cases h; exact e1
    · split at h
      · cases h; exact e2
      · split at h
        · cases h; exact e1
        · cases h; exact e2
  · split at h
    · rename_i hb
      rw [Bool.and_eq_true] at hb
      cases h
      exact key _ hb.2
    · split at h
      · rename_i hb
        cases h
        exact key _ hb
      · cases h

theorem shortest_safe (v : Nat) (hv : v < 2 ^ 53) : ∀ j, shortest v j = v := by
  intro j
  induction j with
  | zero => rfl
  | succ j ih =>
    simp only [shortest]
    cases hc : candidate v (j + 1) with
    | none => simpa using ih
    | some c => simpa using candidate_safe v (j + 1) c hv hc

theorem doubleToString_safe (v : Nat) (hv : v ≤ 2 ^ 53) : doubleToString v = toString v := by
  rcases Nat.eq_or_lt_of_le hv with h | h
  · subst h; decide
  · unfold doubleToString
    have h1 : ¬ doubleOverflow ≤ v := by
      have : (2:Nat) ^ 53 ≤ doubleOverflow := by
        unfold doubleOverflow
        norm_num
      omega
    rw [if_neg h1]
    simp only [shortest_safe v h]
    have h2 : v < 10 ^ 21 := by
      have : (2:Nat) ^ 53 < 10 ^ 21 := by norm_num
      omega
    rw [if_pos h2]

theorem scaleFor_spec (q : Nat) (f : Nat) : ∀ p, q * 2 ^ 53 ≤ p * 2 ^ (f + 1) →
    q * 2 ^ 53 ≤ p * 2 ^ (scaleFor f p q + 1) := by
  induction f with
  | zero => intro p h; simpa [scaleFor] using h
  | succ f ih =>
    intro p h
    simp only [scaleFor]
    by_cases hc : 2 * p < q * 2 ^ 53
    · rw [if_pos hc]
      have e1 : p * 2 ^ (f + 1 + 1) = 2 * p * 2 ^ (f + 1) := by ring
      have e2 : p * 2 ^ (scaleFor f (2 * p) q + 1 + 1)
          = 2 * p * 2 ^ (scaleFor f (2 * p) q + 1) := by ring
      rw [e1] at h
      rw [e2]
      exact ih (2 * p) h
    · rw [if_neg hc]
      simp only [zero_add, pow_one]
      omega

theorem roundHalfEven_sixty (n : Nat) :
    n / 60 ≤ roundHalfEven n 60 ∧ 60 * roundHalfEven n 60 ≤ n + 30 := by
  unfold roundHalfEven
  split
  · omega
  · split
    · omega
    · split <;> omega

theorem floorDivDouble_safe (p : Nat) (hp : p ≤ 2 ^ 53) : floorDivDouble p 60 = p / 60 := by
  have hlt : p < 60 * 2 ^ 53 := by omega
  unfold floorDivDouble
  rw [if_pos hlt]
  rcases Nat.eq_zero_or_pos p with h0 | hpos
  · subst h0
    simp [roundHalfEven]
  · have hs := scaleFor_spec 60 (53 + 60) p (by
      have : (60 : Nat) * 2 ^ 53 ≤ 1 * 2 ^ (53 + 60 + 1) := by norm_num
      calc 60 * 2 ^ 53 ≤ 1 * 2 ^ (53 + 60 + 1) := this
        _ ≤ p * 2 ^ (53 + 60 + 1) := Nat.mul_le_mul_right _ hpos)
    generalize scaleFor (53 + 60) p 60 = t at hs ⊢
    have ht : 5 ≤ t := by
      by_contra hn
      have h1 : 2 ^ (t + 1) ≤ 2 ^ 5 := Nat.pow_le_pow_right (by decide) (by omega)
      have h2 : p * 2 ^ (t + 1) ≤ 2 ^ 53 * 2 ^ 5 := Nat.mul_le_mul hp h1
      have h3 : (2:Nat) ^ 53 * 2 ^ 5 < 60 * 2 ^ 53 := by norm_num
      omega
    have hT : 2 ^ 5 ≤ 2 ^ t := Nat.pow_le_pow_right (by decide) ht
    generalize 2 ^ t = T at hT ⊢
    obtain ⟨r1, r2⟩ := roundHalfEven_sixty (p * T)
    generalize roundHalfEven (p * T) 60 = M at r1 r2
    have hTpos : 0 < T := by omega
    have hdm : 60 * (p / 60) + p % 60 = p := Nat.div_add_mod p 60
    have hmod : p % 60 < 60 := Nat.mod_lt _ (by decide)
    have e1 : p * T = 60 * (p / 60 * T) + p % 60 * T := by
      conv_lhs => rw [← hdm]
      ring
    have e2 : p % 60 * T ≤ 59 * T := Nat.mul_le_mul_right T (by omega)
    have lo : p / 60 * T ≤ M := by
      have : p / 60 * T ≤ p * T / 60 := by
        rw [Nat.le_div_iff_mul_le (by decide)]
        rw [e1]
        omega
      omega
    have hi : M < (p / 60 + 1) * T := by
      rw [Nat.add_mul, one_mul]
      omega
    apply Nat.div_eq_of_lt_le
    · exact lo
    · exact hi

theorem toDouble_safe (n : Nat) (h : n ≤ 2 ^ 53) : toDouble n = n := by
  rcases Nat.eq_or_lt_of_le h with h | h
  · subst h; decide
  · exact toDouble_small n h

theorem toNumber_safe (x : Int) (h0 : 0 ≤ x) (h : x ≤ 2 ^ 53) : toNumber x = x := by
  obtain ⟨n, rfl⟩ := Int.eq_ofNat_of_zero_le h0
  have hn : n ≤ 2 ^ 53 := by exact_mod_cast h
  have h1 : ¬ ((n : Int) < 0) := by omega
  simp only [toNumber, if_neg h1, Int.natAbs_ofNat, toDouble_safe n hn]

theorem numberToString_safe (x : Int) (h0 : 0 ≤ x) (h : x ≤ 2 ^ 53) :
    numberToString x = toString x := by
  obtain ⟨n, rfl⟩ := Int.eq_ofNat_of_zero_le h0
  have hn : n ≤ 2 ^ 53 := by exact_mod_cast h
  have h1 : ¬ ((n : Int) < 0) := by omega
  simp only [numberToString, if_neg h1, Int.natAbs_ofNat, doubleToString_safe n hn]
  rfl

theorem mathFloorDiv_safe (x : Int) (h0 : 0 ≤ x) (h : x ≤ 2 ^ 53) :
    mathFloorDiv x 60 = x / 60 := by
  obtain ⟨n, rfl⟩ := Int.eq_ofNat_of_zero_le h0
  have hn : n ≤ 2 ^ 53 := by exact_mod_cast h
  have h1 : ¬ ((n : Int) < 0) := by omega
  simp only [mathFloorDiv, if_neg h1, Int.natAbs_ofNat, floorDivDouble_safe n hn]
  rfl

/-- Counterexample to C28 as stated: `10 ^ 21` is a double, and 60 divides it
with quotient 16666666666666666666 and remainder 40.  The division of doubles
rounds the quotient to the double 16666666666666665984, whose string is
16666666666666666000, so the result is not made of the quotient and the
remainder, and 60 times the hours shown plus the minutes is not `mins`.  The
claim already fails at `2 ^ 53 + 1`, which is no double: its number value is
`2 ^ 53`, so the minutes shown are 32 where the remainder is 33. -/
theorem formatRuntime_large_counterexample :
    toNumber (10 ^ 21) = 10 ^ 21 ∧
    formatRuntime (some (10 ^ 21)) = "16666666666666666000h 40m" ∧
    (10 ^ 21 : Int) / 60 = 16666666666666666666 ∧
    (10 ^ 21 : Int) % 60 = 40 ∧
    formatRuntime (some (10 ^ 21))
      ≠ toString ((10 ^ 21 : Int) / 60) ++ "h " ++ toString ((10 ^ 21 : Int) % 60) ++ "m" ∧
    mathFloorDiv (10 ^ 21) 60 = 16666666666666665984 ∧
    (60 * 16666666666666666000 + 40 : Int) ≠ 10 ^ 21 ∧
    toNumber (2 ^ 53 + 1) = 2 ^ 53 ∧
    formatRuntime (some (2 ^ 53 + 1)) = "150119987579016h 32m" ∧
    (2 ^ 53 + 1 : Int) % 60 = 33 := by
  decide

/-- C28 as amended: for an integer `mins` from 1 to `2 ^ 53`, with
`h = mins div 60` and `m = mins mod 60`, so that `60 * h + m = mins` and
`0 <= m < 60`, `formatRuntime(mins)` is `<h>h <m>m` when both are nonzero,
`<h>h` when `m = 0` and `<m>m` when `h = 0`; for 0 and for a missing value it
is the empty string. -/
theorem formatRuntime_hours_minutes_safe (mins : Int) (h1 : 1 ≤ mins)
    (h2 : mins ≤ 2 ^ 53) :
    (mins / 60 ≠ 0 ∧ mins % 60 ≠ 0 →
      formatRuntime (some mins)
        = toString (mins / 60) ++ "h " ++ toString (mins % 60) ++ "m") ∧
    (mins % 60 = 0 → formatRuntime (some mins) = toString (mins / 60) ++ "h") ∧
    (mins / 60 = 0 → formatRuntime (some mins) = toString (mins % 60) ++ "m") ∧
    60 * (mins / 60) + mins % 60 = mins ∧
    0 ≤ mins % 60 ∧ mins % 60 < 60 ∧ 0 ≤ mins / 60 ∧
    formatRuntime (some 0) = "" ∧
    formatRuntime none = "" := by
  have hx : toNumber mins = mins := toNumber_safe mins (by omega) h2
  have hq : mathFloorDiv mins 60 = mins / 60 := mathFloorDiv_safe mins (by omega) h2
  have hr : Int.tmod mins 60 = mins % 60 := Int.tmod_eq_emod (by omega) (by decide)
  have hn : mins ≠ 0 := by omega
  have hbig : ¬ doubleOverflow ≤ mins.natAbs := by
    have e : (2 : Nat) ^ 53 < doubleOverflow := by
      unfold doubleOverflow
      norm_num
    have : mins.natAbs ≤ 2 ^ 53 := by omega
    omega
  have hsq : numberToString (mins / 60) = toString (mins / 60) :=
    numberToString_safe _ (by omega) (by omega)
  have hsr : numberToString (mins % 60) = toString (mins % 60) :=
    numberToString_safe _ (by omega) (by omega)
  have hdef : formatRuntime (some mins)
      = if (mins / 60 != 0 && mins % 60 != 0) = true then
          toString (mins / 60) ++ "h " ++ toString (mins % 60) ++ "m"
        else if (mins / 60 != 0) = true then toString (mins / 60) ++ "h"
        else toString (mins % 60) ++ "m" := by
    simp only [formatRuntime, hx, hn, if_false, hbig, hq, hr, hsq, hsr]
  refine ⟨?_, ?_, ?_, by omega, by omega, by omega, by omega, by decide, rfl⟩
  · rintro ⟨ha, hb⟩
    rw [hdef]
    simp [ha, hb]
  · intro hb
    have ha : mins / 60 ≠ 0 := by omega
    rw [hdef]
    simp [ha, hb]
  · intro ha
    rw [hdef]
    simp [ha]

/-- Example for amended C28: 135 minutes are "2h 15m", 120 minutes "2h" and 45
minutes "45m"; at the bound, `2 ^ 53` minutes are 150119987579016 hours and 32
minutes. -/
theorem formatRuntime_hours_minutes_safe_witness :
    formatRuntime (some 135) = "2h 15m" ∧
    formatRuntime (some 120) = "2h" ∧
    formatRuntime (some 45) = "45m" ∧
    formatRuntime (some (2 ^ 53)) = "150119987579016h 32m" := by
  have a := (formatRuntime_hours_minutes_safe 135 (by decide) (by decide)).1 (by decide)
  have b := (formatRuntime_hours_minutes_safe 120 (by decide) (by decide)).2.1 (by decide)
  have c := (formatRuntime_hours_minutes_safe 45 (by decide) (by decide)).2.2.1 (by decide)
  have d := (formatRuntime_hours_minutes_safe (2 ^ 53) (by decide) (by decide)).1 (by decide)
  exact ⟨a.trans (by decide), b.trans (by decide), c.trans (by decide), d.trans (by decide)⟩

theorem toDigitsCore_forall (P : Char → Prop) (hP : ∀ k : Nat, k < 10 → P (Nat.digitChar k))
    (fuel n : Nat) (ds : List Char) (hds : ∀ c ∈ ds, P c) :
    ∀ c ∈ Nat.toDigitsCore 10 fuel n ds, P c := by
  induction fuel generalizing n ds with
  | zero => simpa [Nat.toDigitsCore] using hds
  | succ fuel ih =>
    have hcons : ∀ c ∈ Nat.digitChar (n % 10) :: ds, P c := by
      intro c hc
      rcases List.mem_cons.1 hc with rfl | hc
      · exact hP _ (Nat.mod_lt _ (by decide))
      · exact hds c hc
    simp only [Nat.toDigitsCore]
    split
    · exact hcons
    · exact ih _ _ hcons

theorem natToString_digits (n : Nat) : ∀ c ∈ (toString n).data, c.isDigit = true := by
  intro c hc
  have : (toString n).data = Nat.toDigitsCore 10 (n + 1) n [] := rfl
  rw [this] at hc
  exact toDigitsCore_forall (fun c => c.isDigit = true) (by decide) _ _ []
    (fun _ h => absurd h (List.not_mem_nil _)) c hc

theorem isWordChar_of_isDigit (c : Char) (h : c.isDigit = true) : isWordChar c = true := by
  simp [isWordChar, Char.isAlphanum, h]

theorem ne_comma_of_isDigit (c : Char) (h : c.isDigit = true) : c ≠ ',' := by
  rintro rfl
  exact absurd h (by decide)

theorem lookaheadGroups_digits (l : List Char) (h : ∀ c ∈ l, c.isDigit = true) :
    lookaheadGroups l = decide (l ≠ [] ∧ l.length % 3 = 0) := by
  induction l using lookaheadGroups.induct with
  | case1 a b c tl ih =>
    have ha := h a (by simp)
    have hb := h b (by simp)
    have hc := h c (by simp)
    have htl : ∀ x ∈ tl, x.isDigit = true := fun x hx => h x (by simp [hx])
    rw [lookaheadGroups, ha, hb, hc, ih htl]
    cases tl with
    | nil => simp
    | cons t ts =>
      have ht := h t (by simp)
      simp only [List.head?_cons, Option.map_some', Option.getD_some, ht, Bool.not_true,
        Bool.false_or, Bool.true_and, List.length_cons, ne_eq, reduceCtorEq, not_false_eq_true,
        true_and, decide_eq_decide]
      omega
  | case2 l hl =>
    rw [lookaheadGroups]
    · match l, hl with
      | [], _ => simp
      | [_], _ => simp
      | [_, _], _ => simp
      | a :: b :: c :: tl, hl => exact absurd rfl (hl a b c tl)
    · exact hl

theorem insertCommas_digits (d : Char) (hd : d.isDigit = true) (rest : List Char)
    (h : ∀ c ∈ rest, c.isDigit = true) :
    insertCommas (some d) rest
      = if rest ≠ [] ∧ rest.length % 3 = 0 then ',' :: thousands rest else thousands rest := by
  induction rest generalizing d with
  | nil => simp [insertCommas, atNonBoundary, isWordChar_of_isDigit d hd, thousands]
  | cons c rest ih =>
    have hc := h c (List.mem_cons_self _ _)
    have hrest : ∀ x ∈ rest, x.isDigit = true := fun x hx => h x (List.mem_cons_of_mem _ hx)
    have hnb : atNonBoundary (some d) (some c) = true := by
      simp [atNonBoundary, isWordChar_of_isDigit d hd, isWordChar_of_isDigit c hc]
    rw [insertCommas, hnb, Bool.true_and, lookaheadGroups_digits (c :: rest) h, ih c hc hrest]
    have hth : thousands (c :: rest)
        = c :: (if rest ≠ [] ∧ rest.length % 3 = 0 then ',' :: thousands rest
            else thousands rest) := by
      rw [thousands]
      split <;> rfl
    rw [hth]
    by_cases hcond : (rest.length + 1) % 3 = 0
    · simp [hcond]
    · simp [hcond]

theorem insertCommas_numeral (l : List Char) (h : ∀ c ∈ l, c.isDigit = true) :
    insertCommas none l = thousands l := by
  cases l with
  | nil => simp [insertCommas, lookaheadGroups, thousands]
  | cons c rest =>
    have hc := h c (List.mem_cons_self _ _)
    have hrest : ∀ x ∈ rest, x.isDigit = true := fun x hx => h x (List.mem_cons_of_mem _ hx)
    have hnb : atNonBoundary none (some c) = false := by
      simp [atNonBoundary, isWordChar_of_isDigit c hc]
    rw [insertCommas, hnb, Bool.false_and, insertCommas_digits c hc rest hrest, thousands]
    simp only [Bool.false_eq_true, if_false, List.nil_append]
    split <;> rfl

theorem thousands_filter (l : List Char) (h : ∀ c ∈ l, c ≠ ',') :
    (thousands l).filter (fun c => c != ',') = l := by
  induction l with
  | nil => rfl
  | cons c rest ih =>
    have hc : (c != ',') = true := by simpa using h c (List.mem_cons_self _ _)
    have hr := ih (fun x hx => h x (List.mem_cons_of_mem _ hx))
    rw [thousands]
    split
    · rw [List.filter_cons, hc, if_pos rfl, List.filter_cons]
      simp [hr]
    · rw [List.filter_cons, hc, if_pos rfl, hr]

theorem thousands_groups (l : List Char) (hne : l ≠ []) (h : ∀ c ∈ l, c ≠ ',') :
    ∃ g gs, (thousands l).splitOn ',' = g :: gs ∧ g.length = (l.length - 1) % 3 + 1 ∧
      ∀ x ∈ gs, x.length = 3 := by
  induction l with
  | nil => exact absurd rfl hne
  | cons c rest ih =>
    have hc : c ≠ ',' := h c (List.mem_cons_self _ _)
    have hcb : ¬ ((c == ',') = true) := by simpa using hc
    cases hr : rest with
    | nil =>
      refine ⟨[c], [], ?_, rfl, fun _ hx => absurd hx (List.not_mem_nil _)⟩
      simp [thousands, List.splitOn, List.splitOnP_cons, hcb, List.splitOnP_nil]
    | cons r rs =>
      obtain ⟨g, gs, hsplit, hlen, hgs⟩ := ih (by rw [hr]; simp)
        (fun x hx => h x (List.mem_cons_of_mem _ hx))
      rw [hr] at hsplit hlen
      rw [thousands]
      by_cases hcond : (r :: rs) ≠ [] ∧ (r :: rs).length % 3 = 0
      · rw [if_pos hcond]
        refine ⟨[c], g :: gs, ?_, ?_, ?_⟩
        · rw [List.splitOn, List.splitOnP_cons, if_neg hcb, List.splitOnP_cons,
            if_pos (by simp)]
          rw [List.splitOn] at hsplit
          rw [hsplit]
          rfl
        · simp only [List.length_cons, List.length_nil]
          have := hcond.2
          simp only [List.length_cons] at this
          omega
        · intro x hx
          rcases List.mem_cons.1 hx with rfl | hx
          · rw [hlen]
            have := hcond.2
            simp only [List.length_cons] at this ⊢
            omega
          · exact hgs x hx
      · rw [if_neg hcond]
        refine ⟨c :: g, gs, ?_, ?_, hgs⟩
        · rw [List.splitOn, List.splitOnP_cons, if_neg hcb]
          rw [List.splitOn] at hsplit
          rw [hsplit]
          rfl
        · have hmod : ¬ (r :: rs).length % 3 = 0 := fun c0 => hcond ⟨by simp, c0⟩
          simp only [List.length_cons] at hlen hmod ⊢
          omega

/-- Counterexample to C29 as stated: `10 ^ 21` and `2 ^ 60` are doubles.  The
string of `10 ^ 21` is `1e+21`, so the result is `$1e+21`, which is not the
decimal digits of the value with commas; the string of `2 ^ 60` ends in the
digits 847000 where the numeral of `2 ^ 60` ends in 846976, so deleting the
commas does not give the numeral back.  The claim already fails at
`2 ^ 53 + 1`, which is no double: its number value is `2 ^ 53`, and the digits
shown are those of `2 ^ 53`. -/
theorem formatCurrency_large_counterexample :
    toNumber (10 ^ 21) = 10 ^ 21 ∧
    formatCurrency (some (10 ^ 21)) = "$1e+21" ∧
    formatCurrency (some (10 ^ 21))
      ≠ "$" ++ String.mk (thousands (toString (10 ^ 21 : Int)).data) ∧
    toNumber (2 ^ 60) = 2 ^ 60 ∧
    formatCurrency (some (2 ^ 60)) = "$1,152,921,504,606,847,000" ∧
    toString (2 ^ 60 : Int) = "1152921504606846976" ∧
    formatCurrency (some (2 ^ 60))
      ≠ "$" ++ String.mk (thousands (toString (2 ^ 60 : Int)).data) ∧
    toNumber (2 ^ 53 + 1) = 2 ^ 53 ∧
    formatCurrency (some (2 ^ 53 + 1)) = "$9,007,199,254,740,992" := by
  decide

/-- C29 as amended: for an integer `v` from 1 to `2 ^ 53`, `formatCurrency(v)`
is `$` followed by the decimal digits of `v` with a comma exactly in the gaps
that have a positive multiple of three digits to their right: deleting the
commas gives the numeral of `v` back, the first comma-separated group has one
to three digits and every later group exactly three; for 0 and for a missing
value the result is `$0`. -/
theorem formatCurrency_groups_thousands_safe (v : Int) (h : 1 ≤ v) (h2 : v ≤ 2 ^ 53) :
    formatCurrency (some v) = "$" ++ String.mk (thousands (toString v).data) ∧
    (∀ c ∈ (toString v).data, c.isDigit = true) ∧
    (decimalValue (toString v).data : Int) = v ∧
    (thousands (toString v).data).filter (fun c => c != ',') = (toString v).data ∧
    (∃ g gs, (thousands (toString v).data).splitOn ',' = g :: gs ∧
      1 ≤ g.length ∧ g.length ≤ 3 ∧ ∀ x ∈ gs, x.length = 3) ∧
    formatCurrency (some 0) = "$0" ∧
    formatCurrency none = "$0" := by
  have hx : toNumber v = v := toNumber_safe v (by omega) h2
  have hstr : numberToString v = toString v := numberToString_safe v (by omega) h2
  obtain ⟨n, rfl⟩ := Int.eq_ofNat_of_zero_le (by omega : 0 ≤ v)
  have hs : toString (n : Int) = toString n := rfl
  have hdig := natToString_digits n
  have hcomma : ∀ c ∈ (toString n).data, c ≠ ',' := fun c hc => ne_comma_of_isDigit c (hdig c hc)
  have hne : (toString n).data ≠ [] := by
    intro c0
    have := decimalValue_toString n
    rw [c0] at this
    simp only [decimalValue, List.foldl_nil] at this
    omega
  have hn0 : (n : Int) ≠ 0 := by omega
  rw [hs] at hstr ⊢
  refine ⟨?_, hdig, by rw [decimalValue_toString], thousands_filter _ hcomma, ?_, by decide, rfl⟩
  · simp only [formatCurrency, hx, hn0, if_false, hstr]
    rw [insertCommas_numeral _ hdig]
  · obtain ⟨g, gs, hsplit, hlen, hgs⟩ := thousands_groups _ hne hcomma
    refine ⟨g, gs, hsplit, by omega, by omega, hgs⟩

/-- Example for amended C29: 1234567 gives "$1,234,567", 1000 gives "$1,000" and
999 gives "$999"; at the bound, `2 ^ 53` gives "$9,007,199,254,740,992". -/
theorem formatCurrency_groups_thousands_safe_witness :
    formatCurrency (some 1234567) = "$1,234,567" ∧
    formatCurrency (some 1000) = "$1,000" ∧
    formatCurrency (some 999) = "$999" ∧
    formatCurrency (some (2 ^ 53)) = "$9,007,199,254,740,992" := by
  have a := (formatCurrency_groups_thousands_safe 1234567 (by decide) (by decide)).1
  have b := (formatCurrency_groups_thousands_safe 1000 (by decide) (by decide)).1
  have c := (formatCurrency_groups_thousands_safe 999 (by decide) (by decide)).1
  have d := (formatCurrency_groups_thousands_safe (2 ^ 53) (by decide) (by decide)).1
  exact ⟨a.trans (by decide), b.trans (by decide), c.trans (by decide), d.trans (by decide)⟩

end MovieApp
